import Mathlib

/-!
# Presencia60: attendance analytics, calendar engine and record store

A shallow embedding of `js/calculations.js`, `presencia60/js/storage.js` and
the handlers of `js/app.js` that change the store, together with the parts of
the ECMAScript `Date` object they call.

Modelling conventions.

* JavaScript numbers that hold integers (day counts, years, time values) are
  `Int`; numbers that hold fractions are `ℚ`, and a fraction that a function
  returns stands for the binary64 number nearest to it.  Where the rounding
  of binary64 decides an integer result it is modelled: `Math.ceil(n * 0.60)`
  is also evaluated in binary64 (`Binary64.ceilOfProduct`) and agrees with the
  exact value for every `n` up to `2 ^ 50`; the quotient and the product that
  `projectFinalPercentage` passes to `Math.round` are binary64 numbers
  (`Binary64.nearest`).
* The functions of `js/calculations.js` work on time values without the range
  limit of `Date` (8.64e15 ms); `JSDate.TimeClip` and the namespace
  `TimeClipped` model the limit, and `getWorkingDaysInMonth` agrees with its
  `TimeClipped` form for the years -271820 to 275759.
* A `Date` object is its time value, the number of milliseconds since the
  epoch.  The local time zone is a fixed offset `tz` (the ECMAScript
  `LocalTZA`, in milliseconds east of UTC); daylight saving changes are not
  modelled.  The clock read by `new Date()` is the parameter `now`.
* A JavaScript object used as a dictionary is the list of its own string
  keyed properties in insertion order, without repeated keys.  Keys are date
  keys, which never name a member of `Object.prototype`.
* `localStorage` holds either nothing, a text that does not parse, or the
  JSON text of a document; `JSON.parse (JSON.stringify doc)` is `doc`.
* Counts of records are `Nat`.  `new Date(text)` is modelled for the two forms
  of the date time string format the program builds, `YYYY-MM-DD` (a UTC
  midnight) and `YYYY-MM-DDTHH:mm:ss` (a local time); `localeCompare` is the
  order of the characters, which is the locale order on date keys.
* The handlers of `js/app.js` are modelled by their effect on `localStorage`,
  with the values of the form fields as arguments; the calendar is modelled
  by the class of the cell of one day.
-/

set_option autoImplicit false

/-! ## The ECMAScript date algorithms (ECMA-262, section "Date Objects") -/

namespace JSDate

def msPerDay : Int := 86400000

def msPerHour : Int := 3600000

def msPerMinute : Int := 60000

def msPerSecond : Int := 1000

/-- The day number of a time value: `floor (t / msPerDay)`. -/
def Day (t : Int) : Int := t / msPerDay

def TimeWithinDay (t : Int) : Int := t % msPerDay

def DaysInYear (y : Int) : Int :=
  if y % 4 ≠ 0 then 365
  else if y % 100 ≠ 0 then 366
  else if y % 400 ≠ 0 then 365
  else 366

/-- The day number of the first day of year `y`. -/
def DayFromYear (y : Int) : Int :=
  365 * (y - 1970) + (y - 1969) / 4 - (y - 1901) / 100 + (y - 1601) / 400

/-- The largest year `y` with `DayFromYear y ≤ d`, computed from the mean
year length of 146097 / 400 days and corrected by at most one year. -/
def yearFromDay (d : Int) : Int :=
  let y0 := 1970 + (400 * d) / 146097
  if d < DayFromYear y0 then y0 - 1
  else if DayFromYear (y0 + 1) ≤ d then y0 + 1
  else y0

def YearFromTime (t : Int) : Int := yearFromDay (Day t)

def InLeapYear (t : Int) : Int :=
  if DaysInYear (YearFromTime t) = 366 then 1 else 0

def DayWithinYear (t : Int) : Int := Day t - DayFromYear (YearFromTime t)

def MonthFromTime (t : Int) : Int :=
  let d := DayWithinYear t
  let l := InLeapYear t
  if d < 31 then 0
  else if d < 59 + l then 1
  else if d < 90 + l then 2
  else if d < 120 + l then 3
  else if d < 151 + l then 4
  else if d < 181 + l then 5
  else if d < 212 + l then 6
  else if d < 243 + l then 7
  else if d < 273 + l then 8
  else if d < 304 + l then 9
  else if d < 334 + l then 10
  else 11

def DateFromTime (t : Int) : Int :=
  let d := DayWithinYear t
  let l := InLeapYear t
  match MonthFromTime t with
  | 0 => d + 1
  | 1 => d - 30
  | 2 => d - 58 - l
  | 3 => d - 89 - l
  | 4 => d - 119 - l
  | 5 => d - 150 - l
  | 6 => d - 180 - l
  | 7 => d - 211 - l
  | 8 => d - 242 - l
  | 9 => d - 272 - l
  | 10 => d - 303 - l
  | _ => d - 333 - l

/-- The day of the week of a time value, 0 = Sunday .. 6 = Saturday. -/
def WeekDay (t : Int) : Int := (Day t + 4) % 7

def HourFromTime (t : Int) : Int := (t / msPerHour) % 24

def MinFromTime (t : Int) : Int := (t / msPerMinute) % 60

def SecFromTime (t : Int) : Int := (t / msPerSecond) % 60

def msFromTime (t : Int) : Int := t % msPerSecond

def MakeTime (hour min sec ms : Int) : Int :=
  hour * msPerHour + min * msPerMinute + sec * msPerSecond + ms

/-- The number of days of year `ym` that precede month `mn` (0 .. 11). -/
def daysBeforeMonth (ym mn : Int) : Int :=
  let l : Int := if DaysInYear ym = 366 then 1 else 0
  match mn with
  | 0 => 0
  | 1 => 31
  | 2 => 59 + l
  | 3 => 90 + l
  | 4 => 120 + l
  | 5 => 151 + l
  | 6 => 181 + l
  | 7 => 212 + l
  | 8 => 243 + l
  | 9 => 273 + l
  | 10 => 304 + l
  | _ => 334 + l

/-- The day number of day `date` of month `month` of `year`: the month is
carried into the year, and the day of month may lie outside the month. -/
def MakeDay (year month date : Int) : Int :=
  let ym := year + month / 12
  let mn := month % 12
  DayFromYear ym + daysBeforeMonth ym mn + date - 1

def MakeDate (day time : Int) : Int := day * msPerDay + time

def LocalTime (tz t : Int) : Int := t + tz

def UTC (tz t : Int) : Int := t - tz

/-- The time value that `new Date(year, month, day)` computes, before
`TimeClip`: local midnight; a year from 0 to 99 stands for 1900 + year. -/
def newDate (tz year month day : Int) : Int :=
  let yr := if 0 ≤ year ∧ year ≤ 99 then 1900 + year else year
  UTC tz (MakeDate (MakeDay yr month day) (MakeTime 0 0 0 0))

/-- The largest time value of a `Date` object: 100 000 000 days. -/
def maxTime : Int := 8640000000000000

/-- The operation `TimeClip`: a time value beyond 100 000 000 days from the
epoch becomes `NaN`, here `none`, and the `Date` object is invalid. -/
def TimeClip (t : Int) : Option Int :=
  if -maxTime ≤ t ∧ t ≤ maxTime then some t else none

/-- The `Date` object `new Date(year, month, day)`: its time value after
`TimeClip`, `none` for the invalid date.  `newDate` is the time value before
`TimeClip`. -/
def newDateObject (tz year month day : Int) : Option Int :=
  TimeClip (newDate tz year month day)

def getFullYear (tz t : Int) : Int := YearFromTime (LocalTime tz t)

def getMonth (tz t : Int) : Int := MonthFromTime (LocalTime tz t)

def getDate (tz t : Int) : Int := DateFromTime (LocalTime tz t)

def getDay (tz t : Int) : Int := WeekDay (LocalTime tz t)

/-- The time value after `setHours(hour, min, sec, ms)`. -/
def setHours (tz t hour min sec ms : Int) : Int :=
  UTC tz (MakeDate (Day (LocalTime tz t)) (MakeTime hour min sec ms))

end JSDate

/-! ## Strings -/

namespace JSString

/-- The method `s.padStart(targetLength, c)` for a one-character pad string. -/
def padStart (s : String) (targetLength : Nat) (c : Char) : String :=
  String.mk (List.replicate (targetLength - s.data.length) c) ++ s

/-- The method `s.startsWith(p)`. -/
def startsWith (s p : String) : Bool := p.data.isPrefixOf s.data

/-- The text of an integer-valued number, as in a template literal. -/
def ofNumber (n : Int) : String := toString n

/-- The expression `s.split(c)[0]`: the text before the first `c`, or all of
`s` when it has no `c`. -/
def beforeFirst (s : String) (c : Char) : String :=
  String.mk (s.data.takeWhile (fun x => x ≠ c))

/-- The method `a.localeCompare(b)` on date keys: on texts of digits and
dashes in the same places the locale order is the order of the characters. -/
def localeCompare (a b : String) : Int :=
  if a < b then -1 else if a = b then 0 else 1

end JSString

namespace JSDate

/-- The date part `YYYY-MM-DD` of `toISOString()`; years outside 0 .. 9999
are written with a sign and six digits. -/
def isoDatePart (t : Int) : String :=
  let y := YearFromTime t
  let ys :=
    if 0 ≤ y ∧ y ≤ 9999 then JSString.padStart (JSString.ofNumber y) 4 '0'
    else (if y < 0 then "-" else "+") ++ JSString.padStart (JSString.ofNumber y.natAbs) 6 '0'
  ys ++ "-" ++ JSString.padStart (JSString.ofNumber (MonthFromTime t + 1)) 2 '0'
     ++ "-" ++ JSString.padStart (JSString.ofNumber (DateFromTime t)) 2 '0'

/-- The time part `HH:mm:ss.sssZ` of `toISOString()`. -/
def isoTimePart (t : Int) : String :=
  JSString.padStart (JSString.ofNumber (HourFromTime t)) 2 '0'
    ++ ":" ++ JSString.padStart (JSString.ofNumber (MinFromTime t)) 2 '0'
    ++ ":" ++ JSString.padStart (JSString.ofNumber (SecFromTime t)) 2 '0'
    ++ "." ++ JSString.padStart (JSString.ofNumber (msFromTime t)) 3 '0' ++ "Z"

/-- The method `toISOString()`: the UTC date and time of the time value. -/
def toISOString (t : Int) : String := isoDatePart t ++ "T" ++ isoTimePart t

/-- The value of a decimal digit; `none` for any other character. -/
def digit (c : Char) : Option Int :=
  if c.isDigit then some ((c.toNat : Int) - 48) else none

def twoDigits (a b : Char) : Option Int :=
  match digit a, digit b with
  | some x, some y => some (10 * x + y)
  | _, _ => none

def fourDigits (a b c d : Char) : Option Int :=
  match twoDigits a b, twoDigits c d with
  | some x, some y => some (100 * x + y)
  | _, _ => none

/-- The number of days of month `mn` (0 .. 11) of year `ym`. -/
def DaysInMonth (ym mn : Int) : Int :=
  (if mn = 11 then DaysInYear ym else daysBeforeMonth ym (mn + 1)) - daysBeforeMonth ym mn

/-- The day number a date text `YYYY-MM-DD` names; `none` when a character is
not a digit, the month is not 01 .. 12 or the day is not a day of the month. -/
def parseDay (y1 y2 y3 y4 m1 m2 d1 d2 : Char) : Option Int :=
  match fourDigits y1 y2 y3 y4, twoDigits m1 m2, twoDigits d1 d2 with
  | some y, some m, some d =>
    if 1 ≤ m ∧ m ≤ 12 ∧ 1 ≤ d ∧ d ≤ DaysInMonth y (m - 1) then some (MakeDay y (m - 1) d)
    else none
  | _, _, _ => none

/-- The time within the day a time text `HH:mm:ss` names. -/
def parseTime (h1 h2 n1 n2 s1 s2 : Char) : Option Int :=
  match twoDigits h1 h2, twoDigits n1 n2, twoDigits s1 s2 with
  | some h, some n, some s =>
    if (h ≤ 23 ∧ n ≤ 59 ∧ s ≤ 59) ∨ (h = 24 ∧ n = 0 ∧ s = 0) then some (MakeTime h n s 0)
    else none
  | _, _, _ => none

/-- The time value of `new Date(s)` for the two forms of the date time string
format that the program uses; `none` is the invalid date.  A date-only text
`YYYY-MM-DD` is a UTC midnight; a text `YYYY-MM-DDTHH:mm:ss` without an offset
is a local time.  Other texts, whose reading is left to the implementation,
are taken as invalid. -/
def parse (tz : Int) (s : String) : Option Int :=
  match s.data with
  | [y1, y2, y3, y4, '-', m1, m2, '-', d1, d2] =>
    match parseDay y1 y2 y3 y4 m1 m2 d1 d2 with
    | some day => some (MakeDate day 0)
    | none => none
  | [y1, y2, y3, y4, '-', m1, m2, '-', d1, d2, 'T', h1, h2, ':', n1, n2, ':', s1, s2] =>
    match parseDay y1 y2 y3 y4 m1 m2 d1 d2, parseTime h1 h2 n1 n2 s1 s2 with
    | some day, some time => some (UTC tz (MakeDate day time))
    | _, _ => none
  | _ => none

end JSDate

/-! ## Binary64 rounding of a number -/

namespace Binary64

/-- The number of binary digits of `n`, with the recursion bounded by `fuel`. -/
def bitLengthAux : Nat → Nat → Nat
  | 0, _ => 0
  | fuel + 1, n => if n = 0 then 0 else bitLengthAux fuel (n / 2) + 1

/-- The number of binary digits of `n`: 0 for 0, and `k` when
`2 ^ (k - 1) ≤ n < 2 ^ k`. -/
def bitLength (n : Nat) : Nat := bitLengthAux n n

/-- The binary64 number nearest to the positive quotient `a / b`, ties to the
even significand.  The quotient is scaled by a power of two so that its
integer part `q` has 53 binary digits; `q` is then rounded on the remainder. -/
def nearestPos (a b : Nat) : ℚ :=
  let n := a * 2 ^ (53 + bitLength b)
  let e := if n / (b * 2 ^ bitLength a) < 2 ^ 53 then bitLength a else bitLength a + 1
  let d := b * 2 ^ e
  let q := n / d
  let r := n % d
  let m := if 2 * r < d then q else if 2 * r = d ∧ q % 2 = 0 then q else q + 1
  (m : ℚ) * (2 : ℚ) ^ e / (2 : ℚ) ^ (53 + bitLength b)

/-- The binary64 number nearest to `x`, ties to even: the rounding that every
arithmetic operation on numbers applies to its exact result.  The exponent
range of binary64 is not modelled; the numbers rounded here lie within it. -/
def nearest (x : ℚ) : ℚ :=
  if x = 0 then 0
  else if 0 < x then nearestPos x.num.toNat x.den
  else - nearestPos (-x.num).toNat x.den

end Binary64

/-! ## `js/calculations.js` -/

namespace Calculations

def TARGET_PERCENTAGE : ℚ := 0.60

/-- The function `Math.round`: the nearest integer, halves towards plus infinity. -/
def mathRound (x : ℚ) : Int := ⌊x + 1 / 2⌋

/-- The function `Math.ceil`. -/
def mathCeil (x : ℚ) : Int := ⌈x⌉

/-- The dates `new Date(year, month, day)` for `day = 1 .. daysInMonth` whose
`getDay()` is neither 0 (Sunday) nor 6 (Saturday), in loop order, as time
values; `TimeClipped.getWorkingDaysInMonth` is the loop on `Date` objects
that may be invalid. -/
def getWorkingDaysInMonth (tz year month : Int) : List Int :=
  let daysInMonth := JSDate.getDate tz (JSDate.newDate tz year (month + 1) 0)
  ((List.range daysInMonth.toNat).map
      (fun (i : Nat) => JSDate.newDate tz year month ((i : Int) + 1))).filter
    (fun date =>
      let dayOfWeek := JSDate.getDay tz date
      dayOfWeek ≠ 0 && dayOfWeek ≠ 6)

def countWorkingDaysInMonth (tz year month : Int) : Nat :=
  (getWorkingDaysInMonth tz year month).length

def getWorkingDaysUntilToday (tz now year month : Int) : List Int :=
  let today := JSDate.setHours tz now 23 59 59 999
  (getWorkingDaysInMonth tz year month).filter (fun date => date ≤ today)

def getRemainingWorkingDays (tz now year month : Int) : List Int :=
  let today := JSDate.setHours tz now 0 0 0 0
  (getWorkingDaysInMonth tz year month).filter (fun date => date > today)

def calculatePresencePercentage (officeDays totalWorkingDays : Int) : ℚ :=
  if totalWorkingDays = 0 then 0
  else (officeDays : ℚ) / (totalWorkingDays : ℚ)

/-- The object returned by `calculateRemainingOfficeDaysNeeded`. -/
structure RemainingOfficeDays where
  needed : Int
  targetTotal : Int
  remainingDays : Int
  possible : Bool
  surplus : Int
  deriving DecidableEq, Repr

def calculateRemainingOfficeDaysNeeded
    (currentOfficeDays totalWorkingDays daysAlreadyRegistered : Int) : RemainingOfficeDays :=
  let targetOfficeDays := mathCeil ((totalWorkingDays : ℚ) * TARGET_PERCENTAGE)
  let neededOfficeDays := targetOfficeDays - currentOfficeDays
  let remainingDays := totalWorkingDays - daysAlreadyRegistered
  { needed := max 0 neededOfficeDays
    targetTotal := targetOfficeDays
    remainingDays := remainingDays
    possible := decide (neededOfficeDays ≤ remainingDays)
    surplus := currentOfficeDays - targetOfficeDays }

/-- The function `projectFinalPercentage`.  The quotient `currentRatio` and
its product with `remainingDays` are binary64 numbers, and `Math.round` is
applied to that product.  The quotient returned stands for the binary64 number
nearest to it; `none` stands for the `NaN` or the infinity of a division by
zero. -/
def projectFinalPercentage (currentOfficeDays currentRemoteDays remainingDays : Int) :
    Option ℚ :=
  let totalCurrentDays := currentOfficeDays + currentRemoteDays
  if totalCurrentDays = 0 then some TARGET_PERCENTAGE
  else
    let currentRatio : ℚ :=
      Binary64.nearest ((currentOfficeDays : ℚ) / (totalCurrentDays : ℚ))
    let projectedOfficeDays :=
      currentOfficeDays + mathRound (Binary64.nearest ((remainingDays : ℚ) * currentRatio))
    let totalDays := totalCurrentDays + remainingDays
    if totalDays = 0 then none
    else some ((projectedOfficeDays : ℚ) / (totalDays : ℚ))

/-- The object returned by `suggestTomorrow`. -/
structure Suggestion where
  suggestion : String
  reason : String
  deriving DecidableEq, Repr

def suggestTomorrow
    (currentOfficeDays currentRemoteDays totalWorkingDays licenseDays : Int) : Suggestion :=
  let effectiveWorkingDays := totalWorkingDays - licenseDays
  let daysRegistered := currentOfficeDays + currentRemoteDays
  let remainingDays := effectiveWorkingDays - daysRegistered
  if remainingDays ≤ 0 then
    { suggestion := "none", reason := "No quedan días laborables este mes" }
  else
    let targetOfficeDays := mathCeil ((effectiveWorkingDays : ℚ) * TARGET_PERCENTAGE)
    let neededOfficeDays := targetOfficeDays - currentOfficeDays
    if neededOfficeDays ≤ 0 then
      { suggestion := "remote"
        reason := "¡Ya cumpliste el objetivo! Puedes trabajar remoto los "
          ++ JSString.ofNumber remainingDays ++ " días restantes" }
    else if neededOfficeDays ≥ remainingDays then
      { suggestion := "office"
        reason := "Necesitas ir a la oficina los " ++ JSString.ofNumber remainingDays
          ++ " días restantes para alcanzar el 60%" }
    else
      let margin := remainingDays - neededOfficeDays
      if margin ≤ 2 then
        { suggestion := "office"
          reason := "Margen ajustado: te faltan " ++ JSString.ofNumber neededOfficeDays
            ++ " días de oficina de " ++ JSString.ofNumber remainingDays ++ " restantes" }
      else
        { suggestion := "any"
          reason := "Puedes elegir libremente. Necesitas " ++ JSString.ofNumber neededOfficeDays
            ++ " días de oficina y tienes " ++ JSString.ofNumber remainingDays
            ++ " días restantes" }

/-- The function `formatDate` on a valid `Date` object. -/
def formatDate (date : Int) : String :=
  JSString.beforeFirst (JSDate.toISOString date) 'T'

/-- An argument of type `Date|string`; the time value of a `Date` object is
`none` when the date is invalid. -/
inductive DateOrString where
  | date : Option Int → DateOrString
  | text : String → DateOrString

/-- The function `isWeekend`.  For an invalid date `getDay()` is `NaN`, which
equals neither 0 nor 6. -/
def isWeekend (tz : Int) (date : DateOrString) : Bool :=
  let d : Option Int :=
    match date with
    | DateOrString.text s => JSDate.parse tz s
    | DateOrString.date t => t
  match d with
  | none => false
  | some t =>
    let day := JSDate.getDay tz t
    day = 0 || day = 6

end Calculations

/-! ## The working days of a month within the range of `Date` -/

namespace TimeClipped

/-- The function `getWorkingDaysInMonth` on `Date` objects that may be
invalid.  For an invalid last day `getDate()` is `NaN`, `day <= NaN` is false
and the loop body never runs; for an invalid `date` in the loop `getDay()` is
`NaN`, which differs from 0 and from 6, and the date is pushed. -/
def getWorkingDaysInMonth (tz year month : Int) : List (Option Int) :=
  match (JSDate.newDateObject tz year (month + 1) 0).map (JSDate.getDate tz) with
  | none => []
  | some daysInMonth =>
    ((List.range daysInMonth.toNat).map
        (fun (i : Nat) => JSDate.newDateObject tz year month ((i : Int) + 1))).filter
      (fun date =>
        match date.map (JSDate.getDay tz) with
        | none => true
        | some dayOfWeek => dayOfWeek ≠ 0 && dayOfWeek ≠ 6)

def countWorkingDaysInMonth (tz year month : Int) : Nat :=
  (getWorkingDaysInMonth tz year month).length

end TimeClipped

/-! ## Binary64 evaluation of `Math.ceil(n * 0.60)` -/

namespace Binary64

/-- The literal `0.60` as a binary64 number is `sixTenths / 2 ^ 53`. -/
def sixTenths : Nat := 5404319552844595

/-- Rounding to nearest, ties to even, of the positive number `p / 2 ^ 53` to a
significand of 53 bits; the result is again given as a numerator over
`2 ^ 53`. -/
def roundNearestEven (p : Nat) : Nat :=
  if p < 2 ^ 53 then p
  else
    let k := Nat.log2 p - 52
    let q := p / 2 ^ k
    let r := p % 2 ^ k
    if 2 * r < 2 ^ k then q * 2 ^ k
    else if 2 * r = 2 ^ k ∧ q % 2 = 0 then q * 2 ^ k
    else (q + 1) * 2 ^ k

/-- The value of `Math.ceil(n * 0.60)` in binary64 arithmetic, for an integer
`n` from 0 to `2 ^ 53`: the product is rounded once, then the ceiling is
exact. -/
def ceilOfProduct (n : Nat) : Nat :=
  (roundNearestEven (n * sixTenths) + (2 ^ 53 - 1)) / 2 ^ 53

end Binary64


/-! ## JavaScript objects used as dictionaries -/

/-- The update `entries[k] = v` on a property list: an existing property keeps
its place, a new one goes to the end. -/
def assignEntry {α : Type} : List (String × α) → String → α → List (String × α)
  | [], k, v => [(k, v)]
  | (k0, v0) :: rest, k, v =>
    if k0 = k then (k, v) :: rest else (k0, v0) :: assignEntry rest k v

/-- The update `delete entries[k]` on a property list. -/
def deleteEntry {α : Type} (entries : List (String × α)) (k : String) : List (String × α) :=
  entries.filter (fun e => e.1 ≠ k)

/-- Assignment keeps the keys of a property list distinct; `JSObject.set`
below carries this proof. -/
theorem assignEntry_keys_nodup {α : Type} (entries : List (String × α)) (k : String) (v : α)
    (h : (entries.map Prod.fst).Nodup) : ((assignEntry entries k v).map Prod.fst).Nodup := by
  have hmem : ∀ (l : List (String × α)) (x : String),
      x ∈ (assignEntry l k v).map Prod.fst → x = k ∨ x ∈ l.map Prod.fst := by
    intro l
    induction l with
    | nil => intro x hx; simpa [assignEntry] using hx
    | cons e rest ih =>
      intro x hx
      obtain ⟨k0, v0⟩ := e
      by_cases hk : k0 = k
      · simp only [assignEntry, hk, if_true, List.map_cons, List.mem_cons] at hx
        rcases hx with hx | hx
        · exact Or.inl hx
        · exact Or.inr (by simp [hx])
      · simp only [assignEntry, hk, if_false, List.map_cons, List.mem_cons] at hx
        rcases hx with hx | hx
        · exact Or.inr (by simp [hx])
        · rcases ih x hx with h1 | h1
          · exact Or.inl h1
          · exact Or.inr (by simp [h1])
  induction entries with
  | nil => simp [assignEntry]
  | cons e rest ih =>
    obtain ⟨k0, v0⟩ := e
    simp only [List.map_cons, List.nodup_cons] at h
    by_cases hk : k0 = k
    · subst hk
      simpa [assignEntry] using h
    · simp only [assignEntry, hk, if_false, List.map_cons, List.nodup_cons]
      refine ⟨?_, ih h.2⟩
      intro hx
      rcases hmem rest k0 hx with h1 | h1
      · exact hk h1
      · exact h.1 h1

/-- Deletion keeps the keys of a property list distinct. -/
theorem deleteEntry_keys_nodup {α : Type} (entries : List (String × α)) (k : String)
    (h : (entries.map Prod.fst).Nodup) : ((deleteEntry entries k).map Prod.fst).Nodup := by
  unfold deleteEntry
  exact (List.Sublist.map Prod.fst (List.filter_sublist entries)).nodup h

/-- A plain object: its own properties in insertion order, no key twice. -/
structure JSObject (α : Type) where
  entries : List (String × α)
  nodup : (entries.map Prod.fst).Nodup

namespace JSObject

/-- The object literal `{}`. -/
def empty {α : Type} : JSObject α := ⟨[], List.nodup_nil⟩

/-- The property read `o[k]`; `none` stands for `undefined`. -/
def get {α : Type} (o : JSObject α) (k : String) : Option α :=
  (o.entries.find? (fun e => e.1 = k)).map Prod.snd

/-- The assignment `o[k] = v`. -/
def set {α : Type} (o : JSObject α) (k : String) (v : α) : JSObject α :=
  ⟨assignEntry o.entries k v, assignEntry_keys_nodup o.entries k v o.nodup⟩

/-- The statement `delete o[k]`. -/
def delete {α : Type} (o : JSObject α) (k : String) : JSObject α :=
  ⟨deleteEntry o.entries k, deleteEntry_keys_nodup o.entries k o.nodup⟩

end JSObject

/-! ## `presencia60/js/storage.js` -/

/-- A day record `{ type, timestamp, licenseType? }`. -/
structure Record where
  type : String
  timestamp : String
  licenseType : Option String
  deriving DecidableEq, Repr

structure Settings where
  targetPercentage : ℚ
  userId : String
  deriving DecidableEq, Repr

/-- The persisted document `{ records, settings, createdAt }`. -/
structure Document where
  records : JSObject Record
  settings : Settings
  createdAt : String

/-- What `localStorage.getItem(STORAGE_KEY)` finds: nothing (or the empty
text), a text that `JSON.parse` rejects, or the JSON text of a document. -/
inductive LocalStorage where
  | absent : LocalStorage
  | unparseable : LocalStorage
  | json : Document → LocalStorage

/-- What a call reads from its surroundings: the clock `now` of `new Date()`
and the text `Math.random().toString(36).substr(2, 9)`. -/
structure Env where
  now : Int
  randomId : String

namespace Storage

def getDefaultData (env : Env) : Document :=
  { records := JSObject.empty
    settings := { targetPercentage := 0.60, userId := "user_" ++ env.randomId }
    createdAt := JSDate.toISOString env.now }

def getData (env : Env) (ls : LocalStorage) : Document :=
  match ls with
  | LocalStorage.absent => getDefaultData env
  | LocalStorage.unparseable => getDefaultData env
  | LocalStorage.json doc => doc

def saveData (data : Document) : LocalStorage := LocalStorage.json data

/-- The result `null` is `none`. -/
def getRecord (env : Env) (ls : LocalStorage) (dateStr : String) : Option Record :=
  (getData env ls).records.get dateStr

/-- The new content of `localStorage` and the returned value.  The optional
argument `licenseType` is `none` when omitted or `null`; the empty text is
falsy. -/
def setRecord (env : Env) (ls : LocalStorage) (dateStr type : String)
    (licenseType : Option String) : LocalStorage × Bool :=
  let data := getData env ls
  let record : Record :=
    { type := type, timestamp := JSDate.toISOString env.now, licenseType := none }
  let record :=
    match licenseType with
    | some l => if type = "license" ∧ l ≠ "" then { record with licenseType := some l } else record
    | none => record
  (saveData { data with records := data.records.set dateStr record }, true)

def deleteRecord (env : Env) (ls : LocalStorage) (dateStr : String) : LocalStorage × Bool :=
  let data := getData env ls
  if (data.records.get dateStr).isSome then
    (saveData { data with records := data.records.delete dateStr }, true)
  else (ls, false)

/-- The text of the template literal in `getMonthRecords`: the year and the
month number padded to two digits. -/
def monthPrefix (year month : Int) : String :=
  JSString.ofNumber year ++ "-" ++ JSString.padStart (JSString.ofNumber (month + 1)) 2 '0'

def getMonthRecords (env : Env) (ls : LocalStorage) (year month : Int) : JSObject Record :=
  let data := getData env ls
  let pfx := monthPrefix year month
  data.records.entries.foldl
    (fun monthRecords e => if JSString.startsWith e.1 pfx then monthRecords.set e.1 e.2
      else monthRecords)
    JSObject.empty

/-- The object returned by `getMonthStats`. -/
structure MonthStats where
  officeDays : Nat
  remoteDays : Nat
  licenseDays : Nat
  totalRegistered : Nat
  deriving DecidableEq, Repr

/-- One turn of the loop of `getMonthStats` on the three counters
`(officeDays, remoteDays, licenseDays)`. -/
def countRecord (counts : Nat × Nat × Nat) (record : Record) : Nat × Nat × Nat :=
  if record.type = "office" then (counts.1 + 1, counts.2.1, counts.2.2)
  else if record.type = "remote" then (counts.1, counts.2.1 + 1, counts.2.2)
  else if record.type = "license" then (counts.1, counts.2.1, counts.2.2 + 1)
  else counts

def getMonthStats (env : Env) (ls : LocalStorage) (year month : Int) : MonthStats :=
  let records := getMonthRecords env ls year month
  let counts := (records.entries.map Prod.snd).foldl countRecord (0, 0, 0)
  { officeDays := counts.1
    remoteDays := counts.2.1
    licenseDays := counts.2.2
    totalRegistered := counts.1 + counts.2.1 }

/-- An element `{ date, licenseType }` of the result of `getMonthLicenses`. -/
structure LicenseEntry where
  date : String
  licenseType : String
  deriving DecidableEq, Repr

/-- The expression `r.licenseType || 'Otro'`: a missing and an empty category
are falsy. -/
def licenseTypeOrOtro (r : Record) : String :=
  match r.licenseType with
  | some l => if l = "" then "Otro" else l
  | none => "Otro"

/-- The method `sort` is stable and is given a comparison of the dates. -/
def getMonthLicenses (env : Env) (ls : LocalStorage) (year month : Int) : List LicenseEntry :=
  let records := getMonthRecords env ls year month
  (((records.entries.filter (fun e => e.2.type = "license")).map
      (fun e => ({ date := e.1, licenseType := licenseTypeOrOtro e.2 } : LicenseEntry))).mergeSort
    (fun a b => decide (JSString.localeCompare a.date b.date ≤ 0)))

def getTodayRecord (env : Env) (ls : LocalStorage) : Option Record :=
  getRecord env ls (JSString.beforeFirst (JSDate.toISOString env.now) 'T')

end Storage

/-! ## `js/app.js`: the handlers that change the store, and the calendar

The handlers are modelled by their effect on `localStorage`; toasts and
rendering do not change it.  Of `renderCalendar` the class given to the cell
of a day is modelled. -/

namespace App

def handleCheckin (tz : Int) (env : Env) (ls : LocalStorage) (type : String) : LocalStorage :=
  let today := env.now
  if Calculations.isWeekend tz (Calculations.DateOrString.date (some today)) then ls
  else
    let dateStr := Calculations.formatDate today
    match Storage.getRecord env ls dateStr with
    | some existingRecord =>
      if existingRecord.type = type then (Storage.deleteRecord env ls dateStr).1
      else (Storage.setRecord env ls dateStr type none).1
    | none => (Storage.setRecord env ls dateStr type none).1

/-- The arguments are the values of the date input and of the type select. -/
def handleLicenseSubmit (tz : Int) (env : Env) (ls : LocalStorage)
    (dateInputValue typeSelectValue : String) : LocalStorage :=
  if dateInputValue = "" then ls
  else
    let date := JSDate.parse tz (dateInputValue ++ "T12:00:00")
    if Calculations.isWeekend tz (Calculations.DateOrString.date date) then ls
    else (Storage.setRecord env ls dateInputValue "license" (some typeSelectValue)).1

def deleteLicense (env : Env) (ls : LocalStorage) (dateStr : String) : LocalStorage :=
  (Storage.deleteRecord env ls dateStr).1

/-- The loop body of `renderCalendar` for one day of the month shown: the
class added to the cell of `day` for a weekend or for the record found under
the key of the day; `none` when no such class is added. -/
def renderCalendarDay (tz : Int) (env : Env) (ls : LocalStorage)
    (currentYear currentMonth day : Int) : Option String :=
  let records := Storage.getMonthRecords env ls currentYear currentMonth
  let date := JSDate.newDate tz currentYear currentMonth day
  let dateStr := Calculations.formatDate date
  if Calculations.isWeekend tz (Calculations.DateOrString.date (some date)) then
    some "calendar-mini__day--weekend"
  else
    match records.get dateStr with
    | some record =>
      if record.type = "office" then some "calendar-mini__day--office"
      else if record.type = "remote" then some "calendar-mini__day--remote"
      else if record.type = "license" then some "calendar-mini__day--license"
      else none
    | none => none

end App

/-! ## The Gregorian calendar, as the reference for the calendar engine -/

namespace Gregorian

def isLeapYear (y : Int) : Bool := y % 4 = 0 ∧ (y % 100 ≠ 0 ∨ y % 400 = 0)

/-- The length of month `m` (0 = January .. 11 = December) of year `y`. -/
def daysInMonth (y m : Int) : Nat :=
  match m with
  | 0 => 31
  | 1 => if isLeapYear y then 29 else 28
  | 2 => 31
  | 3 => 30
  | 4 => 31
  | 5 => 30
  | 6 => 31
  | 7 => 31
  | 8 => 30
  | 9 => 31
  | 10 => 30
  | _ => 31

/-- The day of the week by the congruence of Zeller, 0 = Sunday .. 6 = Saturday,
of day `d` of month `m` (0 = January .. 11 = December) of year `y`. -/
def dayOfWeek (y m d : Int) : Int :=
  let mz := if m < 2 then m + 13 else m + 1
  let yz := if m < 2 then y - 1 else y
  let k := yz % 100
  let j := yz / 100
  let h := (d + (13 * (mz + 1)) / 5 + k + k / 4 + j / 4 + 5 * j) % 7
  (h + 6) % 7

/-- The days of month `m` of year `y` from Monday to Friday, ascending. -/
def workingDays (y m : Int) : List Int :=
  ((List.range (daysInMonth y m)).map (fun (i : Nat) => (i : Int) + 1)).filter
    (fun d => dayOfWeek y m d ≠ 0 && dayOfWeek y m d ≠ 6)

end Gregorian

/-! ## Canonical date keys, as the reference for the month filter -/

namespace DateKey

/-- The value of a decimal digit character. -/
def digitValue (c : Char) : Int := (c.toNat : Int) - 48

/-- The shape `YYYY-MM-DD`: four digits, a dash, two digits, a dash, two digits. -/
def isCanonical (s : String) : Bool :=
  match s.data with
  | [y1, y2, y3, y4, s1, m1, m2, s2, d1, d2] =>
    y1.isDigit && y2.isDigit && y3.isDigit && y4.isDigit && s1 = '-' &&
      m1.isDigit && m2.isDigit && s2 = '-' && d1.isDigit && d2.isDigit
  | _ => false

/-- The year a canonical key names. -/
def year (s : String) : Int :=
  match s.data with
  | y1 :: y2 :: y3 :: y4 :: _ =>
    1000 * digitValue y1 + 100 * digitValue y2 + 10 * digitValue y3 + digitValue y4
  | _ => 0

/-- The month number (1 .. 12) a canonical key names. -/
def month (s : String) : Int :=
  match s.data with
  | _ :: _ :: _ :: _ :: _ :: m1 :: m2 :: _ => 10 * digitValue m1 + digitValue m2
  | _ => 0

/-- The day of the month a canonical key names. -/
def day (s : String) : Int :=
  match s.data with
  | _ :: _ :: _ :: _ :: _ :: _ :: _ :: _ :: d1 :: d2 :: _ => 10 * digitValue d1 + digitValue d2
  | _ => 0

/-- A canonical key that names a day of the Gregorian calendar. -/
def isValid (s : String) : Bool :=
  isCanonical s && decide (1 ≤ month s ∧ month s ≤ 12 ∧ 1 ≤ day s ∧
    day s ≤ (Gregorian.daysInMonth (year s) (month s - 1) : Int))

/-- The Gregorian day of the week of the day a key names, 0 = Sunday. -/
def dayOfWeek (s : String) : Int := Gregorian.dayOfWeek (year s) (month s - 1) (day s)

/-- The key names a Saturday or a Sunday. -/
def isWeekendKey (s : String) : Bool := dayOfWeek s = 0 || dayOfWeek s = 6

/-- The date a key names as one number, `YYYYMMDD`. -/
def dateNumber (s : String) : Int := 10000 * year s + 100 * month s + day s

end DateKey

/-- A call of `setRecord` or of `deleteRecord`, with its arguments. -/
inductive StoreCall where
  | setRecord : String → String → Option String → StoreCall
  | deleteRecord : String → StoreCall

/-- The content of the store after a sequence of calls, each with the clock
it reads. -/
def runStoreCalls (ls : LocalStorage) : List (Env × StoreCall) → LocalStorage
  | [] => ls
  | (env, StoreCall.setRecord dateStr type licenseType) :: rest =>
    runStoreCalls (Storage.setRecord env ls dateStr type licenseType).1 rest
  | (env, StoreCall.deleteRecord dateStr) :: rest =>
    runStoreCalls (Storage.deleteRecord env ls dateStr).1 rest

/-- A store with one record, of a Tuesday in January of the year 999. -/
def storeOfYear999 : Document :=
  { records :=
      ⟨[("0999-01-15",
          { type := "license", timestamp := "2024-02-01T12:00:00.000Z",
            licenseType := some "Vacaciones" })], by decide⟩
    settings := { targetPercentage := 0.60, userId := "user_abc" }
    createdAt := "2024-01-01T00:00:00.000Z" }

/-- A store with records of three months in two years. -/
def storeOfThreeMonths : Document :=
  { records :=
      ⟨[("2024-01-31",
          { type := "office", timestamp := "2024-01-31T09:00:00.000Z", licenseType := none }),
        ("2024-02-01",
          { type := "remote", timestamp := "2024-02-01T09:00:00.000Z", licenseType := none }),
        ("2023-02-10",
          { type := "office", timestamp := "2023-02-10T09:00:00.000Z", licenseType := none }),
        ("2024-02-15",
          { type := "license", timestamp := "2024-02-02T09:00:00.000Z",
            licenseType := some "Vacaciones" })], by decide⟩
    settings := { targetPercentage := 0.60, userId := "user_abc" }
    createdAt := "2024-01-01T00:00:00.000Z" }

/-- A store with two licenses of February 2024, the later one stored first. -/
def storeOfTwoLicenses : Document :=
  { records :=
      ⟨[("2024-02-20",
          { type := "license", timestamp := "2024-02-01T09:00:00.000Z",
            licenseType := some "Vacaciones" }),
        ("2024-02-06",
          { type := "office", timestamp := "2024-02-06T09:00:00.000Z", licenseType := none }),
        ("2024-02-05",
          { type := "license", timestamp := "2024-02-02T09:00:00.000Z", licenseType := none }),
        ("2024-03-01",
          { type := "license", timestamp := "2024-02-02T09:00:00.000Z",
            licenseType := some "Enfermedad" })], by decide⟩
    settings := { targetPercentage := 0.60, userId := "user_abc" }
    createdAt := "2024-01-01T00:00:00.000Z" }

/-! ## The calendar engine: facts about the date algorithms -/

namespace JSDate

theorem DayFromYear_succ (y : Int) : DayFromYear (y + 1) = DayFromYear y + DaysInYear y := by
  unfold DayFromYear DaysInYear
  split_ifs <;> omega

theorem DaysInYear_cases (y : Int) : DaysInYear y = 365 ∨ DaysInYear y = 366 := by
  unfold DaysInYear
  split_ifs <;> simp

theorem DayFromYear_lower (y : Int) : 146097 * (y - 1970) - 1000 ≤ 400 * DayFromYear y := by
  unfold DayFromYear
  omega

theorem DayFromYear_upper (y : Int) : 400 * DayFromYear y ≤ 146097 * (y - 1970) + 1000 := by
  unfold DayFromYear
  omega

theorem DayFromYear_lt_succ (y : Int) : DayFromYear y < DayFromYear (y + 1) := by
  rw [DayFromYear_succ]
  rcases DaysInYear_cases y with h | h <;> omega

theorem DayFromYear_mono {a b : Int} (h : a ≤ b) : DayFromYear a ≤ DayFromYear b := by
  obtain ⟨n, rfl⟩ := Int.le.dest h
  induction n with
  | zero => simp
  | succ n ih =>
    have h1 : a + ((n + 1 : Nat) : Int) = (a + (n : Int)) + 1 := by push_cast; ring
    rw [h1]
    have h2 := DayFromYear_lt_succ (a + (n : Int))
    have h3 := ih (by omega)
    omega

/-- The function `yearFromDay` meets the definition of `YearFromTime`: the
year it returns starts on or before day `d` and the next year starts after. -/
theorem yearFromDay_spec (d : Int) :
    DayFromYear (yearFromDay d) ≤ d ∧ d < DayFromYear (yearFromDay d + 1) := by
  have hk1 : 146097 * ((400 * d) / 146097) ≤ 400 * d := by omega
  have hk2 : 400 * d < 146097 * ((400 * d) / 146097) + 146097 := by omega
  unfold yearFromDay
  simp only
  generalize (400 * d) / 146097 = k at hk1 hk2
  split_ifs with h1 h2
  · have hu := DayFromYear_upper (1970 + k - 1)
    have e : 1970 + k - 1 + 1 = 1970 + k := by ring
    rw [e]
    constructor <;> omega
  · have hl := DayFromYear_lower (1970 + k + 1 + 1)
    constructor <;> omega
  · constructor <;> omega

theorem yearFromDay_unique (d y : Int) (h1 : DayFromYear y ≤ d) (h2 : d < DayFromYear (y + 1)) :
    yearFromDay d = y := by
  obtain ⟨h3, h4⟩ := yearFromDay_spec d
  rcases Int.lt_trichotomy (yearFromDay d) y with h | h | h
  · have := DayFromYear_mono (show yearFromDay d + 1 ≤ y by omega)
    omega
  · exact h
  · have := DayFromYear_mono (show y + 1 ≤ yearFromDay d by omega)
    omega

theorem leap_flag (ym : Int) :
    (Gregorian.isLeapYear ym = true ∧ DaysInYear ym = 366) ∨
    (Gregorian.isLeapYear ym = false ∧ DaysInYear ym = 365) := by
  unfold Gregorian.isLeapYear DaysInYear
  split_ifs <;> simp_all

theorem daysInMonth_eq (ym mn : Int) (h0 : 0 ≤ mn) (h1 : mn ≤ 11) :
    (Gregorian.daysInMonth ym mn : Int) + daysBeforeMonth ym mn =
      if mn = 11 then DaysInYear ym else daysBeforeMonth ym (mn + 1) := by
  rcases leap_flag ym with ⟨hl, hy⟩ | ⟨hl, hy⟩ <;>
    interval_cases mn <;> simp [Gregorian.daysInMonth, daysBeforeMonth, hl, hy]

theorem dayWithinYear_bounds (ym mn date : Int) (h0 : 0 ≤ mn) (h1 : mn ≤ 11)
    (hd1 : 1 ≤ date) (hd2 : date ≤ Gregorian.daysInMonth ym mn) :
    0 ≤ daysBeforeMonth ym mn + date - 1 ∧ daysBeforeMonth ym mn + date - 1 < DaysInYear ym := by
  rcases leap_flag ym with ⟨hl, hy⟩ | ⟨hl, hy⟩ <;>
    interval_cases mn <;>
    simp [Gregorian.daysInMonth, daysBeforeMonth, hl, hy] at hd2 ⊢ <;> omega

/-- The round trip of the date algorithms: the time values of day `date` of
month `mn` of year `ym` have that year, month and day of month. -/
theorem civil_of_day (ym mn date t : Int) (h0 : 0 ≤ mn) (h1 : mn ≤ 11)
    (hd1 : 1 ≤ date) (hd2 : date ≤ Gregorian.daysInMonth ym mn)
    (ht : Day t = DayFromYear ym + daysBeforeMonth ym mn + date - 1) :
    YearFromTime t = ym ∧ MonthFromTime t = mn ∧ DateFromTime t = date := by
  obtain ⟨hb1, hb2⟩ := dayWithinYear_bounds ym mn date h0 h1 hd1 hd2
  have hyear : YearFromTime t = ym := by
    unfold YearFromTime
    apply yearFromDay_unique
    · omega
    · rw [DayFromYear_succ]; omega
  have hdwy : DayWithinYear t = daysBeforeMonth ym mn + date - 1 := by
    unfold DayWithinYear
    rw [hyear]; omega
  have hmonth : MonthFromTime t = mn := by
    unfold MonthFromTime InLeapYear
    rw [hdwy, hyear]
    rcases leap_flag ym with ⟨hl, hy⟩ | ⟨hl, hy⟩ <;>
      interval_cases mn <;>
      simp [Gregorian.daysInMonth, daysBeforeMonth, hl, hy] at hd2 ⊢ <;> omega
  refine ⟨hyear, hmonth, ?_⟩
  unfold DateFromTime InLeapYear
  rw [hmonth, hdwy, hyear]
  rcases leap_flag ym with ⟨hl, hy⟩ | ⟨hl, hy⟩ <;>
    interval_cases mn <;>
    simp [daysBeforeMonth, hy] <;> omega

theorem DayFromYear_eq (y : Int) :
    DayFromYear y = 365 * (y - 1970) + (y - 1) / 4 - (y - 1) / 100 + (y - 1) / 400 - 477 := by
  unfold DayFromYear
  omega

theorem century_split (y : Int) :
    y % 100 / 4 = y / 4 - 25 * (y / 100) ∧ y / 100 / 4 = y / 400 := by
  omega

theorem pred_div (y : Int) :
    (y - 1) / 4 = y / 4 - (if y % 4 = 0 then 1 else 0) ∧
    (y - 1) / 100 = y / 100 - (if y % 100 = 0 then 1 else 0) ∧
    (y - 1) / 400 = y / 400 - (if y % 400 = 0 then 1 else 0) := by
  refine ⟨?_, ?_, ?_⟩ <;> split_ifs <;> omega

/-- January and February: the congruence counts them in the previous year. -/
theorem zeller_early (ym date c z : Int) (hcz : (c - z) % 7 = 6) :
    (DayFromYear ym + c + date - 1 + 4) % 7 =
      ((date + z + (ym - 1) % 100 + (ym - 1) % 100 / 4 + (ym - 1) / 100 / 4
          + 5 * ((ym - 1) / 100)) % 7 + 6) % 7 := by
  obtain ⟨e1, e2⟩ := century_split (ym - 1)
  rw [DayFromYear_eq, e1, e2]
  omega

/-- March to December: the leap day of year `ym` has passed. -/
theorem zeller_late (ym date c z : Int) (hcz : (c - z) % 7 = 0) :
    (DayFromYear ym + (c + if DaysInYear ym = 366 then 1 else 0) + date - 1 + 4) % 7 =
      ((date + z + ym % 100 + ym % 100 / 4 + ym / 100 / 4 + 5 * (ym / 100)) % 7 + 6) % 7 := by
  obtain ⟨e1, e2⟩ := century_split ym
  obtain ⟨e3, e4, e5⟩ := pred_div ym
  rw [DayFromYear_eq, e1, e2, e3, e4, e5]
  unfold DaysInYear
  split_ifs <;> omega

/-- The day of the week computed from the day number is the Gregorian one. -/
theorem weekDay_eq (ym mn date t : Int) (h0 : 0 ≤ mn) (h1 : mn ≤ 11)
    (ht : Day t = DayFromYear ym + daysBeforeMonth ym mn + date - 1) :
    WeekDay t = Gregorian.dayOfWeek ym mn date := by
  unfold WeekDay
  rw [ht]
  unfold Gregorian.dayOfWeek daysBeforeMonth
  by_cases hlt : mn < 2
  · interval_cases mn
    · simpa using zeller_early ym date 0 36 (by decide)
    · simpa using zeller_early ym date 31 39 (by decide)
  · interval_cases mn
    · simpa using zeller_late ym date 59 10 (by decide)
    · simpa using zeller_late ym date 90 13 (by decide)
    · simpa using zeller_late ym date 120 15 (by decide)
    · simpa using zeller_late ym date 151 18 (by decide)
    · simpa using zeller_late ym date 181 20 (by decide)
    · simpa using zeller_late ym date 212 23 (by decide)
    · simpa using zeller_late ym date 243 26 (by decide)
    · simpa using zeller_late ym date 273 28 (by decide)
    · simpa using zeller_late ym date 304 31 (by decide)
    · simpa using zeller_late ym date 334 33 (by decide)

/-- The local day number of `new Date(year, month, day)`, with the year the
constructor takes for `year`. -/
theorem Day_newDate (tz year month day : Int) :
    Day (LocalTime tz (newDate tz year month day)) =
      MakeDay (if 0 ≤ year ∧ year ≤ 99 then 1900 + year else year) month day := by
  unfold newDate LocalTime UTC MakeDate MakeTime Day msPerDay msPerHour msPerMinute msPerSecond
  simp only
  omega

theorem MakeDay_month (yr month day : Int) (h0 : 0 ≤ month) (h1 : month ≤ 11) :
    MakeDay yr month day = DayFromYear yr + daysBeforeMonth yr month + day - 1 := by
  unfold MakeDay
  have e1 : month / 12 = 0 := by omega
  have e2 : month % 12 = month := by omega
  simp only [e1, e2, add_zero]

theorem MakeDay_last (yr month : Int) (h0 : 0 ≤ month) (h1 : month ≤ 11) :
    MakeDay yr (month + 1) 0 =
      DayFromYear yr + daysBeforeMonth yr month + (Gregorian.daysInMonth yr month : Int) - 1 := by
  have h := daysInMonth_eq yr month h0 h1
  by_cases h11 : month = 11
  · subst h11
    unfold MakeDay
    simp only [if_true] at h
    have e1 : ((11 : Int) + 1) / 12 = 1 := by decide
    have e2 : ((11 : Int) + 1) % 12 = 0 := by decide
    simp only [e1, e2, DayFromYear_succ]
    simp only [daysBeforeMonth] at h ⊢
    omega
  · rw [MakeDay_month yr (month + 1) 0 (by omega) (by omega)]
    simp only [h11, if_false] at h
    omega

end JSDate

/-! ## The working days of a month -/

namespace Calculations

open JSDate

theorem getDate_last (tz yr year month : Int)
    (hyr : yr = if 0 ≤ year ∧ year ≤ 99 then 1900 + year else year)
    (h0 : 0 ≤ month) (h1 : month ≤ 11) :
    getDate tz (newDate tz year (month + 1) 0) = (Gregorian.daysInMonth yr month : Int) := by
  have hD := Day_newDate tz year (month + 1) 0
  rw [← hyr, MakeDay_last yr month h0 h1] at hD
  have hpos : 1 ≤ (Gregorian.daysInMonth yr month : Int) := by
    unfold Gregorian.daysInMonth
    interval_cases month
    all_goals simp only []
    all_goals first | decide | (split_ifs <;> decide)
  exact (civil_of_day yr month _ _ h0 h1 hpos (le_refl _) hD).2.2

/-- The loop of `getWorkingDaysInMonth` visits the Gregorian working days of
the month of the year which the `Date` constructor takes for `year`. -/
theorem getWorkingDaysInMonth_eq (tz yr year month : Int)
    (hyr : yr = if 0 ≤ year ∧ year ≤ 99 then 1900 + year else year)
    (h0 : 0 ≤ month) (h1 : month ≤ 11) :
    getWorkingDaysInMonth tz year month =
      (Gregorian.workingDays yr month).map (fun d => newDate tz year month d) := by
  unfold getWorkingDaysInMonth Gregorian.workingDays
  simp only [getDate_last tz yr year month hyr h0 h1, Int.toNat_ofNat]
  rw [List.filter_map, List.filter_map, List.map_map]
  congr 1
  apply List.filter_congr
  intro i _
  have hD := Day_newDate tz year month ((i : Int) + 1)
  rw [← hyr, MakeDay_month yr month _ h0 h1] at hD
  have hw := weekDay_eq yr month ((i : Int) + 1) _ h0 h1 hD
  simp only [Function.comp, getDay, hw]

theorem workingDays_mem (y m d : Int) (h : d ∈ Gregorian.workingDays y m) :
    1 ≤ d ∧ d ≤ (Gregorian.daysInMonth y m : Int) := by
  unfold Gregorian.workingDays at h
  obtain ⟨h1, -⟩ := List.mem_filter.mp h
  obtain ⟨i, hi, rfl⟩ := List.mem_map.mp h1
  have := List.mem_range.mp hi
  omega

theorem workingDays_ascending (y m : Int) :
    (Gregorian.workingDays y m).Pairwise (fun a b => a < b) := by
  unfold Gregorian.workingDays
  apply List.Pairwise.filter
  rw [List.pairwise_map]
  exact (List.pairwise_lt_range _).imp (by intro a b hab; omega)

theorem newDate_lt (tz year month a b : Int) (h : a < b) :
    newDate tz year month a < newDate tz year month b := by
  unfold newDate UTC MakeDate MakeDay msPerDay
  simp only
  omega

end Calculations

/-! ## The range of `Date` objects -/

namespace JSDate

theorem daysBeforeMonth_bounds (ym mn : Int) :
    0 ≤ daysBeforeMonth ym mn ∧ daysBeforeMonth ym mn ≤ 335 := by
  unfold daysBeforeMonth
  simp only
  split <;> (try split_ifs) <;> constructor <;> omega

/-- From the year -271820 to the year 275759, and in a zone within a day of
Greenwich, the constructor `new Date(year, month, day)` with a month index
from 0 to 12 and a day from 0 to 31 gives a valid `Date`: `TimeClip` leaves
its time value as it is. -/
theorem newDateObject_eq (tz year month day : Int)
    (hy1 : -271820 ≤ year) (hy2 : year ≤ 275759)
    (htz1 : -msPerDay ≤ tz) (htz2 : tz ≤ msPerDay)
    (hm0 : 0 ≤ month) (hm1 : month ≤ 12) (hd0 : 0 ≤ day) (hd1 : day ≤ 31) :
    newDateObject tz year month day = some (newDate tz year month day) := by
  have hlow : DayFromYear (-271820) = -99999744 := by decide
  have hhigh : DayFromYear 275760 = 99999744 := by decide
  have key : ∀ yr : Int, -271820 ≤ yr → yr ≤ 275759 →
      -99999745 ≤ MakeDay yr month day ∧ MakeDay yr month day ≤ 99999774 := by
    intro yr h1 h2
    unfold MakeDay
    simp only
    by_cases h12 : month = 12
    · subst h12
      have e1 : (12 : Int) / 12 = 1 := by decide
      have e2 : (12 : Int) % 12 = 0 := by decide
      rw [e1, e2]
      have hb : daysBeforeMonth (yr + 1) 0 = 0 := rfl
      have m1 := DayFromYear_mono (show (-271820 : Int) ≤ yr + 1 by omega)
      have m2 := DayFromYear_mono (show yr + 1 ≤ (275760 : Int) by omega)
      omega
    · have e1 : month / 12 = 0 := by omega
      have e2 : month % 12 = month := by omega
      rw [e1, e2, add_zero]
      obtain ⟨b1, b2⟩ := daysBeforeMonth_bounds yr month
      have m1 := DayFromYear_mono (show (-271820 : Int) ≤ yr by omega)
      have m2 := DayFromYear_mono (show yr + 1 ≤ (275760 : Int) by omega)
      have hs := DayFromYear_succ yr
      rcases DaysInYear_cases yr with hc | hc <;> omega
  have hk := key (if 0 ≤ year ∧ year ≤ 99 then 1900 + year else year)
    (by split_ifs <;> omega) (by split_ifs <;> omega)
  unfold newDateObject TimeClip
  rw [if_pos]
  unfold newDate UTC MakeDate MakeTime maxTime
  unfold msPerDay msPerHour msPerMinute msPerSecond at *
  simp only
  omega

end JSDate

namespace TimeClipped

open JSDate

/-- From the year -271820 to the year 275759, and in a zone within a day of
Greenwich, every `Date` object that `getWorkingDaysInMonth` builds is valid:
the function on `Date` objects returns the dates that the function on time
values returns. -/
theorem getWorkingDaysInMonth_valid (tz year month : Int)
    (hy1 : -271820 ≤ year) (hy2 : year ≤ 275759)
    (htz1 : -msPerDay ≤ tz) (htz2 : tz ≤ msPerDay)
    (h0 : 0 ≤ month) (h1 : month ≤ 11) :
    getWorkingDaysInMonth tz year month =
      (Calculations.getWorkingDaysInMonth tz year month).map some := by
  have hlast := Calculations.getDate_last tz _ year month rfl h0 h1
  have h31 : Gregorian.daysInMonth (if 0 ≤ year ∧ year ≤ 99 then 1900 + year else year) month
      ≤ 31 := by
    unfold Gregorian.daysInMonth
    split <;> first | decide | (split_ifs <;> decide)
  unfold getWorkingDaysInMonth Calculations.getWorkingDaysInMonth
  rw [newDateObject_eq tz year (month + 1) 0 hy1 hy2 htz1 htz2 (by omega) (by omega)
    (le_refl 0) (by decide)]
  simp only [Option.map_some']
  rw [hlast]
  have hmap : (List.range ((Gregorian.daysInMonth
        (if 0 ≤ year ∧ year ≤ 99 then 1900 + year else year) month : Int)).toNat).map
        (fun (i : Nat) => newDateObject tz year month ((i : Int) + 1)) =
      ((List.range ((Gregorian.daysInMonth
        (if 0 ≤ year ∧ year ≤ 99 then 1900 + year else year) month : Int)).toNat).map
        (fun (i : Nat) => newDate tz year month ((i : Int) + 1))).map some := by
    rw [List.map_map]
    apply List.map_congr_left
    intro i hi
    have hi2 := List.mem_range.mp hi
    simp only [Int.toNat_ofNat] at hi2
    exact newDateObject_eq tz year month _ hy1 hy2 htz1 htz2 h0 (by omega) (by omega) (by omega)
  rw [hmap, List.filter_map]
  rfl

end TimeClipped

namespace Calculations

open JSDate

/-- C6, amended.  For every time zone offset within a day of Greenwich, every
year from -271820 to 275759 outside 0 .. 99 and every month index 0 .. 11:
every `Date` object the loop of `getWorkingDaysInMonth` builds is valid, and
the dates returned have, read with `getFullYear`, `getMonth` and `getDate`,
exactly the year, the month and the days of that Gregorian month (day 1 to its
last day) whose Gregorian day of the week is neither Sunday (0) nor Saturday
(6), in ascending order of the day; their time values are strictly ascending,
so no date is repeated. -/
theorem getWorkingDaysInMonth_gregorian (tz year month : Int)
    (hy : year < 0 ∨ 99 < year) (hy1 : -271820 ≤ year) (hy2 : year ≤ 275759)
    (htz1 : -msPerDay ≤ tz) (htz2 : tz ≤ msPerDay) (h0 : 0 ≤ month) (h1 : month ≤ 11) :
    TimeClipped.getWorkingDaysInMonth tz year month =
      (getWorkingDaysInMonth tz year month).map some ∧
    (getWorkingDaysInMonth tz year month).map
        (fun t => (getFullYear tz t, getMonth tz t, getDate tz t)) =
      (Gregorian.workingDays year month).map (fun d => (year, month, d)) ∧
    (getWorkingDaysInMonth tz year month).Pairwise (fun a b => a < b) ∧
    (Gregorian.workingDays year month).Pairwise (fun a b => a < b) ∧
    (∀ d : Int, d ∈ Gregorian.workingDays year month ↔
      (1 ≤ d ∧ d ≤ (Gregorian.daysInMonth year month : Int)) ∧
        Gregorian.dayOfWeek year month d ≠ 0 ∧ Gregorian.dayOfWeek year month d ≠ 6) ∧
    28 ≤ Gregorian.daysInMonth year month ∧ Gregorian.daysInMonth year month ≤ 31 := by
  have hyr : year = if 0 ≤ year ∧ year ≤ 99 then 1900 + year else year := by
    rw [if_neg]; omega
  have heq := getWorkingDaysInMonth_eq tz year year month hyr h0 h1
  refine ⟨TimeClipped.getWorkingDaysInMonth_valid tz year month hy1 hy2 htz1 htz2 h0 h1,
    ?_, ?_, workingDays_ascending year month, ?_, ?_⟩
  · rw [heq, List.map_map]
    apply List.map_congr_left
    intro d hd
    obtain ⟨hd1, hd2⟩ := workingDays_mem year month d hd
    have hD := Day_newDate tz year month d
    rw [← hyr, MakeDay_month year month _ h0 h1] at hD
    obtain ⟨e1, e2, e3⟩ := civil_of_day year month d _ h0 h1 hd1 hd2 hD
    simp only [Function.comp, getFullYear, getMonth, getDate, e1, e2, e3]
  · rw [heq, List.pairwise_map]
    exact (workingDays_ascending year month).imp (newDate_lt tz year month _ _)
  · intro d
    unfold Gregorian.workingDays
    simp only [List.mem_filter, List.mem_map, List.mem_range, Bool.and_eq_true,
      decide_eq_true_eq]
    constructor
    · rintro ⟨⟨i, hi, rfl⟩, hw⟩
      exact ⟨⟨by omega, by omega⟩, hw⟩
    · rintro ⟨⟨hd1, hd2⟩, hw⟩
      exact ⟨⟨(d - 1).toNat, by omega, by omega⟩, hw⟩
  · unfold Gregorian.daysInMonth
    interval_cases month
    all_goals simp only []
    all_goals first | decide | (split_ifs <;> decide)

/-- The amended C6 at February 2024 in a zone two hours east of UTC; the month
starts on a Thursday, has 29 days and 21 of them are working days. -/
theorem getWorkingDaysInMonth_gregorian_witness :
    ((2024 : Int) < 0 ∨ 99 < (2024 : Int)) ∧
    TimeClipped.getWorkingDaysInMonth 7200000 2024 1 =
      (getWorkingDaysInMonth 7200000 2024 1).map some ∧
    (getWorkingDaysInMonth 7200000 2024 1).map
        (fun t => (getFullYear 7200000 t, getMonth 7200000 t, getDate 7200000 t)) =
      (Gregorian.workingDays 2024 1).map (fun d => ((2024 : Int), (1 : Int), d)) ∧
    Gregorian.dayOfWeek 2024 1 1 = 4 ∧ Gregorian.daysInMonth 2024 1 = 29 ∧
    (Gregorian.workingDays 2024 1).length = 21 :=
  ⟨by decide,
   (getWorkingDaysInMonth_gregorian 7200000 2024 1 (by decide) (by decide) (by decide)
      (by decide) (by decide) (by decide) (by decide)).1,
   (getWorkingDaysInMonth_gregorian 7200000 2024 1 (by decide) (by decide) (by decide)
      (by decide) (by decide) (by decide) (by decide)).2.1,
   by decide, by decide, by decide⟩

/-- C6 as stated fails for the years 0 to 99.  For year 50 and January the
dates returned are those of January 1950: they start on Monday the 2nd, while
the working days of January of the year 50 start on Monday the 3rd.  It also
fails beyond the range of `Date`: for September 275760, whose last day is an
invalid `Date`, the function returns no date, while the month has 22 working
days. -/
theorem getWorkingDaysInMonth_year50 :
    ((getWorkingDaysInMonth 0 50 0).map (fun t => (getFullYear 0 t, getMonth 0 t, getDate 0 t)) ≠
      (Gregorian.workingDays 50 0).map (fun d => ((50 : Int), (0 : Int), d)) ∧
    ((getWorkingDaysInMonth 0 50 0).map (fun t => (getFullYear 0 t, getDate 0 t))).head? =
      some (1950, 2) ∧
    (Gregorian.workingDays 50 0).head? = some 3) ∧
    TimeClipped.getWorkingDaysInMonth 0 50 0 = (getWorkingDaysInMonth 0 50 0).map some ∧
    (newDateObject 0 275760 9 0 = none ∧ TimeClipped.getWorkingDaysInMonth 0 275760 8 = [] ∧
      (Gregorian.workingDays 275760 8).length = 22) := by
  decide!

end Calculations

/-! ## Working days up to today and after today -/

namespace Calculations

open JSDate

/-- A list in ascending order splits at a threshold into the part a downward
closed test keeps followed by the part its complement keeps. -/
theorem filter_append_filter_of_ascending (p q : Int → Bool) :
    ∀ (l : List Int), l.Pairwise (fun a b => a < b) →
      (∀ x ∈ l, q x = !p x) →
      (∀ x ∈ l, ∀ y ∈ l, x < y → p y = true → p x = true) →
      l.filter p ++ l.filter q = l
  | [], _, _, _ => rfl
  | x :: rest, hs, hq, hdown => by
    have hs2 := List.pairwise_cons.mp hs
    have ih := filter_append_filter_of_ascending p q rest hs2.2
      (fun y hy => hq y (List.mem_cons_of_mem _ hy))
      (fun a ha b hb => hdown a (List.mem_cons_of_mem _ ha) b (List.mem_cons_of_mem _ hb))
    have hqx := hq x (List.mem_cons_self _ _)
    by_cases hp : p x = true
    · have hqf : q x = false := by rw [hqx, hp]; rfl
      simp only [List.filter_cons, hp, hqf, if_true, List.cons_append]
      simp [ih]
    · have hpf : p x = false := by simpa using hp
      have hqt : q x = true := by rw [hqx, hpf]; rfl
      have hnone : rest.filter p = [] := by
        rw [List.filter_eq_nil_iff]
        intro y hy hpy
        exact hp (hdown x (List.mem_cons_self _ _) y (List.mem_cons_of_mem _ hy) (hs2.1 y hy) hpy)
      have hall : rest.filter q = rest := by
        rw [List.filter_eq_self]
        intro y hy
        have hpy : p y = false := by
          have := List.filter_eq_nil_iff.mp hnone y hy
          simpa using this
        rw [hq y (List.mem_cons_of_mem _ hy), hpy]; rfl
      simp [List.filter_cons, hpf, hqt, hnone, hall]

theorem getWorkingDaysInMonth_ascending (tz year month : Int) :
    (getWorkingDaysInMonth tz year month).Pairwise (fun a b => a < b) := by
  unfold getWorkingDaysInMonth
  apply List.Pairwise.filter
  rw [List.pairwise_map]
  exact (List.pairwise_lt_range _).imp
    (by intro a b hab; exact newDate_lt tz year month _ _ (by omega))

/-- Every date returned by `getWorkingDaysInMonth` is a local midnight. -/
theorem getWorkingDaysInMonth_midnight (tz year month d : Int)
    (h : d ∈ getWorkingDaysInMonth tz year month) :
    LocalTime tz d = Day (LocalTime tz d) * msPerDay := by
  unfold getWorkingDaysInMonth at h
  obtain ⟨h1, -⟩ := List.mem_filter.mp h
  obtain ⟨i, -, rfl⟩ := List.mem_map.mp h1
  unfold newDate LocalTime UTC MakeDate MakeTime Day msPerDay msPerHour msPerMinute msPerSecond
  simp only
  omega

theorem le_endOfToday_iff (tz now d : Int) (hd : LocalTime tz d = Day (LocalTime tz d) * msPerDay) :
    d ≤ setHours tz now 23 59 59 999 ↔ Day (LocalTime tz d) ≤ Day (LocalTime tz now) := by
  unfold setHours UTC MakeDate MakeTime at *
  unfold LocalTime msPerDay msPerHour msPerMinute msPerSecond at *
  generalize Day (now + tz) = a at *
  generalize Day (d + tz) = b at *
  omega

theorem gt_startOfToday_iff (tz now d : Int)
    (hd : LocalTime tz d = Day (LocalTime tz d) * msPerDay) :
    d > setHours tz now 0 0 0 0 ↔ Day (LocalTime tz d) > Day (LocalTime tz now) := by
  unfold setHours UTC MakeDate MakeTime at *
  unfold LocalTime msPerDay msPerHour msPerMinute msPerSecond at *
  generalize Day (now + tz) = a at *
  generalize Day (d + tz) = b at *
  omega

/-- C7.  For every time zone offset, clock reading, year and month, the working
days up to today followed by the remaining working days are the working days
of the month, and no date is in both parts.  A date of the month is in the
first part exactly when its local day is today or earlier, and in the second
exactly when its local day is after today; so today, when it is a working day
of the month, is in the first part and not in the second. -/
theorem workingDays_partition (tz now year month : Int) :
    getWorkingDaysUntilToday tz now year month ++ getRemainingWorkingDays tz now year month =
      getWorkingDaysInMonth tz year month ∧
    List.Disjoint (getWorkingDaysUntilToday tz now year month)
      (getRemainingWorkingDays tz now year month) ∧
    (∀ d ∈ getWorkingDaysInMonth tz year month,
      (d ∈ getWorkingDaysUntilToday tz now year month ↔
        Day (LocalTime tz d) ≤ Day (LocalTime tz now)) ∧
      (d ∈ getRemainingWorkingDays tz now year month ↔
        Day (LocalTime tz now) < Day (LocalTime tz d))) ∧
    (∀ d ∈ getWorkingDaysInMonth tz year month,
      Day (LocalTime tz d) = Day (LocalTime tz now) →
        d ∈ getWorkingDaysUntilToday tz now year month ∧
        d ∉ getRemainingWorkingDays tz now year month) := by
  have hmid := getWorkingDaysInMonth_midnight tz year month
  have hle := fun d hd => le_endOfToday_iff tz now d (hmid d hd)
  have hgt := fun d hd => gt_startOfToday_iff tz now d (hmid d hd)
  have hmem : ∀ d ∈ getWorkingDaysInMonth tz year month,
      (d ∈ getWorkingDaysUntilToday tz now year month ↔
        Day (LocalTime tz d) ≤ Day (LocalTime tz now)) ∧
      (d ∈ getRemainingWorkingDays tz now year month ↔
        Day (LocalTime tz now) < Day (LocalTime tz d)) := by
    intro d hd
    unfold getWorkingDaysUntilToday getRemainingWorkingDays
    simp only [List.mem_filter, decide_eq_true_eq, hd, true_and]
    exact ⟨hle d hd, hgt d hd⟩
  refine ⟨?_, ?_, hmem, ?_⟩
  · unfold getWorkingDaysUntilToday getRemainingWorkingDays
    apply filter_append_filter_of_ascending _ _ _ (getWorkingDaysInMonth_ascending tz year month)
    · intro x hx
      have h1 := hle x hx
      have h2 := hgt x hx
      by_cases hc : Day (LocalTime tz x) ≤ Day (LocalTime tz now)
      · have h3 : x ≤ setHours tz now 23 59 59 999 := h1.mpr hc
        have h4 : ¬ x > setHours tz now 0 0 0 0 := fun h => by have := h2.mp h; omega
        simp [h3, h4]
      · have h3 : ¬ x ≤ setHours tz now 23 59 59 999 := fun h => hc (h1.mp h)
        have h4 : x > setHours tz now 0 0 0 0 := h2.mpr (by omega)
        simp [h3, h4]
    · intro x _ y _ hxy hy
      have hy2 : y ≤ setHours tz now 23 59 59 999 := by simpa using hy
      have : x ≤ setHours tz now 23 59 59 999 := by omega
      simpa using this
  · intro d h1 h2
    have hd : d ∈ getWorkingDaysInMonth tz year month := by
      unfold getWorkingDaysUntilToday at h1
      exact (List.mem_filter.mp h1).1
    have a := (hmem d hd).1.mp h1
    have b := (hmem d hd).2.mp h2
    omega
  · intro d hd heq
    refine ⟨(hmem d hd).1.mpr (by omega), fun h => ?_⟩
    have := (hmem d hd).2.mp h
    omega

/-- C7 on Thursday 15 February 2024 at 10:00 in a zone three hours west of
UTC: that day is a working day of the month, it is counted up to today and it
is not a remaining day. -/
theorem workingDays_partition_witness :
    newDate (-10800000) 2024 1 15 ∈ getWorkingDaysInMonth (-10800000) 2024 1 ∧
    newDate (-10800000) 2024 1 15 ∈
      getWorkingDaysUntilToday (-10800000) 1708002000000 2024 1 ∧
    newDate (-10800000) 2024 1 15 ∉
      getRemainingWorkingDays (-10800000) 1708002000000 2024 1 :=
  ⟨by decide!,
   (workingDays_partition (-10800000) 1708002000000 2024 1).2.2.2
     (newDate (-10800000) 2024 1 15) (by decide!) (by decide!)⟩

end Calculations

/-! ## Binary64 rounding of the target product -/

namespace Binary64

theorem roundNearestEven_bounds (p : Nat) (hp : 2 ^ 53 ≤ p) (hlt : p < 2 ^ 103) :
    ∃ k : Nat, k ≤ 50 ∧ 2 ^ k * 2 ^ 52 ≤ p ∧ 2 ^ k ∣ roundNearestEven p ∧
      p < roundNearestEven p + 2 ^ k ∧ roundNearestEven p ≤ p + 2 ^ k := by
  have hp0 : p ≠ 0 := by
    have : 0 < 2 ^ 53 := by positivity
    omega
  have h1 := Nat.log2_self_le hp0
  have h2 : p < 2 ^ (p.log2 + 1) := Nat.lt_log2_self
  have h53 : 53 ≤ p.log2 := (Nat.le_log2 hp0).mpr hp
  have h103 : p.log2 < 103 := (Nat.log2_lt hp0).mpr hlt
  refine ⟨p.log2 - 52, by omega, ?_, ?_, ?_, ?_⟩
  · rw [← pow_add]
    have : p.log2 - 52 + 52 = p.log2 := by omega
    rw [this]
    exact h1
  all_goals
    unfold roundNearestEven
    rw [if_neg (by omega)]
    simp only
    have hx : 0 < 2 ^ (p.log2 - 52) := by positivity
    have hdm := Nat.div_add_mod p (2 ^ (p.log2 - 52))
    have hmod := Nat.mod_lt p hx
    generalize 2 ^ (p.log2 - 52) = x at *
    generalize p / x = q at *
    generalize p % x = r at *
    have hqx : x * q = q * x := Nat.mul_comm x q
    have hq1 : (q + 1) * x = q * x + x := by ring
  · split_ifs
    · exact Dvd.intro_left q rfl
    · exact Dvd.intro_left q rfl
    · exact Dvd.intro_left (q + 1) rfl
  · split_ifs <;> omega
  · split_ifs <;> omega

/-- For an integer `n` from 0 to `2 ^ 50` the binary64 value of
`Math.ceil(n * 0.60)` is the exact ceiling of three fifths of `n`. -/
theorem ceilOfProduct_eq (n : Nat) (hn : n ≤ 2 ^ 50) : ceilOfProduct n = (3 * n + 4) / 5 := by
  have hM : 5 * sixTenths + 1 = 3 * 2 ^ 53 := by decide
  have hP : 5 * (n * sixTenths) + n = 3 * n * 2 ^ 53 := by
    have : 5 * (n * sixTenths) + n = n * (5 * sixTenths + 1) := by ring
    rw [this, hM]; ring
  have hT1 : 5 * ((3 * n + 4) / 5) ≤ 3 * n + 4 := by omega
  have hT2 : 3 * n ≤ 5 * ((3 * n + 4) / 5) := by omega
  unfold ceilOfProduct
  generalize hT : (3 * n + 4) / 5 = t at hT1 hT2
  generalize hPp : n * sixTenths = p at hP
  have hW : (2 : Nat) ^ 53 = 9007199254740992 := by norm_num
  have h50 : (2 : Nat) ^ 50 = 1125899906842624 := by norm_num
  rw [hW] at hP ⊢
  rw [h50] at hn
  -- it suffices to place the rounded product between `t - 1` and `t`
  suffices h : (roundNearestEven p ≤ t * 9007199254740992) ∧
      (t = 0 ∨ (t - 1) * 9007199254740992 < roundNearestEven p) by
    obtain ⟨ha, hb⟩ := h
    rcases hb with hb | hb
    · subst hb
      have : roundNearestEven p = 0 := by omega
      rw [this]
    · have ht1 : 1 ≤ t := by
        by_contra hc
        have : t = 0 := by omega
        subst this
        omega
      obtain ⟨u, rfl⟩ : ∃ u, t = u + 1 := ⟨t - 1, by omega⟩
      simp only [Nat.add_sub_cancel] at hb
      have hlo : (u + 1) * 9007199254740992 ≤ roundNearestEven p + (9007199254740992 - 1) := by
        omega
      have hhi : roundNearestEven p + (9007199254740992 - 1) < (u + 1 + 1) * 9007199254740992 := by
        omega
      apply Nat.div_eq_of_lt_le
      · simpa [Nat.mul_comm] using hlo
      · simpa [Nat.mul_comm] using hhi
  by_cases hsmall : p < 2 ^ 53
  · have hr : roundNearestEven p = p := by
      unfold roundNearestEven
      rw [if_pos hsmall]
    rw [hr]
    rw [hW] at hsmall
    constructor
    · omega
    · by_cases ht0 : t = 0
      · exact Or.inl ht0
      · right
        obtain ⟨u, rfl⟩ : ∃ u, t = u + 1 := ⟨t - 1, by omega⟩
        simp only [Nat.add_sub_cancel]
        omega
  · have hp53 : 2 ^ 53 ≤ p := by omega
    have hp103 : p < 2 ^ 103 := by
      have h103 : (2 : Nat) ^ 103 = 9007199254740992 * 1125899906842624 := by norm_num
      rw [h103]
      have : 5 * p < 5 * (9007199254740992 * 1125899906842624) := by
        calc 5 * p ≤ 3 * n * 9007199254740992 := by omega
          _ ≤ 3 * 1125899906842624 * 9007199254740992 := by
            apply Nat.mul_le_mul_right
            omega
          _ < 5 * (9007199254740992 * 1125899906842624) := by norm_num
      omega
    obtain ⟨k, hk, hlow, hdvd, hge, hle⟩ := roundNearestEven_bounds p hp53 hp103
    have hx52 : (2 : Nat) ^ 52 = 4503599627370496 := by norm_num
    rw [hx52] at hlow
    have hdW : 2 ^ k ∣ t * 9007199254740992 := by
      rw [← hW]
      exact Dvd.dvd.mul_left (pow_dvd_pow 2 (by omega)) t
    have hn0 : 0 < n := by
      by_contra hc
      have : n = 0 := by omega
      subst this
      rw [hW] at hp53
      omega
    generalize roundNearestEven p = r at *
    generalize 2 ^ k = x at *
    constructor
    · -- the rounded product is a multiple of `x` below `p + x`, and so is `t * 2 ^ 53`
      apply Nat.le_of_lt_add_of_dvd _ hdvd hdW
      omega
    · right
      obtain ⟨u, rfl⟩ : ∃ u, t = u + 1 := ⟨t - 1, by omega⟩
      simp only [Nat.add_sub_cancel]
      omega

end Binary64

/-! ## Binary64 rounding of a quotient -/

namespace Binary64

theorem bitLengthAux_spec : ∀ (fuel n : Nat), n ≤ fuel → 0 < n →
    2 ^ bitLengthAux fuel n ≤ 2 * n ∧ n < 2 ^ bitLengthAux fuel n
  | 0, n, h, hn => by omega
  | fuel + 1, n, h, hn => by
    have hne : n ≠ 0 := by omega
    simp only [bitLengthAux, hne, if_false]
    by_cases h2 : n / 2 = 0
    · have h1 : n = 1 := by omega
      subst h1
      cases fuel with
      | zero => simp [bitLengthAux]
      | succ f => simp [bitLengthAux]
    · obtain ⟨ih1, ih2⟩ := bitLengthAux_spec fuel (n / 2) (by omega) (by omega)
      rw [pow_succ]
      constructor <;> omega

theorem bitLength_spec (n : Nat) (hn : 0 < n) :
    2 ^ bitLength n ≤ 2 * n ∧ n < 2 ^ bitLength n :=
  bitLengthAux_spec n n (le_refl n) hn

/-- The rounding of a positive quotient moves it by at most the fraction
`2 ^ (-53)` of its value. -/
theorem nearestPos_error (a b : Nat) (ha : 0 < a) (hb : 0 < b) :
    |nearestPos a b - (a : ℚ) / (b : ℚ)| ≤ (a : ℚ) / (b : ℚ) / 2 ^ 53 := by
  obtain ⟨ha1, -⟩ := bitLength_spec a ha
  obtain ⟨-, hb2⟩ := bitLength_spec b hb
  unfold nearestPos
  simp only
  generalize hla : bitLength a = la at ha1
  generalize hlb : bitLength b = lb at hb2
  generalize hn : a * 2 ^ (53 + lb) = n
  generalize he : (if n / (b * 2 ^ la) < 2 ^ 53 then la else la + 1) = e
  generalize hd : b * 2 ^ e = d
  have hdpos : 0 < d := by
    rw [← hd]
    positivity
  -- the scaled quotient has at least 53 binary digits
  have hq : 2 ^ 52 * d ≤ n := by
    by_cases hc : n / (b * 2 ^ la) < 2 ^ 53
    · rw [if_pos hc] at he
      rw [← hd, ← he, ← hn]
      have e1 : a * 2 ^ (53 + lb) = 2 ^ 52 * (2 ^ lb * (2 * a)) := by
        rw [pow_add]; ring
      have e2 : 2 ^ 52 * (b * 2 ^ la) ≤ 2 ^ 52 * (2 ^ lb * (2 * a)) := by
        apply Nat.mul_le_mul_left
        exact Nat.mul_le_mul (le_of_lt hb2) ha1
      omega
    · rw [if_neg hc] at he
      have hpos : 0 < b * 2 ^ la := by positivity
      have h53 : 2 ^ 53 * (b * 2 ^ la) ≤ n := by
        have := (Nat.le_div_iff_mul_le hpos).mp (not_lt.mp hc)
        exact this
      rw [← hd, ← he, pow_succ]
      calc 2 ^ 52 * (b * (2 ^ la * 2)) = 2 ^ 53 * (b * 2 ^ la) := by ring
        _ ≤ n := h53
  have hdm := Nat.div_add_mod n d
  have hmod := Nat.mod_lt n hdpos
  generalize hqq : n / d = q at hdm
  generalize hr : n % d = r at hdm hmod
  -- the rounded significand is within one half of the scaled quotient
  have hm : ∀ m : Nat, m = (if 2 * r < d then q else if 2 * r = d ∧ q % 2 = 0 then q else q + 1) →
      |(m : ℚ) * (d : ℚ) - (n : ℚ)| ≤ (d : ℚ) / 2 := by
    intro m hmdef
    have hnq : (n : ℚ) = (d : ℚ) * (q : ℚ) + (r : ℚ) := by exact_mod_cast hdm.symm
    rw [abs_le]
    split_ifs at hmdef with c1 c2
    · have c1q : 2 * (r : ℚ) < (d : ℚ) := by exact_mod_cast c1
      have r0 : (0 : ℚ) ≤ (r : ℚ) := Nat.cast_nonneg r
      subst hmdef
      constructor <;> nlinarith
    · have c2q : 2 * (r : ℚ) = (d : ℚ) := by exact_mod_cast c2.1
      subst hmdef
      constructor <;> nlinarith
    · have c1q : (d : ℚ) ≤ 2 * (r : ℚ) := by exact_mod_cast (not_lt.mp c1)
      have r1 : (r : ℚ) < (d : ℚ) := by exact_mod_cast hmod
      subst hmdef
      push_cast
      constructor <;> nlinarith
  have hmm := hm _ rfl
  generalize (if 2 * r < d then q else if 2 * r = d ∧ q % 2 = 0 then q else q + 1) = m at hmm
  have hbq : (0 : ℚ) < (b : ℚ) := by exact_mod_cast hb
  have hK : (0 : ℚ) < (b : ℚ) * 2 ^ (53 + lb) := by positivity
  have hx : (a : ℚ) / (b : ℚ) = (n : ℚ) / ((b : ℚ) * 2 ^ (53 + lb)) := by
    rw [← hn]
    push_cast
    field_simp
    ring
  have hv : (m : ℚ) * 2 ^ e / 2 ^ (53 + lb) = (m : ℚ) * (d : ℚ) / ((b : ℚ) * 2 ^ (53 + lb)) := by
    rw [← hd]
    push_cast
    field_simp
    ring
  have hqq2 : (2 : ℚ) ^ 52 * (d : ℚ) ≤ (n : ℚ) := by exact_mod_cast hq
  rw [hv, hx, ← sub_div, abs_div, abs_of_pos hK, div_div, div_le_div_iff₀ hK (by positivity)]
  have h53 : (2 : ℚ) ^ 53 = 2 * 2 ^ 52 := by norm_num
  have hd0 : (0 : ℚ) < (d : ℚ) := by exact_mod_cast hdpos
  calc |(m : ℚ) * (d : ℚ) - (n : ℚ)| * ((b : ℚ) * 2 ^ (53 + lb) * 2 ^ 53)
      ≤ (d : ℚ) / 2 * ((b : ℚ) * 2 ^ (53 + lb) * 2 ^ 53) :=
        mul_le_mul_of_nonneg_right hmm (by positivity)
    _ = (2 ^ 52 * (d : ℚ)) * ((b : ℚ) * 2 ^ (53 + lb)) := by rw [h53]; ring
    _ ≤ (n : ℚ) * ((b : ℚ) * 2 ^ (53 + lb)) :=
        mul_le_mul_of_nonneg_right hqq2 (le_of_lt hK)

/-- The rounding of a number that is not negative moves it by at most the
fraction `2 ^ (-53)` of its value. -/
theorem nearest_error (x : ℚ) (hx : 0 ≤ x) : |nearest x - x| ≤ x / 2 ^ 53 := by
  unfold nearest
  by_cases h0 : x = 0
  · simp [h0]
  · have hpos : 0 < x := lt_of_le_of_ne hx (Ne.symm h0)
    rw [if_neg h0, if_pos hpos]
    have hnum : 0 < x.num := Rat.num_pos.mpr hpos
    have hcast : ((x.num.toNat : Nat) : ℚ) = (x.num : ℚ) := by
      have : ((x.num.toNat : Nat) : Int) = x.num := Int.toNat_of_nonneg (le_of_lt hnum)
      exact_mod_cast this
    have h := nearestPos_error x.num.toNat x.den (by omega) x.den_pos
    rw [hcast, Rat.num_div_den] at h
    exact h

theorem nearest_nonneg (x : ℚ) (hx : 0 ≤ x) : 0 ≤ nearest x := by
  have h := nearest_error x hx
  rw [abs_le] at h
  have h2 : x / 2 ^ 53 ≤ x := div_le_self hx (by norm_num)
  linarith [h.1]

end Binary64

namespace Binary64

/-- The error of the binary64 product `remainingDays * (office / decided)`. -/
theorem product_error (o t d : Int) (ho : 0 ≤ o) (hot : o ≤ t) (ht : 0 < t) (hd : 0 ≤ d) :
    0 ≤ nearest ((d : ℚ) * nearest ((o : ℚ) / (t : ℚ))) ∧
    |nearest ((d : ℚ) * nearest ((o : ℚ) / (t : ℚ))) - (d : ℚ) * ((o : ℚ) / (t : ℚ))|
      ≤ 3 * (d : ℚ) / 2 ^ 53 := by
  have htq : (0 : ℚ) < (t : ℚ) := by exact_mod_cast ht
  have hoq : (0 : ℚ) ≤ (o : ℚ) := by exact_mod_cast ho
  have hdq : (0 : ℚ) ≤ (d : ℚ) := by exact_mod_cast hd
  have hotq : (o : ℚ) ≤ (t : ℚ) := by exact_mod_cast hot
  have hx0 : (0 : ℚ) ≤ (o : ℚ) / (t : ℚ) := div_nonneg hoq (le_of_lt htq)
  have hx1 : (o : ℚ) / (t : ℚ) ≤ 1 := (div_le_one htq).mpr hotq
  have h1 := nearest_error ((o : ℚ) / (t : ℚ)) hx0
  have hr0 := nearest_nonneg ((o : ℚ) / (t : ℚ)) hx0
  generalize nearest ((o : ℚ) / (t : ℚ)) = ρ at h1 hr0 ⊢
  generalize (o : ℚ) / (t : ℚ) = x at hx0 hx1 h1
  have hy0 : (0 : ℚ) ≤ (d : ℚ) * ρ := mul_nonneg hdq hr0
  have h2 := nearest_error ((d : ℚ) * ρ) hy0
  have hp0 := nearest_nonneg ((d : ℚ) * ρ) hy0
  generalize nearest ((d : ℚ) * ρ) = p at h2 hp0 ⊢
  refine ⟨hp0, ?_⟩
  rw [abs_le] at h1 h2 ⊢
  have he : (0 : ℚ) < 1 / 2 ^ 53 := by positivity
  have he1 : (1 : ℚ) / 2 ^ 53 ≤ 1 := by norm_num
  have e1 : x / 2 ^ 53 = x * (1 / 2 ^ 53) := by ring
  have e2 : (d : ℚ) * ρ / 2 ^ 53 = (d : ℚ) * ρ * (1 / 2 ^ 53) := by ring
  have e3 : 3 * (d : ℚ) / 2 ^ 53 = 3 * (d : ℚ) * (1 / 2 ^ 53) := by ring
  rw [e1] at h1
  rw [e2] at h2
  rw [e3]
  generalize (1 : ℚ) / 2 ^ 53 = ε at he he1 h1 h2 ⊢
  have hxe : x * ε ≤ ε := by nlinarith
  have hρ1 : ρ ≤ 1 + ε := by linarith [h1.2]
  have hρx : |ρ - x| ≤ ε := by
    rw [abs_le]
    constructor <;> linarith [h1.1, h1.2]
  rw [abs_le] at hρx
  have hdρ : (d : ℚ) * ρ * ε ≤ 2 * (d : ℚ) * ε := by
    have : (d : ℚ) * ρ ≤ 2 * (d : ℚ) := by nlinarith
    nlinarith
  have hdx1 : (d : ℚ) * (ρ - x) ≤ (d : ℚ) * ε := mul_le_mul_of_nonneg_left hρx.2 hdq
  have hdx2 : (d : ℚ) * (-ε) ≤ (d : ℚ) * (ρ - x) := mul_le_mul_of_nonneg_left hρx.1 hdq
  constructor <;> nlinarith

/-- A number within less than `1 / (2 t)` of the quotient `a / t` lies on the
same side of every half integer as the quotient, or the quotient is that half
integer. -/
theorem half_window (t a k : Int) (p δ : ℚ) (ht : 0 < t)
    (hδ : δ * (2 * (t : ℚ)) < 1) (hp : |p - (a : ℚ) / (t : ℚ)| ≤ δ)
    (hk1 : (k : ℚ) - 1 / 2 ≤ p) (hk2 : p < (k : ℚ) + 1 / 2) :
    (k : ℚ) - 1 / 2 ≤ (a : ℚ) / (t : ℚ) ∧ (a : ℚ) / (t : ℚ) ≤ (k : ℚ) + 1 / 2 := by
  have htq : (0 : ℚ) < (t : ℚ) := by exact_mod_cast ht
  rw [abs_le] at hp
  constructor
  · by_contra hc
    rw [not_le, div_lt_iff₀ htq] at hc
    have hc2 : 2 * a < (2 * k - 1) * t := by
      have : (2 : ℚ) * (a : ℚ) < (2 * (k : ℚ) - 1) * (t : ℚ) := by linarith
      exact_mod_cast this
    have hc3 : 2 * a + 1 ≤ (2 * k - 1) * t := by omega
    have hc4 : (2 : ℚ) * (a : ℚ) + 1 ≤ (2 * (k : ℚ) - 1) * (t : ℚ) := by exact_mod_cast hc3
    have hx : (a : ℚ) / (t : ℚ) * (2 * (t : ℚ)) = 2 * (a : ℚ) := by
      field_simp
      ring
    have h1 : (p - (a : ℚ) / (t : ℚ)) * (2 * (t : ℚ)) ≤ δ * (2 * (t : ℚ)) :=
      mul_le_mul_of_nonneg_right hp.2 (by positivity)
    have h2 : ((k : ℚ) - 1 / 2) * (2 * (t : ℚ)) ≤ p * (2 * (t : ℚ)) :=
      mul_le_mul_of_nonneg_right hk1 (by positivity)
    nlinarith
  · by_contra hc
    rw [not_le, lt_div_iff₀ htq] at hc
    have hc2 : (2 * k + 1) * t < 2 * a := by
      have : (2 * (k : ℚ) + 1) * (t : ℚ) < (2 : ℚ) * (a : ℚ) := by linarith
      exact_mod_cast this
    have hc3 : (2 * k + 1) * t + 1 ≤ 2 * a := by omega
    have hc4 : (2 * (k : ℚ) + 1) * (t : ℚ) + 1 ≤ (2 : ℚ) * (a : ℚ) := by exact_mod_cast hc3
    have hx : (a : ℚ) / (t : ℚ) * (2 * (t : ℚ)) = 2 * (a : ℚ) := by
      field_simp
      ring
    have h1 : (-δ) * (2 * (t : ℚ)) ≤ (p - (a : ℚ) / (t : ℚ)) * (2 * (t : ℚ)) :=
      mul_le_mul_of_nonneg_right hp.1 (by positivity)
    have h2 : p * (2 * (t : ℚ)) < ((k : ℚ) + 1 / 2) * (2 * (t : ℚ)) :=
      mul_lt_mul_of_pos_right hk2 (by positivity)
    nlinarith

end Binary64

/-! ## The attendance analytics -/

namespace Calculations

/-- The ceiling of 60% of an integer, in integer arithmetic. -/
theorem mathCeil_target (n : Int) :
    mathCeil ((n : ℚ) * TARGET_PERCENTAGE) = (3 * n + 4) / 5 := by
  unfold mathCeil TARGET_PERCENTAGE
  rw [Int.ceil_eq_iff]
  have h2 : 5 * ((3 * n + 4) / 5) ≤ 3 * n + 4 := by omega
  have h4 : 3 * n ≤ 5 * ((3 * n + 4) / 5) := by omega
  have h2q : ((5 * ((3 * n + 4) / 5) : Int) : ℚ) ≤ ((3 * n + 4 : Int) : ℚ) := by exact_mod_cast h2
  have h4q : ((3 * n : Int) : ℚ) ≤ ((5 * ((3 * n + 4) / 5) : Int) : ℚ) := by exact_mod_cast h4
  push_cast at h2q h4q
  constructor
  · norm_num; linarith
  · norm_num; linarith

/-- C1.  For all integers (so for all non-negative ones) `office`, `remote`,
`totalWorkingDays`, `licenseDays`, with `effective = totalWorkingDays -
licenseDays`, `remaining = effective - (office + remote)` and `needed =
ceiling (effective * 0.60) - office`: the suggestion is `none` if `remaining ≤
0`, otherwise `remote` if `needed ≤ 0`, otherwise `office` if `needed ≥
remaining`, otherwise `office` if `remaining - needed ≤ 2`, otherwise `any`;
`any` is returned exactly when `remaining > 0`, `needed > 0` and `remaining -
needed ≥ 3`.  Also `suggestTomorrow(0,0,20,0)` gives `any` and
`suggestTomorrow(10,8,20,0)` gives `office`. -/
theorem suggestTomorrow_branches :
    (∀ office remote totalWorkingDays licenseDays : Int,
      let effective := totalWorkingDays - licenseDays
      let remaining := effective - (office + remote)
      let needed := ⌈(effective : ℚ) * (60 / 100)⌉ - office
      (suggestTomorrow office remote totalWorkingDays licenseDays).suggestion =
          (if remaining ≤ 0 then "none"
           else if needed ≤ 0 then "remote"
           else if needed ≥ remaining then "office"
           else if remaining - needed ≤ 2 then "office"
           else "any") ∧
      ((suggestTomorrow office remote totalWorkingDays licenseDays).suggestion = "any" ↔
          remaining > 0 ∧ needed > 0 ∧ remaining - needed ≥ 3)) ∧
    (suggestTomorrow 0 0 20 0).suggestion = "any" ∧
    (suggestTomorrow 10 8 20 0).suggestion = "office" := by
  refine ⟨?_, by decide!, by decide!⟩
  intro office remote totalWorkingDays licenseDays
  have hc : ⌈((totalWorkingDays - licenseDays : Int) : ℚ) * (60 / 100)⌉ =
      mathCeil (((totalWorkingDays - licenseDays : Int) : ℚ) * TARGET_PERCENTAGE) := by
    unfold mathCeil TARGET_PERCENTAGE
    norm_num
  simp only [hc]
  unfold suggestTomorrow
  simp only
  generalize mathCeil (((totalWorkingDays - licenseDays : Int) : ℚ) * TARGET_PERCENTAGE) = target
  constructor
  · split_ifs <;> rfl
  · split_ifs <;> simp <;> omega

/-- C2 as stated fails: for `(20, 10, 12)` the target is 6, `needed` is 0 and
`remainingDays` is -2, so `needed ≤ remainingDays` is false, yet `possible` is
true, because the code compares the unclamped difference 6 - 20 = -14. -/
theorem possible_not_clamped :
    (calculateRemainingOfficeDaysNeeded 20 10 12).needed = 0 ∧
    (calculateRemainingOfficeDaysNeeded 20 10 12).remainingDays = -2 ∧
    (calculateRemainingOfficeDaysNeeded 20 10 12).possible = true ∧
    (calculateRemainingOfficeDaysNeeded 20 10 12).possible ≠
      decide ((calculateRemainingOfficeDaysNeeded 20 10 12).needed ≤
        (calculateRemainingOfficeDaysNeeded 20 10 12).remainingDays) := by
  decide!

/-- C2, amended.  For all integers the field `possible` is the comparison
`targetTotal - currentOffice ≤ remainingDays` of the difference before it is
clamped at 0; it equals `needed ≤ remainingDays` whenever `remainingDays ≥ 0`
or `currentOffice < targetTotal`.  Here `needed = max 0 (targetTotal -
currentOffice)` and `remainingDays = totalWorkingDays - daysAlreadyRegistered`. -/
theorem possible_spec (currentOffice totalWorkingDays daysAlreadyRegistered : Int) :
    (calculateRemainingOfficeDaysNeeded currentOffice totalWorkingDays
        daysAlreadyRegistered).needed =
      max 0 ((calculateRemainingOfficeDaysNeeded currentOffice totalWorkingDays
        daysAlreadyRegistered).targetTotal - currentOffice) ∧
    (calculateRemainingOfficeDaysNeeded currentOffice totalWorkingDays
        daysAlreadyRegistered).remainingDays = totalWorkingDays - daysAlreadyRegistered ∧
    (calculateRemainingOfficeDaysNeeded currentOffice totalWorkingDays
        daysAlreadyRegistered).possible =
      decide ((calculateRemainingOfficeDaysNeeded currentOffice totalWorkingDays
          daysAlreadyRegistered).targetTotal - currentOffice ≤
        (calculateRemainingOfficeDaysNeeded currentOffice totalWorkingDays
          daysAlreadyRegistered).remainingDays) ∧
    (0 ≤ (calculateRemainingOfficeDaysNeeded currentOffice totalWorkingDays
          daysAlreadyRegistered).remainingDays ∨
        currentOffice < (calculateRemainingOfficeDaysNeeded currentOffice totalWorkingDays
          daysAlreadyRegistered).targetTotal →
      (calculateRemainingOfficeDaysNeeded currentOffice totalWorkingDays
          daysAlreadyRegistered).possible =
        decide ((calculateRemainingOfficeDaysNeeded currentOffice totalWorkingDays
            daysAlreadyRegistered).needed ≤
          (calculateRemainingOfficeDaysNeeded currentOffice totalWorkingDays
            daysAlreadyRegistered).remainingDays)) := by
  refine ⟨rfl, rfl, rfl, ?_⟩
  intro h0
  have h : 0 ≤ totalWorkingDays - daysAlreadyRegistered ∨
      currentOffice < mathCeil ((totalWorkingDays : ℚ) * TARGET_PERCENTAGE) := h0
  clear h0
  show decide (mathCeil ((totalWorkingDays : ℚ) * TARGET_PERCENTAGE) - currentOffice ≤
      totalWorkingDays - daysAlreadyRegistered) =
    decide (max 0 (mathCeil ((totalWorkingDays : ℚ) * TARGET_PERCENTAGE) - currentOffice) ≤
      totalWorkingDays - daysAlreadyRegistered)
  generalize mathCeil ((totalWorkingDays : ℚ) * TARGET_PERCENTAGE) = target at h ⊢
  rw [decide_eq_decide]
  rcases le_total 0 (target - currentOffice) with h3 | h3
  · rw [max_eq_right h3]
  · rw [max_eq_left h3]
    omega

/-- The amended C2 at `(0, 20, 0)`, where `remainingDays` is 20. -/
theorem possible_spec_witness :
    (calculateRemainingOfficeDaysNeeded 0 20 0).possible =
      decide ((calculateRemainingOfficeDaysNeeded 0 20 0).needed ≤
        (calculateRemainingOfficeDaysNeeded 0 20 0).remainingDays) :=
  (possible_spec 0 20 0).2.2.2 (Or.inl (by decide))

/-- C3.  For all integers (so for all non-negative ones) the returned object
has `targetTotal = ceiling (totalWorkingDays * 0.60)`, which is `(3 *
totalWorkingDays + 4) / 5` rounded down, `needed = max 0 (targetTotal -
currentOffice)`, `remainingDays = totalWorkingDays - daysAlreadyRegistered`
and `surplus = currentOffice - targetTotal`; `(12, 20, 20)` and `(0, 20, 0)`
give the two objects of the specification. -/
theorem calculateRemainingOfficeDaysNeeded_fields :
    (∀ currentOffice totalWorkingDays daysAlreadyRegistered : Int,
      let r := calculateRemainingOfficeDaysNeeded currentOffice totalWorkingDays
        daysAlreadyRegistered
      r.targetTotal = ⌈(totalWorkingDays : ℚ) * (60 / 100)⌉ ∧
      r.targetTotal = (3 * totalWorkingDays + 4) / 5 ∧
      r.needed = max 0 (r.targetTotal - currentOffice) ∧
      r.remainingDays = totalWorkingDays - daysAlreadyRegistered ∧
      r.surplus = currentOffice - r.targetTotal) ∧
    calculateRemainingOfficeDaysNeeded 12 20 20 =
      { targetTotal := 12, needed := 0, remainingDays := 0, possible := true, surplus := 0 } ∧
    calculateRemainingOfficeDaysNeeded 0 20 0 =
      { targetTotal := 12, needed := 12, remainingDays := 20, possible := true,
        surplus := -12 } := by
  refine ⟨?_, by decide!, by decide!⟩
  intro currentOffice totalWorkingDays daysAlreadyRegistered
  have h := mathCeil_target totalWorkingDays
  refine ⟨?_, h, rfl, rfl, rfl⟩
  show mathCeil ((totalWorkingDays : ℚ) * TARGET_PERCENTAGE) = _
  unfold mathCeil TARGET_PERCENTAGE
  norm_num

/-- Meeting 60% with `s` office days out of `n > 0` days, in integers. -/
theorem sixty_percent_iff (n s : Int) (hn : 0 < n) :
    (60 / 100 : ℚ) ≤ (s : ℚ) / (n : ℚ) ↔ 3 * n ≤ 5 * s := by
  have hq : (0 : ℚ) < (n : ℚ) := by exact_mod_cast hn
  rw [le_div_iff₀ hq]
  constructor
  · intro h
    have h2 : (3 : ℚ) * (n : ℚ) ≤ 5 * (s : ℚ) := by linarith
    exact_mod_cast h2
  · intro h
    have h2 : (3 : ℚ) * (n : ℚ) ≤ 5 * (s : ℚ) := by exact_mod_cast h
    linarith

/-- C4.  For every positive integer `n` of effective working days, the target
`t = Math.ceil(n * TARGET_PERCENTAGE)`, which is the `targetTotal` returned by
`calculateRemainingOfficeDaysNeeded` and the target `suggestTomorrow` compares
the office days with, is the least integer with `t / n ≥ 0.60`: `t / n ≥
0.60`, `(t - 1) / n < 0.60`, every integer `s` with `s / n ≥ 0.60` is at least
`t`, and `t ≤ n`.  For `n` up to `2 ^ 50` the binary64 evaluation of
`Math.ceil(n * 0.60)` gives this same `t`.  Hence `suggestTomorrow`, while
days remain, answers `remote` exactly when the office days already are 60% of
the `n` days. -/
theorem targetTotal_least (n : Int) (hn : 0 < n) :
    (∀ currentOffice daysAlreadyRegistered : Int,
      (calculateRemainingOfficeDaysNeeded currentOffice n daysAlreadyRegistered).targetTotal =
        mathCeil ((n : ℚ) * TARGET_PERCENTAGE)) ∧
    (60 / 100 : ℚ) ≤ (mathCeil ((n : ℚ) * TARGET_PERCENTAGE) : ℚ) / (n : ℚ) ∧
    ((mathCeil ((n : ℚ) * TARGET_PERCENTAGE) : ℚ) - 1) / (n : ℚ) < (60 / 100 : ℚ) ∧
    (∀ s : Int, (60 / 100 : ℚ) ≤ (s : ℚ) / (n : ℚ) → mathCeil ((n : ℚ) * TARGET_PERCENTAGE) ≤ s) ∧
    mathCeil ((n : ℚ) * TARGET_PERCENTAGE) ≤ n ∧
    (n ≤ 2 ^ 50 →
      (Binary64.ceilOfProduct n.toNat : Int) = mathCeil ((n : ℚ) * TARGET_PERCENTAGE)) ∧
    (∀ office remote totalWorkingDays licenseDays : Int,
      totalWorkingDays - licenseDays = n → office + remote < n →
      ((suggestTomorrow office remote totalWorkingDays licenseDays).suggestion = "remote" ↔
        (60 / 100 : ℚ) ≤ (office : ℚ) / (n : ℚ))) := by
  have ht := mathCeil_target n
  refine ⟨fun _ _ => rfl, ?_, ?_, ?_, ?_, ?_, ?_⟩
  · rw [sixty_percent_iff n _ hn, ht]
    omega
  · have h := sixty_percent_iff n (mathCeil ((n : ℚ) * TARGET_PERCENTAGE) - 1) hn
    rw [Int.cast_sub, Int.cast_one] at h
    rw [← not_le, h, ht]
    omega
  · intro s hs
    rw [sixty_percent_iff n s hn] at hs
    rw [ht]
    omega
  · rw [ht]
    omega
  · intro h50
    have hb := Binary64.ceilOfProduct_eq n.toNat (by
      have h : (2 : Int) ^ 50 = ((2 ^ 50 : Nat) : Int) := by norm_num
      rw [h] at h50
      omega)
    rw [ht, hb]
    omega
  · intro office remote totalWorkingDays licenseDays he hr
    rw [sixty_percent_iff n office hn]
    unfold suggestTomorrow
    simp only [he, ht]
    split_ifs <;> simp <;> omega

/-- C4 at `n = 20`: the target 12 is 60% of 20 and 11 is not. -/
theorem targetTotal_least_witness :
    (60 / 100 : ℚ) ≤ (mathCeil (((20 : Int) : ℚ) * TARGET_PERCENTAGE) : ℚ) / ((20 : Int) : ℚ) ∧
    ((mathCeil (((20 : Int) : ℚ) * TARGET_PERCENTAGE) : ℚ) - 1) / ((20 : Int) : ℚ) <
      (60 / 100 : ℚ) ∧
    (Binary64.ceilOfProduct (20 : Int).toNat : Int) =
      mathCeil (((20 : Int) : ℚ) * TARGET_PERCENTAGE) :=
  ⟨(targetTotal_least 20 (by decide)).2.1, (targetTotal_least 20 (by decide)).2.2.1,
   (targetTotal_least 20 (by decide)).2.2.2.2.2.1 (by norm_num)⟩

/-- The office days the projection adds: `Math.round` of the binary64 product
of `remainingDays` and the binary64 quotient `currentRatio`. -/
theorem projectedShare_bounds (o r d : Int) (ho : 0 ≤ o) (hr : 0 ≤ r) (hd : 0 ≤ d)
    (h : o + r ≠ 0) :
    0 ≤ mathRound (Binary64.nearest ((d : ℚ) *
      Binary64.nearest ((o : ℚ) / ((o + r : Int) : ℚ)))) ∧
    (d ≤ 2 ^ 50 →
      mathRound (Binary64.nearest ((d : ℚ) *
        Binary64.nearest ((o : ℚ) / ((o + r : Int) : ℚ)))) ≤ d) ∧
    (o + r ≤ 2 ^ 25 → d ≤ 2 ^ 25 →
      (mathRound (Binary64.nearest ((d : ℚ) *
          Binary64.nearest ((o : ℚ) / ((o + r : Int) : ℚ)))) : ℚ) - 1 / 2
        ≤ (d : ℚ) * ((o : ℚ) / ((o + r : Int) : ℚ)) ∧
      (d : ℚ) * ((o : ℚ) / ((o + r : Int) : ℚ))
        ≤ (mathRound (Binary64.nearest ((d : ℚ) *
          Binary64.nearest ((o : ℚ) / ((o + r : Int) : ℚ)))) : ℚ) + 1 / 2) := by
  have ht : 0 < o + r := by omega
  obtain ⟨hp0, hperr⟩ := Binary64.product_error o (o + r) d ho (by omega) ht hd
  have htq : (0 : ℚ) < ((o + r : Int) : ℚ) := by exact_mod_cast ht
  have hoq : (0 : ℚ) ≤ (o : ℚ) := by exact_mod_cast ho
  have hdq : (0 : ℚ) ≤ (d : ℚ) := by exact_mod_cast hd
  have hotq : (o : ℚ) ≤ ((o + r : Int) : ℚ) := by
    have : o ≤ o + r := by omega
    exact_mod_cast this
  have hx1 : (o : ℚ) / ((o + r : Int) : ℚ) ≤ 1 := (div_le_one htq).mpr hotq
  have hxd : (d : ℚ) * ((o : ℚ) / ((o + r : Int) : ℚ)) ≤ (d : ℚ) :=
    mul_le_of_le_one_right hdq hx1
  generalize Binary64.nearest ((d : ℚ) *
    Binary64.nearest ((o : ℚ) / ((o + r : Int) : ℚ))) = p at hp0 hperr ⊢
  have hfl1 : ((mathRound p : Int) : ℚ) ≤ p + 1 / 2 := Int.floor_le (p + 1 / 2)
  have hfl2 : p + 1 / 2 < ((mathRound p : Int) : ℚ) + 1 := Int.lt_floor_add_one (p + 1 / 2)
  refine ⟨?_, ?_, ?_⟩
  · unfold mathRound
    apply Int.floor_nonneg.mpr
    linarith
  · intro hb
    have hbq : (d : ℚ) ≤ 2 ^ 50 := by exact_mod_cast hb
    rw [abs_le] at hperr
    have hlt : mathRound p < d + 1 := by
      unfold mathRound
      rw [Int.floor_lt]
      push_cast
      have e : 3 * (d : ℚ) / 2 ^ 53 ≤ 3 / 8 := by
        rw [div_le_iff₀ (by positivity)]
        have : (3 : ℚ) / 8 * 2 ^ 53 = 3 * 2 ^ 50 := by norm_num
        rw [this]
        linarith
      linarith [hperr.2]
    omega
  · intro hb1 hb2
    have hb1q : ((o + r : Int) : ℚ) ≤ 2 ^ 25 := by exact_mod_cast hb1
    have hb2q : (d : ℚ) ≤ 2 ^ 25 := by exact_mod_cast hb2
    have hxa : (d : ℚ) * ((o : ℚ) / ((o + r : Int) : ℚ)) =
        ((d * o : Int) : ℚ) / ((o + r : Int) : ℚ) := by
      push_cast
      ring
    rw [hxa] at hperr ⊢
    apply Binary64.half_window (o + r) (d * o) (mathRound p) p (3 * (d : ℚ) / 2 ^ 53) ht _ hperr
    · linarith
    · linarith
    · have h1 : (d : ℚ) * ((o + r : Int) : ℚ) ≤ 2 ^ 25 * 2 ^ 25 :=
        mul_le_mul hb2q hb1q (le_of_lt htq) (by positivity)
      have e : 3 * (d : ℚ) / 2 ^ 53 * (2 * ((o + r : Int) : ℚ)) =
          6 * ((d : ℚ) * ((o + r : Int) : ℚ)) / 2 ^ 53 := by ring
      rw [e, div_lt_iff₀ (by positivity)]
      have : (2 : ℚ) ^ 25 * 2 ^ 25 = 2 ^ 50 := by norm_num
      have h53 : (2 : ℚ) ^ 53 = 8 * 2 ^ 50 := by norm_num
      have hpos : (0 : ℚ) < 2 ^ 50 := by positivity
      rw [h53]
      linarith

/-- C5, amended.  For all non-negative integers with `currentOffice +
currentRemote` and `remainingDays` at most `2 ^ 25`: `projectFinalPercentage`
returns 0.60 when `currentOffice + currentRemote = 0`; otherwise, with
`decided = currentOffice + currentRemote` and `ratio = currentOffice /
decided`, it returns `(currentOffice + k) / (decided + remainingDays)`, where
`k` is `Math.round` of the binary64 product and is an integer nearest to
`remainingDays * ratio`: `k - 1/2 ≤ remainingDays * ratio ≤ k + 1/2`.  When
the product is not halfway between two integers `k` is it rounded to the
nearest integer; when it is halfway `k` is one of the two neighbours.  The
denominator `decided + remainingDays` is positive. -/
theorem projectFinalPercentage_spec (currentOffice currentRemote remainingDays : Int)
    (ho : 0 ≤ currentOffice) (hr : 0 ≤ currentRemote) (hd : 0 ≤ remainingDays)
    (hb1 : currentOffice + currentRemote ≤ 2 ^ 25) (hb2 : remainingDays ≤ 2 ^ 25) :
    (currentOffice + currentRemote = 0 →
      projectFinalPercentage currentOffice currentRemote remainingDays = some (60 / 100)) ∧
    (currentOffice + currentRemote ≠ 0 →
      ∃ k : Int,
        k = mathRound (Binary64.nearest ((remainingDays : ℚ) *
          Binary64.nearest ((currentOffice : ℚ) / ((currentOffice + currentRemote : Int) : ℚ)))) ∧
        ((k : ℚ) - 1 / 2 ≤
            (remainingDays : ℚ) * ((currentOffice : ℚ) / ((currentOffice + currentRemote : Int) : ℚ)) ∧
          (remainingDays : ℚ) * ((currentOffice : ℚ) / ((currentOffice + currentRemote : Int) : ℚ)) ≤
            (k : ℚ) + 1 / 2) ∧
        ((remainingDays : ℚ) * ((currentOffice : ℚ) / ((currentOffice + currentRemote : Int) : ℚ)) ≠
            (k : ℚ) + 1 / 2 →
          k = mathRound ((remainingDays : ℚ) *
            ((currentOffice : ℚ) / ((currentOffice + currentRemote : Int) : ℚ)))) ∧
        projectFinalPercentage currentOffice currentRemote remainingDays =
          some (((currentOffice + k : Int) : ℚ) /
            ((currentOffice + currentRemote + remainingDays : Int) : ℚ)) ∧
        0 < currentOffice + currentRemote + remainingDays) := by
  constructor
  · intro h
    unfold projectFinalPercentage TARGET_PERCENTAGE
    simp only [h, if_true]
    norm_num
  · intro h
    obtain ⟨-, -, hwin⟩ :=
      projectedShare_bounds currentOffice currentRemote remainingDays ho hr hd h
    obtain ⟨hw1, hw2⟩ := hwin hb1 hb2
    refine ⟨_, rfl, ⟨hw1, hw2⟩, ?_, ?_, by omega⟩
    · intro hne
      have hlt := lt_of_le_of_ne hw2 hne
      symm
      unfold mathRound at hw1 hlt ⊢
      rw [Int.floor_eq_iff]
      constructor <;> linarith
    · have hden : currentOffice + currentRemote + remainingDays ≠ 0 := by omega
      unfold projectFinalPercentage
      simp only [h, if_false, hden]

/-- The amended C5 at `(0, 0, 5)` and at `(1, 1, 1)`, where the product 1/2 is
halfway and is rounded up to 1: the projection is 2/3. -/
theorem projectFinalPercentage_spec_witness :
    projectFinalPercentage 0 0 5 = some (60 / 100) ∧
    (∃ k : Int,
      k = mathRound (Binary64.nearest (((1 : Int) : ℚ) *
        Binary64.nearest (((1 : Int) : ℚ) / (((1 : Int) + 1 : Int) : ℚ)))) ∧
      ((k : ℚ) - 1 / 2 ≤ ((1 : Int) : ℚ) * (((1 : Int) : ℚ) / (((1 : Int) + 1 : Int) : ℚ)) ∧
        ((1 : Int) : ℚ) * (((1 : Int) : ℚ) / (((1 : Int) + 1 : Int) : ℚ)) ≤ (k : ℚ) + 1 / 2) ∧
      (((1 : Int) : ℚ) * (((1 : Int) : ℚ) / (((1 : Int) + 1 : Int) : ℚ)) ≠ (k : ℚ) + 1 / 2 →
        k = mathRound (((1 : Int) : ℚ) * (((1 : Int) : ℚ) / (((1 : Int) + 1 : Int) : ℚ)))) ∧
      projectFinalPercentage 1 1 1 =
        some ((((1 : Int) + k : Int) : ℚ) / (((1 : Int) + 1 + 1 : Int) : ℚ)) ∧
      (0 : Int) < 1 + 1 + 1) ∧
    projectFinalPercentage 1 1 1 = some (2 / 3) :=
  ⟨(projectFinalPercentage_spec 0 0 5 (by decide) (by decide) (by decide) (by decide)
      (by decide)).1 (by decide),
   (projectFinalPercentage_spec 1 1 1 (by decide) (by decide) (by decide) (by decide)
      (by decide)).2 (by decide),
   by decide!⟩

/-- C5 as stated fails at `(15, 7, 11)`: the ratio 15/22 is not a binary64
number, the binary64 product with 11 is just below 7.5 and `Math.round` gives
7, so the code returns 22/33, while 7.5 with the half rounded up gives 8 and
23/33.  The same happens at `(7, 3, 45)` and at `(3, 19, 55)`. -/
theorem projectFinalPercentage_tie_down :
    (projectFinalPercentage 15 7 11 = some (22 / 33) ∧
     Binary64.nearest (((11 : Int) : ℚ) * Binary64.nearest (((15 : Int) : ℚ) / ((22 : Int) : ℚ)))
       = 8444249301319679 / 1125899906842624 ∧
     ((11 : Int) : ℚ) * (((15 : Int) : ℚ) / ((22 : Int) : ℚ)) = 15 / 2 ∧
     mathRound (((11 : Int) : ℚ) * (((15 : Int) : ℚ) / ((22 : Int) : ℚ))) = 8 ∧
     (((15 + 8 : Int) : ℚ) / ((15 + 7 + 11 : Int) : ℚ) = 23 / 33) ∧
     ((22 : ℚ) / 33 ≠ 23 / 33)) ∧
    (projectFinalPercentage 7 3 45 = some (38 / 55) ∧
     mathRound (((45 : Int) : ℚ) * (((7 : Int) : ℚ) / ((10 : Int) : ℚ))) = 32 ∧
     ((7 + 32 : Int) : ℚ) / ((7 + 3 + 45 : Int) : ℚ) = 39 / 55) ∧
    (projectFinalPercentage 3 19 55 = some (10 / 77) ∧
     mathRound (((55 : Int) : ℚ) * (((3 : Int) : ℚ) / ((22 : Int) : ℚ))) = 8 ∧
     ((3 + 8 : Int) : ℚ) / ((3 + 19 + 55 : Int) : ℚ) = 11 / 77) := by
  decide!

end Calculations

/-! ## The record store -/

theorem find_assignEntry_same {α : Type} (entries : List (String × α)) (k : String) (v : α) :
    (assignEntry entries k v).find? (fun e => e.1 = k) = some (k, v) := by
  induction entries with
  | nil => simp [assignEntry]
  | cons e rest ih =>
    obtain ⟨k0, v0⟩ := e
    by_cases hk : k0 = k
    · simp [assignEntry, hk]
    · simp [assignEntry, hk, List.find?_cons, ih]

theorem find_assignEntry_other {α : Type} (entries : List (String × α)) (k j : String) (v : α)
    (hj : j ≠ k) :
    (assignEntry entries k v).find? (fun e => e.1 = j) = entries.find? (fun e => e.1 = j) := by
  induction entries with
  | nil => simp [assignEntry, List.find?_cons, Ne.symm hj]
  | cons e rest ih =>
    obtain ⟨k0, v0⟩ := e
    by_cases hk : k0 = k
    · subst hk
      simp [assignEntry, List.find?_cons, Ne.symm hj]
    · by_cases hk2 : k0 = j
      · subst hk2
        simp [assignEntry, hk, List.find?_cons]
      · simp [assignEntry, hk, List.find?_cons, hk2, ih]

theorem find_deleteEntry_same {α : Type} (entries : List (String × α)) (k : String) :
    (deleteEntry entries k).find? (fun e => e.1 = k) = none := by
  unfold deleteEntry
  rw [List.find?_eq_none]
  intro e he
  have := (List.mem_filter.mp he).2
  simpa using this

theorem find_deleteEntry_other {α : Type} (entries : List (String × α)) (k j : String)
    (hj : j ≠ k) :
    (deleteEntry entries k).find? (fun e => e.1 = j) = entries.find? (fun e => e.1 = j) := by
  unfold deleteEntry
  induction entries with
  | nil => rfl
  | cons e rest ih =>
    obtain ⟨k0, v0⟩ := e
    by_cases hk : k0 = k
    · have h1 : List.filter (fun e : String × α => decide (e.1 ≠ k)) ((k0, v0) :: rest) =
          List.filter (fun e => decide (e.1 ≠ k)) rest := by
        simp [List.filter_cons, hk]
      have h2 : k0 ≠ j := by rw [hk]; exact Ne.symm hj
      rw [h1, ih, List.find?_cons_of_neg]
      simpa using h2
    · have h1 : List.filter (fun e : String × α => decide (e.1 ≠ k)) ((k0, v0) :: rest) =
          (k0, v0) :: List.filter (fun e => decide (e.1 ≠ k)) rest := by
        simp [List.filter_cons, hk]
      rw [h1]
      by_cases hk2 : k0 = j
      · rw [List.find?_cons_of_pos, List.find?_cons_of_pos] <;> simpa using hk2
      · rw [List.find?_cons_of_neg, List.find?_cons_of_neg, ih] <;> simpa using hk2

/-- In a property list without repeated keys a key that is found occurs once. -/
theorem count_key_of_find {α : Type} (entries : List (String × α)) (k : String)
    (hn : (entries.map Prod.fst).Nodup)
    (hf : (entries.find? (fun e => e.1 = k)).isSome) :
    (entries.filter (fun e => e.1 = k)).length = 1 := by
  induction entries with
  | nil => simp at hf
  | cons e rest ih =>
    obtain ⟨k0, v0⟩ := e
    simp only [List.map_cons, List.nodup_cons] at hn
    by_cases hk : k0 = k
    · subst hk
      have hnone : rest.filter (fun e => e.1 = k0) = [] := by
        rw [List.filter_eq_nil_iff]
        intro e he h
        apply hn.1
        have : e.1 = k0 := by simpa using h
        rw [← this]
        exact List.mem_map_of_mem Prod.fst he
      simp [List.filter_cons, hnone]
    · have hf2 : (rest.find? (fun e => e.1 = k)).isSome := by
        simpa [List.find?_cons, hk] using hf
      simp [List.filter_cons, hk, ih hn.2 hf2]

namespace JSObject

theorem get_set_same {α : Type} (o : JSObject α) (k : String) (v : α) :
    (o.set k v).get k = some v := by
  unfold get set
  simp [find_assignEntry_same]

theorem get_set_other {α : Type} (o : JSObject α) (k j : String) (v : α) (hj : j ≠ k) :
    (o.set k v).get j = o.get j := by
  unfold get set
  simp [find_assignEntry_other _ _ _ _ hj]

theorem get_delete_same {α : Type} (o : JSObject α) (k : String) :
    (o.delete k).get k = none := by
  unfold get delete
  simp [find_deleteEntry_same]

theorem get_delete_other {α : Type} (o : JSObject α) (k j : String) (hj : j ≠ k) :
    (o.delete k).get j = o.get j := by
  unfold get delete
  simp [find_deleteEntry_other _ _ _ hj]

theorem count_key_of_get {α : Type} (o : JSObject α) (k : String) (h : (o.get k).isSome) :
    (o.entries.filter (fun e => e.1 = k)).length = 1 := by
  apply count_key_of_find o.entries k o.nodup
  unfold get at h
  simpa using h

end JSObject

namespace Storage

/-- The record written by `setRecord` is the one a later `getRecord` reads. -/
theorem getRecord_after_setRecord (env env2 : Env) (ls : LocalStorage) (d t : String)
    (licenseType : Option String) :
    ∃ r : Record,
      getRecord env2 (setRecord env ls d t licenseType).1 d = some r ∧
      r.type = t ∧ r.timestamp = JSDate.toISOString env.now := by
  unfold getRecord setRecord saveData
  simp only [getData, JSObject.get_set_same]
  refine ⟨_, rfl, ?_, ?_⟩
  · cases licenseType with
    | none => rfl
    | some l => simp only; split_ifs <;> rfl
  · cases licenseType with
    | none => rfl
    | some l => simp only; split_ifs <;> rfl

/-- C8.  For every content of the store, every date key `d`, every type `t`
and every license category argument: after `setRecord(d, t)` the call
`getRecord(d)` returns a record whose type is `t` and whose timestamp is the
ISO text of the clock at the time of `setRecord`, whether or not a record for
`d` existed before; the stored document then has exactly one record for `d`,
and `setRecord` returns true. -/
theorem getRecord_setRecord (env env2 : Env) (ls : LocalStorage) (d t : String)
    (licenseType : Option String) :
    (∃ r : Record,
      getRecord env2 (setRecord env ls d t licenseType).1 d = some r ∧
      r.type = t ∧ r.timestamp = JSDate.toISOString env.now) ∧
    ((getData env2 (setRecord env ls d t licenseType).1).records.entries.filter
      (fun e => e.1 = d)).length = 1 ∧
    (setRecord env ls d t licenseType).2 = true := by
  refine ⟨getRecord_after_setRecord env env2 ls d t licenseType, ?_, rfl⟩
  · apply JSObject.count_key_of_get
    unfold setRecord saveData
    simp only [getData, JSObject.get_set_same, Option.isSome_some]

/-- C9.  For every content of the store and date key `d`: `deleteRecord(d)`
returns true exactly when `getRecord(d)` found a record before the call;
after the call `getRecord(d)` finds none; when it returns false the content
of the store is unchanged.  So after `setRecord(d, t)` the call
`deleteRecord(d)` returns true and the call repeated at once returns false. -/
theorem deleteRecord_spec (env env2 env3 : Env) (ls : LocalStorage) (d t : String)
    (licenseType : Option String) :
    ((deleteRecord env ls d).2 = true ↔ (getRecord env ls d).isSome) ∧
    getRecord env2 (deleteRecord env ls d).1 d = none ∧
    ((deleteRecord env ls d).2 = false → (deleteRecord env ls d).1 = ls) ∧
    (deleteRecord env2 (setRecord env ls d t licenseType).1 d).2 = true ∧
    (deleteRecord env3 (deleteRecord env2 (setRecord env ls d t licenseType).1 d).1 d).2 = false := by
  have hdel : ∀ (e1 e2 : Env) (l : LocalStorage), getRecord e2 (deleteRecord e1 l d).1 d = none := by
    intro e1 e2 l
    unfold deleteRecord
    simp only
    split_ifs with h
    · unfold getRecord saveData
      simp only [getData, JSObject.get_delete_same]
    · cases l with
      | absent => simp [getRecord, getData, getDefaultData, JSObject.get, JSObject.empty]
      | unparseable => simp [getRecord, getData, getDefaultData, JSObject.get, JSObject.empty]
      | json doc =>
        simp only [getRecord, getData] at h ⊢
        simpa using h
  have hiff : ∀ (e1 : Env) (l : LocalStorage),
      (deleteRecord e1 l d).2 = true ↔ (getRecord e1 l d).isSome := by
    intro e1 l
    unfold deleteRecord getRecord
    simp only
    split_ifs with h <;> simp [h]
  refine ⟨hiff env ls, hdel env env2 ls, ?_, ?_, ?_⟩
  · unfold deleteRecord
    simp only
    split_ifs with h <;> simp
  · rw [hiff]
    obtain ⟨r, hr, -⟩ := getRecord_after_setRecord env env2 ls d t licenseType
    rw [hr]; rfl
  · have := hdel env2 env3 (setRecord env ls d t licenseType).1
    cases hb : (deleteRecord env3 (deleteRecord env2 (setRecord env ls d t licenseType).1 d).1 d).2
    · rfl
    · rw [hiff, this] at hb
      simp at hb

/-- C9 at a store of three months and a date without a record: the call
returns false and the store is unchanged. -/
theorem deleteRecord_spec_witness :
    (deleteRecord ⟨0, "abc"⟩ (LocalStorage.json storeOfThreeMonths) "2024-03-01").2 = false ∧
    (deleteRecord ⟨0, "abc"⟩ (LocalStorage.json storeOfThreeMonths) "2024-03-01").1 =
      LocalStorage.json storeOfThreeMonths :=
  ⟨by decide,
   (deleteRecord_spec ⟨0, "abc"⟩ ⟨0, "abc"⟩ ⟨0, "abc"⟩ (LocalStorage.json storeOfThreeMonths)
     "2024-03-01" "office" none).2.2.1 (by decide)⟩

end Storage

/-! ## The month filter of the record store -/

theorem toDigitsCore_append (n : Nat) : ∀ (fuel : Nat) (acc : List Char), n < fuel →
    Nat.toDigitsCore 10 fuel n acc = Nat.toDigitsCore 10 (n + 1) n [] ++ acc := by
  induction n using Nat.strong_induction_on with
  | _ n ih =>
    intro fuel acc hf
    obtain ⟨f, rfl⟩ : ∃ f, fuel = f + 1 := ⟨fuel - 1, by omega⟩
    by_cases h0 : n / 10 = 0
    · simp [Nat.toDigitsCore, h0]
    · have hlt : n / 10 < n := by omega
      simp only [Nat.toDigitsCore, h0, if_false]
      rw [ih (n / 10) hlt f _ (by omega), ih (n / 10) hlt n _ (by omega)]
      simp

theorem toDigits_small (n : Nat) (h : n < 10) : Nat.toDigits 10 n = [Nat.digitChar n] := by
  have h0 : n / 10 = 0 := by omega
  have h1 : n % 10 = n := by omega
  simp [Nat.toDigits, Nat.toDigitsCore, h0, h1]

theorem toDigits_step (n : Nat) (h : 10 ≤ n) :
    Nat.toDigits 10 n = Nat.toDigits 10 (n / 10) ++ [Nat.digitChar (n % 10)] := by
  have h0 : ¬ n / 10 = 0 := by omega
  have e : Nat.toDigitsCore 10 (n + 1) n [] =
      Nat.toDigitsCore 10 n (n / 10) [Nat.digitChar (n % 10)] := by
    simp [Nat.toDigitsCore, h0]
  unfold Nat.toDigits
  rw [e, toDigitsCore_append (n / 10) n _ (by omega)]

theorem ofNumber_data_nat (n : Nat) : (JSString.ofNumber (n : Int)).data = Nat.toDigits 10 n := by
  rfl

theorem ofNumber_data_neg (n : Nat) :
    (JSString.ofNumber (Int.negSucc n)).data = '-' :: Nat.toDigits 10 (n + 1) := by
  rfl

theorem digitChar_isDigit (a : Nat) (h : a < 10) : (Nat.digitChar a).isDigit = true := by
  interval_cases a <;> decide

theorem digitValue_digitChar (a : Nat) (h : a < 10) :
    DateKey.digitValue (Nat.digitChar a) = a := by
  interval_cases a <;> decide

theorem isDigit_eq_digitChar (c : Char) (h : c.isDigit = true) :
    ∃ a : Nat, a < 10 ∧ c = Nat.digitChar a := by
  have h1 : 48 ≤ c.toNat ∧ c.toNat ≤ 57 := by
    simp only [Char.isDigit, Bool.and_eq_true, decide_eq_true_eq] at h
    obtain ⟨h1, h2⟩ := h
    constructor
    · exact h1
    · exact h2
  refine ⟨c.toNat - 48, by omega, ?_⟩
  rw [← Char.ofNat_toNat c]
  generalize c.toNat = n at h1
  obtain ⟨h1, h2⟩ := h1
  interval_cases n <;> decide

theorem toDigits_isDigit (n : Nat) : ∀ c ∈ Nat.toDigits 10 n, c.isDigit = true := by
  induction n using Nat.strong_induction_on with
  | _ n ih =>
    intro c hc
    by_cases h : n < 10
    · rw [toDigits_small n h] at hc
      rw [List.mem_singleton] at hc
      rw [hc]
      exact digitChar_isDigit n h
    · rw [toDigits_step n (by omega), List.mem_append, List.mem_singleton] at hc
      rcases hc with hc | hc
      · exact ih (n / 10) (by omega) c hc
      · rw [hc]
        exact digitChar_isDigit _ (by omega)

theorem toDigits_four (n : Nat) (h1 : 1000 ≤ n) (h2 : n ≤ 9999) :
    Nat.toDigits 10 n =
      [Nat.digitChar (n / 1000), Nat.digitChar (n / 100 % 10), Nat.digitChar (n / 10 % 10),
        Nat.digitChar (n % 10)] := by
  rw [toDigits_step n (by omega), toDigits_step (n / 10) (by omega),
    toDigits_step (n / 10 / 10) (by omega), toDigits_small (n / 10 / 10 / 10) (by omega)]
  have e1 : n / 10 / 10 / 10 = n / 1000 := by omega
  have e2 : n / 10 / 10 % 10 = n / 100 % 10 := by omega
  simp [e1, e2]

theorem toDigits_length (n : Nat) (h : 10000 ≤ n) : 5 ≤ (Nat.toDigits 10 n).length := by
  rw [toDigits_step n (by omega), toDigits_step (n / 10) (by omega),
    toDigits_step (n / 10 / 10) (by omega), toDigits_step (n / 10 / 10 / 10) (by omega)]
  have hne : (Nat.toDigits 10 (n / 10 / 10 / 10 / 10)).length ≠ 0 := by
    intro h0
    have hnil := List.length_eq_zero.mp h0
    by_cases hs : n / 10 / 10 / 10 / 10 < 10
    · rw [toDigits_small _ hs] at hnil
      exact List.cons_ne_nil _ _ hnil
    · rw [toDigits_step _ (by omega)] at hnil
      simp at hnil
  simp only [List.length_append, List.length_cons, List.length_nil]
  omega

theorem digitChar_inj (a b : Nat) (ha : a < 10) (hb : b < 10) :
    Nat.digitChar a = Nat.digitChar b ↔ a = b := by
  constructor
  · intro h
    have h2 := congrArg DateKey.digitValue h
    rw [digitValue_digitChar a ha, digitValue_digitChar b hb] at h2
    exact_mod_cast h2
  · intro h
    rw [h]

/-- A canonical key is made of eight digits and two dashes. -/
theorem isCanonical_data (key : String) (h : DateKey.isCanonical key = true) :
    ∃ a1 a2 a3 a4 b1 b2 e1 e2 : Nat,
      (a1 < 10 ∧ a2 < 10 ∧ a3 < 10 ∧ a4 < 10) ∧ (b1 < 10 ∧ b2 < 10) ∧ (e1 < 10 ∧ e2 < 10) ∧
      key.data = [Nat.digitChar a1, Nat.digitChar a2, Nat.digitChar a3, Nat.digitChar a4, '-',
        Nat.digitChar b1, Nat.digitChar b2, '-', Nat.digitChar e1, Nat.digitChar e2] := by
  unfold DateKey.isCanonical at h
  split at h
  · rename_i y1 y2 y3 y4 s1 m1 m2 s2 d1 d2 hdata
    simp only [Bool.and_eq_true, decide_eq_true_eq] at h
    obtain ⟨⟨⟨⟨⟨⟨⟨⟨⟨h1, h2⟩, h3⟩, h4⟩, h5⟩, h6⟩, h7⟩, h8⟩, h9⟩, h10⟩ := h
    obtain ⟨a1, ha1, rfl⟩ := isDigit_eq_digitChar y1 h1
    obtain ⟨a2, ha2, rfl⟩ := isDigit_eq_digitChar y2 h2
    obtain ⟨a3, ha3, rfl⟩ := isDigit_eq_digitChar y3 h3
    obtain ⟨a4, ha4, rfl⟩ := isDigit_eq_digitChar y4 h4
    obtain ⟨b1, hb1, rfl⟩ := isDigit_eq_digitChar m1 h6
    obtain ⟨b2, hb2, rfl⟩ := isDigit_eq_digitChar m2 h7
    obtain ⟨e1, he1, rfl⟩ := isDigit_eq_digitChar d1 h9
    obtain ⟨e2, he2, rfl⟩ := isDigit_eq_digitChar d2 h10
    subst h5 h8
    exact ⟨a1, a2, a3, a4, b1, b2, e1, e2, ⟨ha1, ha2, ha3, ha4⟩, ⟨hb1, hb2⟩, ⟨he1, he2⟩, hdata⟩
  · exact absurd h (by simp)

theorem padStart_month (month : Int) (h0 : 0 ≤ month) (h1 : month ≤ 11) :
    (JSString.padStart (JSString.ofNumber (month + 1)) 2 '0').data =
      [Nat.digitChar ((month + 1).toNat / 10), Nat.digitChar ((month + 1).toNat % 10)] := by
  interval_cases month <;> decide

theorem monthPrefix_data (year month : Int) (h0 : 0 ≤ month) (h1 : month ≤ 11) :
    (Storage.monthPrefix year month).data =
      (JSString.ofNumber year).data ++
        ['-', Nat.digitChar ((month + 1).toNat / 10), Nat.digitChar ((month + 1).toNat % 10)] := by
  unfold Storage.monthPrefix
  rw [String.data_append, String.data_append, padStart_month month h0 h1]
  simp

/-- The month filter of `getMonthRecords` on a canonical key: for a year that
is negative or has at least four digits, the key starts with the text of the
year, a dash and the padded month number exactly when it names that year and
month. -/
theorem startsWith_monthPrefix_iff (key : String) (hkey : DateKey.isCanonical key = true)
    (year month : Int) (hy : year < 0 ∨ 1000 ≤ year) (h0 : 0 ≤ month) (h1 : month ≤ 11) :
    JSString.startsWith key (Storage.monthPrefix year month) = true ↔
      (DateKey.year key = year ∧ DateKey.month key = month + 1) := by
  obtain ⟨a1, a2, a3, a4, b1, b2, e1, e2, ⟨ha1, ha2, ha3, ha4⟩, ⟨hb1, hb2⟩, ⟨he1, he2⟩, hdata⟩ :=
    isCanonical_data key hkey
  have hyear : DateKey.year key = 1000 * (a1 : Int) + 100 * a2 + 10 * a3 + a4 := by
    unfold DateKey.year
    rw [hdata]
    simp only [digitValue_digitChar _ ha1, digitValue_digitChar _ ha2,
      digitValue_digitChar _ ha3, digitValue_digitChar _ ha4]
  have hmonth : DateKey.month key = 10 * (b1 : Int) + b2 := by
    unfold DateKey.month
    rw [hdata]
    simp only [digitValue_digitChar _ hb1, digitValue_digitChar _ hb2]
  unfold JSString.startsWith
  rw [List.isPrefixOf_iff_prefix, monthPrefix_data year month h0 h1, hdata, hyear, hmonth]
  have hm1 : (month + 1).toNat / 10 < 10 := by omega
  have hm2 : (month + 1).toNat % 10 < 10 := by omega
  rcases hy with hneg | hpos
  · -- a negative year is written with a leading dash
    obtain ⟨n, rfl⟩ : ∃ n : Nat, year = Int.negSucc n := by
      cases year with
      | ofNat m => exact absurd hneg (by simp)
      | negSucc n => exact ⟨n, rfl⟩
    rw [ofNumber_data_neg]
    constructor
    · intro h
      have h2 := List.IsPrefix.head h (by simp)
      simp only [List.cons_append, List.head_cons] at h2
      have h3 := digitChar_isDigit a1 ha1
      rw [← h2] at h3
      exact absurd h3 (by decide)
    · intro h
      omega
  · obtain ⟨n, rfl⟩ : ∃ n : Nat, year = (n : Int) := ⟨year.toNat, by omega⟩
    rw [ofNumber_data_nat]
    by_cases hbig : n ≤ 9999
    · rw [toDigits_four n (by omega) hbig]
      simp only [List.cons_append, List.nil_append, List.cons_prefix_cons, List.nil_prefix,
        and_true, true_and]
      rw [digitChar_inj _ _ (by omega) ha1, digitChar_inj _ _ (by omega) ha2,
        digitChar_inj _ _ (by omega) ha3, digitChar_inj _ _ (by omega) ha4,
        digitChar_inj _ _ hm1 hb1, digitChar_inj _ _ hm2 hb2]
      omega
    · constructor
      · intro h
        have hlen := toDigits_length n (by omega)
        have hpre : Nat.toDigits 10 n <+: [Nat.digitChar a1, Nat.digitChar a2, Nat.digitChar a3,
            Nat.digitChar a4, '-', Nat.digitChar b1, Nat.digitChar b2, '-', Nat.digitChar e1,
            Nat.digitChar e2] := (List.prefix_append _ _).trans h
        have hdash : '-' ∈ Nat.toDigits 10 n := by
          obtain ⟨t, ht⟩ := hpre
          have h5 := congrArg (fun l => l.get? 4) ht
          simp only [List.get?_eq_getElem?] at h5
          rw [List.getElem?_append_left (by omega)] at h5
          exact List.getElem?_mem (by simpa using h5)
        exact absurd (toDigits_isDigit n _ hdash) (by decide)
      · intro h
        omega

theorem assignEntry_of_not_mem {α : Type} (entries : List (String × α)) (k : String) (v : α)
    (h : k ∉ entries.map Prod.fst) : assignEntry entries k v = entries ++ [(k, v)] := by
  induction entries with
  | nil => rfl
  | cons e rest ih =>
    obtain ⟨k0, v0⟩ := e
    simp only [List.map_cons, List.mem_cons, not_or] at h
    have hk : ¬ k0 = k := fun h2 => h.1 h2.symm
    simp [assignEntry, hk, ih h.2]

/-- Copying the properties that pass a test on the key into a fresh object,
one assignment at a time, keeps exactly those properties, in order. -/
theorem foldl_set_entries {α : Type} (p : String → Bool) :
    ∀ (l : List (String × α)) (acc : JSObject α),
      (l.map Prod.fst).Nodup → (∀ k ∈ l.map Prod.fst, k ∉ acc.entries.map Prod.fst) →
      (l.foldl (fun o e => if p e.1 then o.set e.1 e.2 else o) acc).entries =
        acc.entries ++ l.filter (fun e => p e.1)
  | [], acc, _, _ => by simp
  | (k0, v0) :: rest, acc, hn, hd => by
    simp only [List.map_cons, List.nodup_cons] at hn
    have hk0 : k0 ∉ acc.entries.map Prod.fst := hd k0 (by simp)
    by_cases hp : p k0 = true
    · have hset : (acc.set k0 v0).entries = acc.entries ++ [(k0, v0)] :=
        assignEntry_of_not_mem acc.entries k0 v0 hk0
      have ih := foldl_set_entries p rest (acc.set k0 v0) hn.2 (by
        intro k hk
        rw [hset]
        simp only [List.map_append, List.map_cons, List.map_nil, List.mem_append,
          List.mem_singleton, not_or]
        refine ⟨hd k (by simp [hk]), ?_⟩
        intro h
        exact hn.1 (h ▸ hk))
      simp only [List.foldl_cons, hp, if_true, List.filter_cons]
      rw [ih, hset]
      simp
    · have ih := foldl_set_entries p rest acc hn.2 (by
        intro k hk
        exact hd k (by simp [hk]))
      simp only [List.foldl_cons, hp, List.filter_cons]
      simpa using ih


theorem find_filter_key {α : Type} (p : String → Bool) (k : String) :
    ∀ l : List (String × α),
      (l.filter (fun e => p e.1)).find? (fun e => e.1 = k) =
        if p k = true then l.find? (fun e => e.1 = k) else none
  | [] => by simp
  | (k0, v0) :: rest => by
    have ih := find_filter_key p k rest
    by_cases hk : k0 = k
    · subst hk
      cases hp : p k0
      · rw [hp] at ih
        simpa [List.filter_cons, hp] using ih
      · simp [List.filter_cons, hp]
    · have hskip : ∀ l : List (String × α),
          List.find? (fun e => decide (e.1 = k)) ((k0, v0) :: l) =
            List.find? (fun e => decide (e.1 = k)) l := by
        intro l
        simp [List.find?_cons, hk]
      cases hp : p k0
      · simp only [List.filter_cons, hp]
        rw [hskip]
        simpa using ih
      · simp only [List.filter_cons, hp, if_true]
        rw [hskip, hskip]
        exact ih

namespace Storage

/-- C10, amended.  For every store whose record keys have the canonical shape
`YYYY-MM-DD`, every year that is negative or at least 1000 and every month
index 0 .. 11: the object returned by `getMonthRecords` has exactly the stored
properties whose key names that year and month, in their stored order and with
their records unchanged; so a key is found in it with a record exactly when
the store has that record under the key and the key names that year and
month. -/
theorem getMonthRecords_spec (env : Env) (doc : Document) (year month : Int)
    (hk : ∀ e ∈ doc.records.entries, DateKey.isCanonical e.1 = true)
    (hy : year < 0 ∨ 1000 ≤ year) (h0 : 0 ≤ month) (h1 : month ≤ 11) :
    (getMonthRecords env (LocalStorage.json doc) year month).entries =
      doc.records.entries.filter
        (fun e => decide (DateKey.year e.1 = year ∧ DateKey.month e.1 = month + 1)) ∧
    (∀ (key : String) (r : Record),
      (getMonthRecords env (LocalStorage.json doc) year month).get key = some r ↔
        (doc.records.get key = some r ∧ DateKey.year key = year ∧
          DateKey.month key = month + 1)) := by
  have hentries : (getMonthRecords env (LocalStorage.json doc) year month).entries =
      doc.records.entries.filter
        (fun e => decide (DateKey.year e.1 = year ∧ DateKey.month e.1 = month + 1)) := by
    unfold getMonthRecords
    simp only [getData]
    rw [foldl_set_entries (fun k => JSString.startsWith k (monthPrefix year month))
      doc.records.entries JSObject.empty doc.records.nodup (by simp [JSObject.empty])]
    simp only [JSObject.empty, List.nil_append]
    apply List.filter_congr
    intro e he
    have h := startsWith_monthPrefix_iff e.1 (hk e he) year month hy h0 h1
    by_cases hs : JSString.startsWith e.1 (monthPrefix year month) = true
    · rw [hs]
      exact (decide_eq_true (h.mp hs)).symm
    · have hn : ¬ (DateKey.year e.1 = year ∧ DateKey.month e.1 = month + 1) := fun hc => hs (h.mpr hc)
      rw [Bool.not_eq_true] at hs
      rw [hs]
      exact (decide_eq_false hn).symm
  refine ⟨hentries, ?_⟩
  intro key r
  unfold JSObject.get
  rw [hentries, find_filter_key
    (fun k => decide (DateKey.year k = year ∧ DateKey.month k = month + 1)) key]
  by_cases hp : DateKey.year key = year ∧ DateKey.month key = month + 1
  · simp [hp]
  · simp [hp]

/-- The amended C10 at a store of three months, for February 2024. -/
theorem getMonthRecords_spec_witness :
    (getMonthRecords ⟨0, "abc"⟩ (LocalStorage.json storeOfThreeMonths) 2024 1).entries =
      storeOfThreeMonths.records.entries.filter
        (fun e => decide (DateKey.year e.1 = 2024 ∧ DateKey.month e.1 = 1 + 1)) :=
  (getMonthRecords_spec ⟨0, "abc"⟩ storeOfThreeMonths 2024 1 (by decide!) (by decide) (by decide)
    (by decide)).1

/-- C10 as stated fails for the years 0 to 999, whose text is shorter than the
four digits of a key: the store holds a record of January of the year 999
under the canonical key `0999-01-15`, and `getMonthRecords(999, 0)` filters by
the text `999-01` and returns no entry. -/
theorem getMonthRecords_year999 :
    (∀ e ∈ storeOfYear999.records.entries, DateKey.isCanonical e.1 = true) ∧
    storeOfYear999.records.entries.filter
        (fun e => decide (DateKey.year e.1 = 999 ∧ DateKey.month e.1 = 0 + 1)) ≠ [] ∧
    monthPrefix 999 0 = "999-01" ∧
    (getMonthRecords ⟨0, "abc"⟩ (LocalStorage.json storeOfYear999) 999 0).entries = [] := by
  decide

end Storage

/-! ## The presence percentage -/

namespace Calculations

/-- C19.  For all non-negative integers `officeDays` and `totalDecidedDays`:
`calculatePresencePercentage` returns 0 when `totalDecidedDays = 0`, so
`presencePercentage(0,0) = 0`, and `officeDays / totalDecidedDays` otherwise;
when `officeDays ≤ totalDecidedDays` the result lies between 0 and 1. -/
theorem calculatePresencePercentage_spec (officeDays totalDecidedDays : Int)
    (ho : 0 ≤ officeDays) (ht : 0 ≤ totalDecidedDays) :
    (totalDecidedDays = 0 → calculatePresencePercentage officeDays totalDecidedDays = 0) ∧
    calculatePresencePercentage 0 0 = 0 ∧
    (totalDecidedDays ≠ 0 →
      calculatePresencePercentage officeDays totalDecidedDays =
        (officeDays : ℚ) / (totalDecidedDays : ℚ)) ∧
    (officeDays ≤ totalDecidedDays →
      0 ≤ calculatePresencePercentage officeDays totalDecidedDays ∧
      calculatePresencePercentage officeDays totalDecidedDays ≤ 1) := by
  refine ⟨?_, ?_, ?_, ?_⟩
  · intro h
    simp [calculatePresencePercentage, h]
  · simp [calculatePresencePercentage]
  · intro h
    simp [calculatePresencePercentage, h]
  · intro hle
    by_cases h : totalDecidedDays = 0
    · simp [calculatePresencePercentage, h]
    · have hpos : (0 : ℚ) < (totalDecidedDays : ℚ) := by
        have : 0 < totalDecidedDays := by omega
        exact_mod_cast this
      have ho2 : (0 : ℚ) ≤ (officeDays : ℚ) := by exact_mod_cast ho
      have hle2 : (officeDays : ℚ) ≤ (totalDecidedDays : ℚ) := by exact_mod_cast hle
      simp only [calculatePresencePercentage, h, if_false]
      constructor
      · exact div_nonneg ho2 (le_of_lt hpos)
      · rw [div_le_one hpos]
        exact hle2

/-- C19 at 12 office days out of 20 decided days: the result is 3/5. -/
theorem calculatePresencePercentage_spec_witness :
    calculatePresencePercentage 12 20 = ((12 : Int) : ℚ) / ((20 : Int) : ℚ) ∧
    0 ≤ calculatePresencePercentage 12 20 ∧ calculatePresencePercentage 12 20 ≤ 1 :=
  ⟨(calculatePresencePercentage_spec 12 20 (by decide) (by decide)).2.2.1 (by decide),
   (calculatePresencePercentage_spec 12 20 (by decide) (by decide)).2.2.2 (by decide)⟩

end Calculations

/-! ## The record store: defaults, frame and monthly counts -/

namespace Storage

/-- The records of a month are the stored properties whose key starts with
the text of the month, in their stored order. -/
theorem getMonthRecords_entries (env : Env) (ls : LocalStorage) (year month : Int) :
    (getMonthRecords env ls year month).entries =
      (getData env ls).records.entries.filter
        (fun e => JSString.startsWith e.1 (monthPrefix year month)) := by
  unfold getMonthRecords
  simp only
  rw [foldl_set_entries (fun k => JSString.startsWith k (monthPrefix year month))
    (getData env ls).records.entries JSObject.empty (getData env ls).records.nodup
    (by simp [JSObject.empty])]
  simp [JSObject.empty]

/-- Under the hypotheses of the month filter the records of a month are the
stored properties whose key names the year and the month. -/
theorem getMonthRecords_entries_of_canonical (env : Env) (doc : Document) (year month : Int)
    (hk : ∀ e ∈ doc.records.entries, DateKey.isCanonical e.1 = true)
    (hy : year < 0 ∨ 1000 ≤ year) (h0 : 0 ≤ month) (h1 : month ≤ 11) :
    (getMonthRecords env (LocalStorage.json doc) year month).entries =
      doc.records.entries.filter
        (fun e => decide (DateKey.year e.1 = year ∧ DateKey.month e.1 = month + 1)) := by
  rw [getMonthRecords_entries]
  simp only [getData]
  apply List.filter_congr
  intro e he
  have h := startsWith_monthPrefix_iff e.1 (hk e he) year month hy h0 h1
  by_cases hs : JSString.startsWith e.1 (monthPrefix year month) = true
  · rw [hs]
    exact (decide_eq_true (h.mp hs)).symm
  · have hn : ¬ (DateKey.year e.1 = year ∧ DateKey.month e.1 = month + 1) :=
      fun hc => hs (h.mpr hc)
    rw [Bool.not_eq_true] at hs
    rw [hs]
    exact (decide_eq_false hn).symm

/-- The three counters after the loop of `getMonthStats`, from any start. -/
theorem foldl_countRecord (l : List Record) : ∀ c : Nat × Nat × Nat,
    l.foldl countRecord c =
      (c.1 + (l.filter (fun r => r.type = "office")).length,
       c.2.1 + (l.filter (fun r => r.type = "remote")).length,
       c.2.2 + (l.filter (fun r => r.type = "license")).length) := by
  induction l with
  | nil => intro c; simp
  | cons r rest ih =>
    intro c
    rw [List.foldl_cons, ih]
    unfold countRecord
    by_cases h1 : r.type = "office"
    · simp [h1, List.filter_cons]
      omega
    · by_cases h2 : r.type = "remote"
      · simp [h2, List.filter_cons]
        omega
      · by_cases h3 : r.type = "license"
        · simp [h3, List.filter_cons]
          omega
        · simp [h1, h2, h3, List.filter_cons]

end Storage

theorem filter_assignEntry_of_not {α : Type} (p : String → Bool) (k : String) (v : α)
    (hp : p k = false) : ∀ l : List (String × α),
      (assignEntry l k v).filter (fun e => p e.1) = l.filter (fun e => p e.1)
  | [] => by simp [assignEntry, hp]
  | (k0, v0) :: rest => by
    have ih := filter_assignEntry_of_not p k v hp rest
    by_cases hk : k0 = k
    · subst hk
      simp [assignEntry, List.filter_cons, hp]
    · simp [assignEntry, hk, List.filter_cons, ih]

theorem filter_deleteEntry_of_not {α : Type} (p : String → Bool) (k : String)
    (hp : p k = false) (l : List (String × α)) :
    (deleteEntry l k).filter (fun e => p e.1) = l.filter (fun e => p e.1) := by
  unfold deleteEntry
  rw [List.filter_filter]
  apply List.filter_congr
  intro e _
  by_cases hk : e.1 = k
  · simp [hk, hp]
  · simp [hk]

namespace Storage

/-- A write under a key that does not start with the text of the month leaves
the records of the month as they were. -/
theorem getMonthRecords_setRecord_other (env env2 env3 : Env) (ls : LocalStorage)
    (year month : Int) (d t : String) (licenseType : Option String)
    (hd : JSString.startsWith d (monthPrefix year month) = false) :
    (getMonthRecords env3 (setRecord env2 ls d t licenseType).1 year month).entries =
      (getMonthRecords env ls year month).entries := by
  rw [getMonthRecords_entries, getMonthRecords_entries]
  unfold setRecord saveData
  simp only [getData, JSObject.set]
  rw [filter_assignEntry_of_not (fun k => JSString.startsWith k (monthPrefix year month)) d _ hd]
  cases ls <;> rfl

theorem getMonthRecords_deleteRecord_other (env env2 env3 : Env) (ls : LocalStorage)
    (year month : Int) (d : String)
    (hd : JSString.startsWith d (monthPrefix year month) = false) :
    (getMonthRecords env3 (deleteRecord env2 ls d).1 year month).entries =
      (getMonthRecords env ls year month).entries := by
  rw [getMonthRecords_entries, getMonthRecords_entries]
  unfold deleteRecord
  simp only
  split_ifs with h
  · simp only [saveData, getData, JSObject.delete]
    rw [filter_deleteEntry_of_not (fun k => JSString.startsWith k (monthPrefix year month)) d hd]
    cases ls <;> rfl
  · cases ls <;> rfl

theorem getMonthStats_of_entries (env env2 : Env) (ls ls2 : LocalStorage) (year month : Int)
    (h : (getMonthRecords env2 ls2 year month).entries =
      (getMonthRecords env ls year month).entries) :
    getMonthStats env2 ls2 year month = getMonthStats env ls year month := by
  unfold getMonthStats
  simp only [h]

end Storage

namespace Storage

/-- The counts of `getMonthStats` are the numbers of records of each type
among the records `getMonthRecords` returns. -/
theorem getMonthStats_counts (env : Env) (ls : LocalStorage) (year month : Int) :
    (getMonthStats env ls year month).officeDays =
      ((getMonthRecords env ls year month).entries.filter
        (fun e => e.2.type = "office")).length ∧
    (getMonthStats env ls year month).remoteDays =
      ((getMonthRecords env ls year month).entries.filter
        (fun e => e.2.type = "remote")).length ∧
    (getMonthStats env ls year month).licenseDays =
      ((getMonthRecords env ls year month).entries.filter
        (fun e => e.2.type = "license")).length ∧
    (getMonthStats env ls year month).totalRegistered =
      (getMonthStats env ls year month).officeDays +
        (getMonthStats env ls year month).remoteDays := by
  unfold getMonthStats
  simp only [foldl_countRecord, List.filter_map, List.length_map, Nat.zero_add]
  exact ⟨rfl, rfl, rfl, trivial⟩

end Storage

namespace Storage

/-- C11, amended.  For every store whose record keys have the canonical shape
`YYYY-MM-DD`, every year that is negative or at least 1000 and every month
index 0 .. 11: `officeDays`, `remoteDays` and `licenseDays` are the numbers of
stored records whose key names that year and month and whose type is office,
remote and license, and `totalRegistered = officeDays + remoteDays`, without
the license days; a `setRecord` or `deleteRecord` under a canonical key of
another month changes none of the four counts.  For every store, year and
month the counts are those of the records `getMonthRecords` returns. -/
theorem getMonthStats_spec (env : Env) (doc : Document) (year month : Int)
    (hk : ∀ e ∈ doc.records.entries, DateKey.isCanonical e.1 = true)
    (hy : year < 0 ∨ 1000 ≤ year) (h0 : 0 ≤ month) (h1 : month ≤ 11) :
    (getMonthStats env (LocalStorage.json doc) year month).officeDays =
      (doc.records.entries.filter (fun e =>
        decide (DateKey.year e.1 = year ∧ DateKey.month e.1 = month + 1) &&
          decide (e.2.type = "office"))).length ∧
    (getMonthStats env (LocalStorage.json doc) year month).remoteDays =
      (doc.records.entries.filter (fun e =>
        decide (DateKey.year e.1 = year ∧ DateKey.month e.1 = month + 1) &&
          decide (e.2.type = "remote"))).length ∧
    (getMonthStats env (LocalStorage.json doc) year month).licenseDays =
      (doc.records.entries.filter (fun e =>
        decide (DateKey.year e.1 = year ∧ DateKey.month e.1 = month + 1) &&
          decide (e.2.type = "license"))).length ∧
    (getMonthStats env (LocalStorage.json doc) year month).totalRegistered =
      (getMonthStats env (LocalStorage.json doc) year month).officeDays +
        (getMonthStats env (LocalStorage.json doc) year month).remoteDays ∧
    (∀ (env2 env3 : Env) (d t : String) (licenseType : Option String),
      DateKey.isCanonical d = true →
      ¬ (DateKey.year d = year ∧ DateKey.month d = month + 1) →
      getMonthStats env3 (setRecord env2 (LocalStorage.json doc) d t licenseType).1 year month =
        getMonthStats env (LocalStorage.json doc) year month ∧
      getMonthStats env3 (deleteRecord env2 (LocalStorage.json doc) d).1 year month =
        getMonthStats env (LocalStorage.json doc) year month) ∧
    (∀ (env2 : Env) (ls : LocalStorage) (y m : Int),
      (getMonthStats env2 ls y m).officeDays =
        ((getMonthRecords env2 ls y m).entries.filter (fun e => e.2.type = "office")).length ∧
      (getMonthStats env2 ls y m).remoteDays =
        ((getMonthRecords env2 ls y m).entries.filter (fun e => e.2.type = "remote")).length ∧
      (getMonthStats env2 ls y m).licenseDays =
        ((getMonthRecords env2 ls y m).entries.filter (fun e => e.2.type = "license")).length ∧
      (getMonthStats env2 ls y m).totalRegistered =
        (getMonthStats env2 ls y m).officeDays + (getMonthStats env2 ls y m).remoteDays) := by
  obtain ⟨c1, c2, c3, c4⟩ := getMonthStats_counts env (LocalStorage.json doc) year month
  have he := getMonthRecords_entries_of_canonical env doc year month hk hy h0 h1
  rw [he, List.filter_filter] at c1 c2 c3
  refine ⟨?_, ?_, ?_, c4, ?_, fun env2 ls y m => getMonthStats_counts env2 ls y m⟩
  · rw [c1]
    congr 1
    apply List.filter_congr
    intro e _
    exact Bool.and_comm _ _
  · rw [c2]
    congr 1
    apply List.filter_congr
    intro e _
    exact Bool.and_comm _ _
  · rw [c3]
    congr 1
    apply List.filter_congr
    intro e _
    exact Bool.and_comm _ _
  · intro env2 env3 d t licenseType hd hne
    have hs : JSString.startsWith d (monthPrefix year month) = false := by
      rw [← Bool.not_eq_true]
      intro h
      exact hne ((startsWith_monthPrefix_iff d hd year month hy h0 h1).mp h)
    exact ⟨getMonthStats_of_entries env env3 _ _ year month
        (getMonthRecords_setRecord_other env env2 env3 _ year month d t licenseType hs),
      getMonthStats_of_entries env env3 _ _ year month
        (getMonthRecords_deleteRecord_other env env2 env3 _ year month d hs)⟩

/-- The amended C11 at a store of three months, for February 2024: one remote
day, one license day, no office day. -/
theorem getMonthStats_spec_witness :
    (getMonthStats ⟨0, "abc"⟩ (LocalStorage.json storeOfThreeMonths) 2024 1).remoteDays =
      (storeOfThreeMonths.records.entries.filter (fun e =>
        decide (DateKey.year e.1 = 2024 ∧ DateKey.month e.1 = 1 + 1) &&
          decide (e.2.type = "remote"))).length ∧
    getMonthStats ⟨0, "abc"⟩ (LocalStorage.json storeOfThreeMonths) 2024 1 =
      { officeDays := 0, remoteDays := 1, licenseDays := 1, totalRegistered := 1 } :=
  ⟨(getMonthStats_spec ⟨0, "abc"⟩ storeOfThreeMonths 2024 1 (by decide!) (by decide)
      (by decide) (by decide)).2.1, by decide⟩

/-- C11 as stated fails for the years 0 to 999: the store holds one license
record of January of the year 999, under the canonical key `0999-01-15`, and
`getMonthStats(999, 0)` counts no license day, because `getMonthRecords`
filters by the text `999-01`. -/
theorem getMonthStats_year999 :
    (∀ e ∈ storeOfYear999.records.entries, DateKey.isCanonical e.1 = true) ∧
    (storeOfYear999.records.entries.filter (fun e =>
        decide (DateKey.year e.1 = 999 ∧ DateKey.month e.1 = 0 + 1) &&
          decide (e.2.type = "license"))).length = 1 ∧
    (getMonthStats ⟨0, "abc"⟩ (LocalStorage.json storeOfYear999) 999 0).licenseDays = 0 := by
  decide

end Storage

namespace Storage

/-- C16.  When the persisted document is absent or its text fails to parse,
`getData` returns the default document, with no records and
`settings.targetPercentage = 0.60`; so `getRecord` finds no record for any
key, `getMonthRecords` is empty, `getMonthStats` counts zero four times, and
after a `setRecord(d, t)` the stored document has the record for `d`, of type
`t`, and no other record. -/
theorem getData_default (env : Env) (ls : LocalStorage)
    (h : ls = LocalStorage.absent ∨ ls = LocalStorage.unparseable) :
    getData env ls = getDefaultData env ∧
    (getData env ls).records.entries = [] ∧
    (getData env ls).settings.targetPercentage = 60 / 100 ∧
    (∀ d : String, getRecord env ls d = none) ∧
    (∀ year month : Int, (getMonthRecords env ls year month).entries = []) ∧
    (∀ year month : Int, getMonthStats env ls year month =
      { officeDays := 0, remoteDays := 0, licenseDays := 0, totalRegistered := 0 }) ∧
    (∀ (env2 env3 : Env) (d t : String) (licenseType : Option String),
      ∃ r : Record,
        (getData env3 (setRecord env2 ls d t licenseType).1).records.entries = [(d, r)] ∧
        r.type = t) := by
  have hdata : getData env ls = getDefaultData env := by
    rcases h with h | h <;> rw [h] <;> rfl
  have hempty : (getData env ls).records.entries = [] := by
    rw [hdata]; rfl
  have hmonth : ∀ year month : Int, (getMonthRecords env ls year month).entries = [] := by
    intro year month
    rw [getMonthRecords_entries, hempty]
    rfl
  refine ⟨hdata, hempty, ?_, ?_, hmonth, ?_, ?_⟩
  · rw [hdata]
    simp only [getDefaultData]
    norm_num
  · intro d
    unfold getRecord JSObject.get
    rw [hempty]
    rfl
  · intro year month
    unfold getMonthStats
    simp only [hmonth year month]
    rfl
  · intro env2 env3 d t licenseType
    have htype : ∀ l0 : LocalStorage, ∃ r : Record,
        (setRecord env2 l0 d t licenseType).1 = saveData
          { getData env2 l0 with records := (getData env2 l0).records.set d r } ∧ r.type = t := by
      intro l0
      refine ⟨_, rfl, ?_⟩
      cases licenseType with
      | none => rfl
      | some l => simp only; split_ifs <;> rfl
    obtain ⟨r, hr, hrt⟩ := htype ls
    refine ⟨r, ?_, hrt⟩
    rw [hr]
    rcases h with h | h <;> rw [h] <;> rfl

/-- C16 at an absent document: the first `setRecord` leaves one record. -/
theorem getData_default_witness :
    ∃ r : Record,
      (getData ⟨0, "abc"⟩ (setRecord ⟨0, "abc"⟩ LocalStorage.absent "2024-02-16" "office"
        none).1).records.entries = [("2024-02-16", r)] ∧ r.type = "office" :=
  (getData_default ⟨0, "abc"⟩ LocalStorage.absent (Or.inl rfl)).2.2.2.2.2.2
    ⟨0, "abc"⟩ ⟨0, "abc"⟩ "2024-02-16" "office" none

/-- C17.  For every stored document and date key `d`: `setRecord(d, ...)` and
`deleteRecord(d)` leave the result of `getRecord(e)` as it was for every other
key `e`, and leave the settings (`targetPercentage`, `userId`) and `createdAt`
of the document unchanged. -/
theorem setRecord_deleteRecord_frame (env env2 : Env) (doc : Document) (d e t : String)
    (licenseType : Option String) (hne : e ≠ d) :
    getRecord env2 (setRecord env (LocalStorage.json doc) d t licenseType).1 e =
      getRecord env2 (LocalStorage.json doc) e ∧
    (getData env2 (setRecord env (LocalStorage.json doc) d t licenseType).1).settings =
      doc.settings ∧
    (getData env2 (setRecord env (LocalStorage.json doc) d t licenseType).1).createdAt =
      doc.createdAt ∧
    getRecord env2 (deleteRecord env (LocalStorage.json doc) d).1 e =
      getRecord env2 (LocalStorage.json doc) e ∧
    (getData env2 (deleteRecord env (LocalStorage.json doc) d).1).settings = doc.settings ∧
    (getData env2 (deleteRecord env (LocalStorage.json doc) d).1).createdAt = doc.createdAt := by
  refine ⟨?_, rfl, rfl, ?_, ?_, ?_⟩
  · unfold getRecord setRecord saveData
    simp only [getData]
    exact JSObject.get_set_other _ _ _ _ hne
  · unfold getRecord deleteRecord
    simp only
    split_ifs with h
    · simp only [saveData, getData]
      exact JSObject.get_delete_other _ _ _ hne
    · rfl
  · unfold deleteRecord
    simp only
    split_ifs with h <;> rfl
  · unfold deleteRecord
    simp only
    split_ifs with h <;> rfl

/-- C17 at a store of three months: writing 15 February leaves 1 February. -/
theorem setRecord_deleteRecord_frame_witness :
    getRecord ⟨0, "abc"⟩
        (setRecord ⟨0, "abc"⟩ (LocalStorage.json storeOfThreeMonths) "2024-02-15" "office"
          none).1 "2024-02-01" =
      getRecord ⟨0, "abc"⟩ (LocalStorage.json storeOfThreeMonths) "2024-02-01" :=
  (setRecord_deleteRecord_frame ⟨0, "abc"⟩ ⟨0, "abc"⟩ storeOfThreeMonths "2024-02-15"
    "2024-02-01" "office" none (by decide)).1

end Storage

/-! ## The record store: what a call changes -/

namespace Storage

/-- What `getRecord` finds does not depend on the clock or the random text. -/
theorem getRecord_env (env env2 : Env) (ls : LocalStorage) (k : String) :
    getRecord env ls k = getRecord env2 ls k := by
  cases ls <;> rfl

theorem getRecord_setRecord_other (env env2 : Env) (ls : LocalStorage) (d e t : String)
    (licenseType : Option String) (hne : e ≠ d) :
    getRecord env2 (setRecord env ls d t licenseType).1 e = getRecord env ls e := by
  unfold getRecord setRecord saveData
  simp only [getData]
  exact JSObject.get_set_other _ _ _ _ hne

theorem getRecord_deleteRecord_same (env env2 : Env) (ls : LocalStorage) (d : String) :
    getRecord env2 (deleteRecord env ls d).1 d = none := by
  unfold deleteRecord
  simp only
  split_ifs with h
  · unfold getRecord saveData
    simp only [getData, JSObject.get_delete_same]
  · rw [getRecord_env env2 env]
    unfold getRecord
    simpa using h

theorem getRecord_deleteRecord_other (env env2 : Env) (ls : LocalStorage) (d e : String)
    (hne : e ≠ d) :
    getRecord env2 (deleteRecord env ls d).1 e = getRecord env ls e := by
  unfold deleteRecord
  simp only
  split_ifs with h
  · unfold getRecord saveData
    simp only [getData]
    exact JSObject.get_delete_other _ _ _ hne
  · exact getRecord_env env2 env ls e

/-- The record `setRecord` stores: the category is kept only for the type
`license` and only when it is not empty. -/
theorem getRecord_setRecord_same (env env2 : Env) (ls : LocalStorage) (d t : String)
    (licenseType : Option String) :
    ∃ r : Record,
      getRecord env2 (setRecord env ls d t licenseType).1 d = some r ∧ r.type = t ∧
      r.licenseType =
        (match licenseType with
         | some l => if t = "license" ∧ l ≠ "" then some l else none
         | none => none) := by
  unfold getRecord setRecord saveData
  simp only [getData, JSObject.get_set_same]
  refine ⟨_, rfl, ?_, ?_⟩
  · cases licenseType with
    | none => rfl
    | some l => simp only; split_ifs <;> rfl
  · cases licenseType with
    | none => rfl
    | some l => simp only; split_ifs <;> rfl

/-- A property of records that every written record has holds for all records
of a store after any sequence of calls. -/
theorem runStoreCalls_invariant (P : Record → Prop)
    (hset : ∀ (env env2 : Env) (ls : LocalStorage) (d t : String) (licenseType : Option String)
      (r : Record), getRecord env2 (setRecord env ls d t licenseType).1 d = some r → P r) :
    ∀ (calls : List (Env × StoreCall)) (ls : LocalStorage),
      (∀ (env : Env) (k : String) (r : Record), getRecord env ls k = some r → P r) →
      ∀ (env : Env) (k : String) (r : Record),
        getRecord env (runStoreCalls ls calls) k = some r → P r
  | [], ls, h => h
  | (env0, StoreCall.setRecord d t licenseType) :: rest, ls, h => by
    apply runStoreCalls_invariant P hset rest
    intro env k r hr
    by_cases hk : k = d
    · subst hk
      exact hset env0 env ls k t licenseType r hr
    · rw [getRecord_setRecord_other env0 env ls d k t licenseType hk] at hr
      exact h env0 k r hr
  | (env0, StoreCall.deleteRecord d) :: rest, ls, h => by
    apply runStoreCalls_invariant P hset rest
    intro env k r hr
    by_cases hk : k = d
    · subst hk
      rw [getRecord_deleteRecord_same] at hr
      exact absurd hr (by simp)
    · rw [getRecord_deleteRecord_other env0 env ls d k hk] at hr
      exact h env0 k r hr

/-- C13, amended.  For every call `setRecord(date, type, licenseCategory?)` the
record stored for `date` has the given type, and it has a license category
exactly when the type is `license` and a category that is not empty was
passed, which then is the stored category; so a stored category implies the
type `license`, while a record of type `license` may have none.  Hence
`licenseCategory set ⇒ attendanceType = License` holds, and no stored category
is empty, for every record of every store reached from the empty store by
calls of `setRecord` and `deleteRecord`. -/
theorem setRecord_licenseType (env env2 : Env) (ls : LocalStorage) (d t : String)
    (licenseType : Option String) :
    (∃ r : Record,
      getRecord env2 (setRecord env ls d t licenseType).1 d = some r ∧ r.type = t ∧
      r.licenseType =
        (match licenseType with
         | some l => if t = "license" ∧ l ≠ "" then some l else none
         | none => none) ∧
      (r.licenseType.isSome = true ↔
        (t = "license" ∧ ∃ l : String, licenseType = some l ∧ l ≠ "")) ∧
      (r.licenseType.isSome = true → r.type = "license")) ∧
    (∀ (calls : List (Env × StoreCall)) (env3 : Env) (k : String) (r : Record),
      getRecord env3 (runStoreCalls LocalStorage.absent calls) k = some r →
        (r.licenseType.isSome = true → r.type = "license") ∧ r.licenseType ≠ some "") := by
  have hkey : ∀ (e1 e2 : Env) (l0 : LocalStorage) (d0 t0 : String) (lt0 : Option String)
      (r : Record), getRecord e2 (setRecord e1 l0 d0 t0 lt0).1 d0 = some r →
      (r.licenseType.isSome = true ↔ (t0 = "license" ∧ ∃ l : String, lt0 = some l ∧ l ≠ "")) ∧
      (r.licenseType.isSome = true → r.type = "license") ∧ r.licenseType ≠ some "" := by
    intro e1 e2 l0 d0 t0 lt0 r hr
    obtain ⟨r0, h0, h1, h2⟩ := getRecord_setRecord_same e1 e2 l0 d0 t0 lt0
    rw [h0] at hr
    have hrr : r0 = r := Option.some.inj hr
    subst hrr
    cases lt0 with
    | none => simp [h2]
    | some l =>
      by_cases hc : t0 = "license" ∧ l ≠ ""
      · simp only [hc, if_true, and_self, ne_eq, not_false_eq_true] at h2
        rw [h2, h1]
        simp [hc.1, hc.2]
      · simp only [hc, if_false] at h2
        rw [h2]
        simp
        intro h3
        by_contra h4
        exact hc ⟨h3, h4⟩
  constructor
  · obtain ⟨r, h0, h1, h2⟩ := getRecord_setRecord_same env env2 ls d t licenseType
    obtain ⟨ha, hb, -⟩ := hkey env env2 ls d t licenseType r h0
    exact ⟨r, h0, h1, h2, ha, hb⟩
  · intro calls env3 k r hr
    exact runStoreCalls_invariant
      (fun r => (r.licenseType.isSome = true → r.type = "license") ∧ r.licenseType ≠ some "")
      (fun e1 e2 l0 d0 t0 lt0 r0 h => (hkey e1 e2 l0 d0 t0 lt0 r0 h).2)
      calls LocalStorage.absent
      (by
        intro e k0 r0 h0
        exact absurd h0 (by simp [getRecord, getData, getDefaultData, JSObject.get, JSObject.empty]))
      env3 k r hr

/-- The amended C13 after a license with a category, an office day and a
deletion: the license record that is left has the type `license`. -/
theorem setRecord_licenseType_witness :
    getRecord ⟨0, "abc"⟩
        (runStoreCalls LocalStorage.absent
          [(⟨0, "abc"⟩, StoreCall.setRecord "2024-02-15" "license" (some "Vacaciones")),
           (⟨0, "abc"⟩, StoreCall.setRecord "2024-02-16" "office" (some "Vacaciones")),
           (⟨0, "abc"⟩, StoreCall.deleteRecord "2024-02-16")]) "2024-02-15" =
      some ⟨"license", "1970-01-01T00:00:00.000Z", some "Vacaciones"⟩ ∧
    (((⟨"license", "1970-01-01T00:00:00.000Z", some "Vacaciones"⟩ : Record).licenseType.isSome
        = true →
      (⟨"license", "1970-01-01T00:00:00.000Z", some "Vacaciones"⟩ : Record).type = "license") ∧
     (⟨"license", "1970-01-01T00:00:00.000Z", some "Vacaciones"⟩ : Record).licenseType
        ≠ some "") :=
  ⟨by decide,
   (setRecord_licenseType ⟨0, "abc"⟩ ⟨0, "abc"⟩ LocalStorage.absent "2024-02-15" "license"
      none).2
     [(⟨0, "abc"⟩, StoreCall.setRecord "2024-02-15" "license" (some "Vacaciones")),
      (⟨0, "abc"⟩, StoreCall.setRecord "2024-02-16" "office" (some "Vacaciones")),
      (⟨0, "abc"⟩, StoreCall.deleteRecord "2024-02-16")]
     ⟨0, "abc"⟩ "2024-02-15" _ (by decide)⟩

/-- C13 as stated fails for a license without a category: after
`setRecord(d, 'license')` the record for `d` has the type `license` and no
license category; the same holds when the category passed is empty. -/
theorem setRecord_license_without_category :
    (getRecord ⟨0, "abc"⟩
        (setRecord ⟨0, "abc"⟩ LocalStorage.absent "2024-02-16" "license" none).1
        "2024-02-16").map (fun r => (r.type, r.licenseType)) = some ("license", none) ∧
    (getRecord ⟨0, "abc"⟩
        (setRecord ⟨0, "abc"⟩ LocalStorage.absent "2024-02-16" "license" (some "")).1
        "2024-02-16").map (fun r => (r.type, r.licenseType)) = some ("license", none) := by
  decide

end Storage

/-! ## The check-in and license handlers -/

namespace App

/-- On a day that `isWeekend` does not reject, `handleCheckin(type)` deletes
the record under the key `formatDate` gives for the current instant when it
has the same type, and otherwise sets it; two calls at instants with the same
key leave a store without a record for that key as it was. -/
theorem handleCheckin_cases (tz : Int) (env : Env) (ls : LocalStorage) (t : String)
    (hday : Calculations.isWeekend tz (Calculations.DateOrString.date (some env.now)) = false) :
    (∀ r : Record,
      Storage.getRecord env ls (Calculations.formatDate env.now) = some r → r.type = t →
        handleCheckin tz env ls t
            = (Storage.deleteRecord env ls (Calculations.formatDate env.now)).1 ∧
        ∀ env2 : Env,
          Storage.getRecord env2 (handleCheckin tz env ls t) (Calculations.formatDate env.now)
            = none) ∧
    ((∀ r : Record,
        Storage.getRecord env ls (Calculations.formatDate env.now) = some r → r.type ≠ t) →
        handleCheckin tz env ls t
            = (Storage.setRecord env ls (Calculations.formatDate env.now) t none).1 ∧
        ∀ env2 : Env, ∃ r : Record,
          Storage.getRecord env2 (handleCheckin tz env ls t) (Calculations.formatDate env.now)
            = some r ∧ r.type = t ∧ r.licenseType = none) ∧
    (∀ e : String, e ≠ Calculations.formatDate env.now → ∀ env2 : Env,
        Storage.getRecord env2 (handleCheckin tz env ls t) e = Storage.getRecord env2 ls e) ∧
    (∀ later : Env,
      Calculations.isWeekend tz (Calculations.DateOrString.date (some later.now)) = false →
      Calculations.formatDate later.now = Calculations.formatDate env.now →
      Storage.getRecord env ls (Calculations.formatDate env.now) = none →
      ∀ (env2 : Env) (e : String),
        Storage.getRecord env2 (handleCheckin tz later (handleCheckin tz env ls t) t) e
          = Storage.getRecord env2 ls e) := by
  have hset : (∀ r : Record,
      Storage.getRecord env ls (Calculations.formatDate env.now) = some r → r.type ≠ t) →
      handleCheckin tz env ls t
        = (Storage.setRecord env ls (Calculations.formatDate env.now) t none).1 := by
    intro h
    unfold handleCheckin
    simp only [hday, Bool.false_eq_true, if_false]
    cases hr : Storage.getRecord env ls (Calculations.formatDate env.now) with
    | none => rfl
    | some r => simp only [h r hr, if_false]
  have hdel : ∀ r : Record,
      Storage.getRecord env ls (Calculations.formatDate env.now) = some r → r.type = t →
      handleCheckin tz env ls t
        = (Storage.deleteRecord env ls (Calculations.formatDate env.now)).1 := by
    intro r hr ht
    unfold handleCheckin
    simp only [hday, Bool.false_eq_true, if_false, hr, ht, if_true]
  have hother : ∀ e : String, e ≠ Calculations.formatDate env.now → ∀ env2 : Env,
      Storage.getRecord env2 (handleCheckin tz env ls t) e = Storage.getRecord env2 ls e := by
    intro e he env2
    cases hr : Storage.getRecord env ls (Calculations.formatDate env.now) with
    | none =>
      rw [hset (fun r h => by rw [hr] at h; exact absurd h (by simp)),
        Storage.getRecord_setRecord_other env env2 ls _ e t none he]
      exact Storage.getRecord_env env env2 ls e
    | some r =>
      by_cases ht : r.type = t
      · rw [hdel r hr ht, Storage.getRecord_deleteRecord_other env env2 ls _ e he]
        exact Storage.getRecord_env env env2 ls e
      · rw [hset (fun r2 h => by rw [hr] at h; cases h; exact ht),
          Storage.getRecord_setRecord_other env env2 ls _ e t none he]
        exact Storage.getRecord_env env env2 ls e
  refine ⟨?_, ?_, hother, ?_⟩
  · intro r hr ht
    refine ⟨hdel r hr ht, fun env2 => ?_⟩
    rw [hdel r hr ht]
    exact Storage.getRecord_deleteRecord_same env env2 ls _
  · intro h
    refine ⟨hset h, fun env2 => ?_⟩
    rw [hset h]
    obtain ⟨r, h0, h1, h2⟩ :=
      Storage.getRecord_setRecord_same env env2 ls (Calculations.formatDate env.now) t none
    exact ⟨r, h0, h1, h2⟩
  · intro later hlater hkey hnone env2 e
    have h1 : handleCheckin tz env ls t
        = (Storage.setRecord env ls (Calculations.formatDate env.now) t none).1 :=
      hset (fun r h => by rw [hnone] at h; exact absurd h (by simp))
    obtain ⟨r, h0, hty, -⟩ :=
      Storage.getRecord_setRecord_same env later ls (Calculations.formatDate env.now) t none
    have h2 : handleCheckin tz later (handleCheckin tz env ls t) t
        = (Storage.deleteRecord later (handleCheckin tz env ls t)
            (Calculations.formatDate env.now)).1 := by
      rw [h1]
      unfold handleCheckin
      simp only [hlater, Bool.false_eq_true, if_false, hkey, h0, hty, if_true]
    rw [h2]
    by_cases he : e = Calculations.formatDate env.now
    · rw [he, Storage.getRecord_deleteRecord_same, Storage.getRecord_env env2 env, hnone]
    · rw [Storage.getRecord_deleteRecord_other later env2 _ _ e he,
        Storage.getRecord_env later env2]
      exact hother e he env2

/-- Two calls of `handleCheckin(type)` at instants whose keys differ, on a
store without a record for either key, leave a record of that type under both
keys. -/
theorem handleCheckin_two_keys (tz : Int) (env later : Env) (ls : LocalStorage) (t : String)
    (hday : Calculations.isWeekend tz (Calculations.DateOrString.date (some env.now)) = false)
    (hlater : Calculations.isWeekend tz (Calculations.DateOrString.date (some later.now)) = false)
    (hkey : Calculations.formatDate later.now ≠ Calculations.formatDate env.now)
    (h1 : Storage.getRecord env ls (Calculations.formatDate env.now) = none)
    (h2 : Storage.getRecord env ls (Calculations.formatDate later.now) = none)
    (env2 : Env) :
    (∃ r : Record,
      Storage.getRecord env2 (handleCheckin tz later (handleCheckin tz env ls t) t)
        (Calculations.formatDate env.now) = some r ∧ r.type = t) ∧
    (∃ r : Record,
      Storage.getRecord env2 (handleCheckin tz later (handleCheckin tz env ls t) t)
        (Calculations.formatDate later.now) = some r ∧ r.type = t) := by
  obtain ⟨-, hs1, -, -⟩ := handleCheckin_cases tz env ls t hday
  obtain ⟨e1, -⟩ := hs1 (fun r h => by rw [h1] at h; exact absurd h (by simp))
  have h3 : Storage.getRecord later (handleCheckin tz env ls t)
      (Calculations.formatDate later.now) = none := by
    rw [e1, Storage.getRecord_setRecord_other env later ls _ _ t none hkey]
    exact h2
  obtain ⟨-, hs2, ho2, -⟩ := handleCheckin_cases tz later (handleCheckin tz env ls t) t hlater
  obtain ⟨e2, hr2⟩ := hs2 (fun r h => by rw [h3] at h; exact absurd h (by simp))
  constructor
  · rw [ho2 _ (Ne.symm hkey) env2, e1]
    obtain ⟨r, hr, hty, -⟩ :=
      Storage.getRecord_setRecord_same env env2 ls (Calculations.formatDate env.now) t none
    exact ⟨r, hr, hty⟩
  · obtain ⟨r, hr, hty, -⟩ := hr2 env2
    exact ⟨r, hr, hty⟩

/-- C15.  In a zone three hours west of Greenwich, on Thursday 15 February
2024, `handleCheckin('office')` at 20:30 and again at 21:30 local time, on the
empty store, leaves two records: the instants are 2024-02-15T23:30Z and
2024-02-16T00:30Z, `formatDate` gives the keys `2024-02-15` and `2024-02-16`,
and the second call finds no record under its key.  In general, on a day
that `isWeekend` does not reject and with `d` the key of the current instant,
`handleCheckin(type)` deletes the record for `d` when it has the same type
and sets it otherwise; two calls toggle when their instants have the same
key, and leave two records when the keys differ. -/
theorem handleCheckin_toggle :
    (Calculations.isWeekend (-10800000)
        (Calculations.DateOrString.date (some 1708039800000)) = false ∧
     Calculations.isWeekend (-10800000)
        (Calculations.DateOrString.date (some 1708043400000)) = false ∧
     JSDate.toISOString 1708039800000 = "2024-02-15T23:30:00.000Z" ∧
     JSDate.toISOString 1708043400000 = "2024-02-16T00:30:00.000Z" ∧
     (JSDate.getFullYear (-10800000) 1708039800000, JSDate.getMonth (-10800000) 1708039800000,
       JSDate.getDate (-10800000) 1708039800000, JSDate.getDay (-10800000) 1708039800000)
       = (2024, 1, 15, 4) ∧
     (JSDate.getFullYear (-10800000) 1708043400000, JSDate.getMonth (-10800000) 1708043400000,
       JSDate.getDate (-10800000) 1708043400000, JSDate.getDay (-10800000) 1708043400000)
       = (2024, 1, 15, 4) ∧
     Calculations.formatDate 1708039800000 = "2024-02-15" ∧
     Calculations.formatDate 1708043400000 = "2024-02-16" ∧
     Storage.getRecord ⟨0, "abc"⟩
        (handleCheckin (-10800000) ⟨1708043400000, "abc"⟩
          (handleCheckin (-10800000) ⟨1708039800000, "abc"⟩ LocalStorage.absent "office")
          "office") "2024-02-15" =
       some { type := "office", timestamp := "2024-02-15T23:30:00.000Z", licenseType := none } ∧
     Storage.getRecord ⟨0, "abc"⟩
        (handleCheckin (-10800000) ⟨1708043400000, "abc"⟩
          (handleCheckin (-10800000) ⟨1708039800000, "abc"⟩ LocalStorage.absent "office")
          "office") "2024-02-16" =
       some { type := "office", timestamp := "2024-02-16T00:30:00.000Z", licenseType := none }) ∧
    (∀ (tz : Int) (env : Env) (ls : LocalStorage) (t : String),
      Calculations.isWeekend tz (Calculations.DateOrString.date (some env.now)) = false →
      (∀ r : Record,
        Storage.getRecord env ls (Calculations.formatDate env.now) = some r → r.type = t →
          handleCheckin tz env ls t
              = (Storage.deleteRecord env ls (Calculations.formatDate env.now)).1 ∧
          ∀ env2 : Env,
            Storage.getRecord env2 (handleCheckin tz env ls t) (Calculations.formatDate env.now)
              = none) ∧
      ((∀ r : Record,
          Storage.getRecord env ls (Calculations.formatDate env.now) = some r → r.type ≠ t) →
          handleCheckin tz env ls t
              = (Storage.setRecord env ls (Calculations.formatDate env.now) t none).1 ∧
          ∀ env2 : Env, ∃ r : Record,
            Storage.getRecord env2 (handleCheckin tz env ls t)
              (Calculations.formatDate env.now) = some r ∧ r.type = t ∧ r.licenseType = none) ∧
      (∀ e : String, e ≠ Calculations.formatDate env.now → ∀ env2 : Env,
          Storage.getRecord env2 (handleCheckin tz env ls t) e = Storage.getRecord env2 ls e) ∧
      (∀ later : Env,
        Calculations.isWeekend tz (Calculations.DateOrString.date (some later.now)) = false →
        Storage.getRecord env ls (Calculations.formatDate env.now) = none →
        (Calculations.formatDate later.now = Calculations.formatDate env.now →
          ∀ (env2 : Env) (e : String),
            Storage.getRecord env2 (handleCheckin tz later (handleCheckin tz env ls t) t) e
              = Storage.getRecord env2 ls e) ∧
        (Calculations.formatDate later.now ≠ Calculations.formatDate env.now →
          Storage.getRecord env ls (Calculations.formatDate later.now) = none →
          ∀ env2 : Env,
            (∃ r : Record,
              Storage.getRecord env2 (handleCheckin tz later (handleCheckin tz env ls t) t)
                (Calculations.formatDate env.now) = some r ∧ r.type = t) ∧
            (∃ r : Record,
              Storage.getRecord env2 (handleCheckin tz later (handleCheckin tz env ls t) t)
                (Calculations.formatDate later.now) = some r ∧ r.type = t)))) :=
  ⟨⟨by decide!, by decide!, by decide!, by decide!, by decide!, by decide!, by decide!,
      by decide!, by decide!, by decide!⟩,
   fun tz env ls t hday =>
     ⟨(handleCheckin_cases tz env ls t hday).1,
      (handleCheckin_cases tz env ls t hday).2.1,
      (handleCheckin_cases tz env ls t hday).2.2.1,
      fun later hlater hnone =>
        ⟨fun hkey => (handleCheckin_cases tz env ls t hday).2.2.2 later hlater hkey hnone,
         fun hkey h2 env2 =>
           handleCheckin_two_keys tz env later ls t hday hlater hkey hnone h2 env2⟩⟩⟩

end App

/-! ## Counting working days and telling weekends -/

namespace JSDate

theorem daysBeforeMonth_succ (y k : Int) (h0 : 0 ≤ k) (h1 : k ≤ 10) :
    daysBeforeMonth y (k + 1) = daysBeforeMonth y k + (Gregorian.daysInMonth y k : Int) := by
  have h := daysInMonth_eq y k h0 (by omega)
  rw [if_neg (by omega)] at h
  omega

/-- Every day of a year is a day of one of its twelve months. -/
theorem exists_month_day (y d : Int) (h0 : 0 ≤ d) (h1 : d < DaysInYear y) :
    ∃ mn date : Int, 0 ≤ mn ∧ mn ≤ 11 ∧ 1 ≤ date ∧
      date ≤ (Gregorian.daysInMonth y mn : Int) ∧ d = daysBeforeMonth y mn + date - 1 := by
  have mk : ∀ mn : Int, 0 ≤ mn → mn ≤ 11 → daysBeforeMonth y mn ≤ d →
      d < daysBeforeMonth y mn + (Gregorian.daysInMonth y mn : Int) →
      ∃ mn date : Int, 0 ≤ mn ∧ mn ≤ 11 ∧ 1 ≤ date ∧
        date ≤ (Gregorian.daysInMonth y mn : Int) ∧ d = daysBeforeMonth y mn + date - 1 :=
    fun mn ha hb hc hd =>
      ⟨mn, d - daysBeforeMonth y mn + 1, ha, hb, by omega, by omega, by omega⟩
  have e0 : daysBeforeMonth y 0 = 0 := rfl
  have s0 := daysBeforeMonth_succ y 0 (by decide) (by decide)
  have s1 := daysBeforeMonth_succ y 1 (by decide) (by decide)
  have s2 := daysBeforeMonth_succ y 2 (by decide) (by decide)
  have s3 := daysBeforeMonth_succ y 3 (by decide) (by decide)
  have s4 := daysBeforeMonth_succ y 4 (by decide) (by decide)
  have s5 := daysBeforeMonth_succ y 5 (by decide) (by decide)
  have s6 := daysBeforeMonth_succ y 6 (by decide) (by decide)
  have s7 := daysBeforeMonth_succ y 7 (by decide) (by decide)
  have s8 := daysBeforeMonth_succ y 8 (by decide) (by decide)
  have s9 := daysBeforeMonth_succ y 9 (by decide) (by decide)
  have s10 := daysBeforeMonth_succ y 10 (by decide) (by decide)
  have s11 := daysInMonth_eq y 11 (by decide) (by decide)
  rw [if_pos rfl] at s11
  norm_num at s0 s1 s2 s3 s4 s5 s6 s7 s8 s9 s10
  by_cases c1 : d < daysBeforeMonth y 1
  · exact mk 0 (by decide) (by decide) (by omega) (by omega)
  by_cases c2 : d < daysBeforeMonth y 2
  · exact mk 1 (by decide) (by decide) (by omega) (by omega)
  by_cases c3 : d < daysBeforeMonth y 3
  · exact mk 2 (by decide) (by decide) (by omega) (by omega)
  by_cases c4 : d < daysBeforeMonth y 4
  · exact mk 3 (by decide) (by decide) (by omega) (by omega)
  by_cases c5 : d < daysBeforeMonth y 5
  · exact mk 4 (by decide) (by decide) (by omega) (by omega)
  by_cases c6 : d < daysBeforeMonth y 6
  · exact mk 5 (by decide) (by decide) (by omega) (by omega)
  by_cases c7 : d < daysBeforeMonth y 7
  · exact mk 6 (by decide) (by decide) (by omega) (by omega)
  by_cases c8 : d < daysBeforeMonth y 8
  · exact mk 7 (by decide) (by decide) (by omega) (by omega)
  by_cases c9 : d < daysBeforeMonth y 9
  · exact mk 8 (by decide) (by decide) (by omega) (by omega)
  by_cases c10 : d < daysBeforeMonth y 10
  · exact mk 9 (by decide) (by decide) (by omega) (by omega)
  by_cases c11 : d < daysBeforeMonth y 11
  · exact mk 10 (by decide) (by decide) (by omega) (by omega)
  · exact mk 11 (by decide) (by decide) (by omega) (by omega)

/-- Every time value lies on a day of a month of its year: the month index is
0 .. 11, the day of month is a day of that Gregorian month, and the day number
is the one of that year, month and day. -/
theorem civil_decompose (t : Int) :
    0 ≤ MonthFromTime t ∧ MonthFromTime t ≤ 11 ∧
    1 ≤ DateFromTime t ∧
    DateFromTime t ≤ (Gregorian.daysInMonth (YearFromTime t) (MonthFromTime t) : Int) ∧
    Day t = DayFromYear (YearFromTime t) + daysBeforeMonth (YearFromTime t) (MonthFromTime t)
      + DateFromTime t - 1 := by
  obtain ⟨h3, h4⟩ := yearFromDay_spec (Day t)
  rw [DayFromYear_succ] at h4
  have hy : yearFromDay (Day t) = YearFromTime t := rfl
  rw [hy] at h3 h4
  obtain ⟨mn, date, hm0, hm1, hd1, hd2, hd⟩ :=
    exists_month_day (YearFromTime t) (Day t - DayFromYear (YearFromTime t))
      (by omega) (by omega)
  have ht : Day t = DayFromYear (YearFromTime t) + daysBeforeMonth (YearFromTime t) mn
      + date - 1 := by omega
  obtain ⟨-, e2, e3⟩ := civil_of_day (YearFromTime t) mn date t hm0 hm1 hd1 hd2 ht
  rw [e2, e3]
  exact ⟨hm0, hm1, hd1, hd2, ht⟩

/-- The day of the week of a time value is the Gregorian day of the week of
its year, month and day of month. -/
theorem WeekDay_gregorian (t : Int) :
    WeekDay t = Gregorian.dayOfWeek (YearFromTime t) (MonthFromTime t) (DateFromTime t) := by
  obtain ⟨h0, h1, -, -, ht⟩ := civil_decompose t
  exact weekDay_eq _ _ _ t h0 h1 ht

end JSDate

/-! ## Reading a date key as a date -/

namespace JSDate

theorem digit_digitChar (a : Nat) (h : a < 10) : digit (Nat.digitChar a) = some (a : Int) := by
  interval_cases a <;> decide

theorem twoDigits_digitChar (a b : Nat) (ha : a < 10) (hb : b < 10) :
    twoDigits (Nat.digitChar a) (Nat.digitChar b) = some (10 * (a : Int) + (b : Int)) := by
  unfold twoDigits
  rw [digit_digitChar a ha, digit_digitChar b hb]

theorem fourDigits_digitChar (a b c d : Nat) (ha : a < 10) (hb : b < 10) (hc : c < 10)
    (hd : d < 10) :
    fourDigits (Nat.digitChar a) (Nat.digitChar b) (Nat.digitChar c) (Nat.digitChar d) =
      some (100 * (10 * (a : Int) + (b : Int)) + (10 * (c : Int) + (d : Int))) := by
  unfold fourDigits
  rw [twoDigits_digitChar a b ha hb, twoDigits_digitChar c d hc hd]

theorem DaysInMonth_gregorian (ym mn : Int) (h0 : 0 ≤ mn) (h1 : mn ≤ 11) :
    DaysInMonth ym mn = (Gregorian.daysInMonth ym mn : Int) := by
  have h := daysInMonth_eq ym mn h0 h1
  unfold DaysInMonth
  omega

/-- The fields of a valid key, and the day number its characters are read as. -/
theorem parseDay_of_isValid (v : String) (hv : DateKey.isValid v = true) :
    ∃ y1 y2 y3 y4 m1 m2 d1 d2 : Char,
      v.data = [y1, y2, y3, y4, '-', m1, m2, '-', d1, d2] ∧
      parseDay y1 y2 y3 y4 m1 m2 d1 d2 =
        some (MakeDay (DateKey.year v) (DateKey.month v - 1) (DateKey.day v)) := by
  unfold DateKey.isValid at hv
  simp only [Bool.and_eq_true, decide_eq_true_eq] at hv
  obtain ⟨hc, hm1, hm2, hd1, hd2⟩ := hv
  obtain ⟨a1, a2, a3, a4, b1, b2, e1, e2, ⟨ha1, ha2, ha3, ha4⟩, ⟨hb1, hb2⟩, ⟨he1, he2⟩, hdata⟩ :=
    isCanonical_data v hc
  have hy : DateKey.year v = 100 * (10 * (a1 : Int) + (a2 : Int)) + (10 * (a3 : Int) + (a4 : Int)) := by
    unfold DateKey.year
    rw [hdata]
    simp only [digitValue_digitChar a1 ha1, digitValue_digitChar a2 ha2,
      digitValue_digitChar a3 ha3, digitValue_digitChar a4 ha4]
    ring
  have hm : DateKey.month v = 10 * (b1 : Int) + (b2 : Int) := by
    unfold DateKey.month
    rw [hdata]
    simp only [digitValue_digitChar b1 hb1, digitValue_digitChar b2 hb2]
  have hd : DateKey.day v = 10 * (e1 : Int) + (e2 : Int) := by
    unfold DateKey.day
    rw [hdata]
    simp only [digitValue_digitChar e1 he1, digitValue_digitChar e2 he2]
  refine ⟨_, _, _, _, _, _, _, _, hdata, ?_⟩
  unfold parseDay
  rw [fourDigits_digitChar a1 a2 a3 a4 ha1 ha2 ha3 ha4, twoDigits_digitChar b1 b2 hb1 hb2,
    twoDigits_digitChar e1 e2 he1 he2]
  simp only
  rw [← hy, ← hm, ← hd, DaysInMonth_gregorian _ _ (by omega) (by omega),
    if_pos ⟨hm1, hm2, hd1, hd2⟩]

/-- A valid key read alone is the UTC midnight of its day. -/
theorem parse_dateOnly (tz : Int) (v : String) (hv : DateKey.isValid v = true) :
    parse tz v =
      some (MakeDate (MakeDay (DateKey.year v) (DateKey.month v - 1) (DateKey.day v)) 0) := by
  obtain ⟨y1, y2, y3, y4, m1, m2, d1, d2, hdata, hp⟩ := parseDay_of_isValid v hv
  unfold parse
  rw [hdata]
  simp only [hp]

/-- A valid key followed by `T12:00:00` is the local noon of its day. -/
theorem parse_noon (tz : Int) (v : String) (hv : DateKey.isValid v = true) :
    parse tz (v ++ "T12:00:00") =
      some (UTC tz (MakeDate (MakeDay (DateKey.year v) (DateKey.month v - 1) (DateKey.day v))
        (MakeTime 12 0 0 0))) := by
  obtain ⟨y1, y2, y3, y4, m1, m2, d1, d2, hdata, hp⟩ := parseDay_of_isValid v hv
  have happ : (v ++ "T12:00:00").data =
      [y1, y2, y3, y4, '-', m1, m2, '-', d1, d2, 'T', '1', '2', ':', '0', '0', ':', '0', '0'] := by
    rw [String.data_append, hdata]
    rfl
  have ht : parseTime '1' '2' '0' '0' '0' '0' = some (MakeTime 12 0 0 0) := by decide
  unfold parse
  rw [happ]
  simp only [hp, ht]

theorem month_of_isValid (v : String) (hv : DateKey.isValid v = true) :
    0 ≤ DateKey.month v - 1 ∧ DateKey.month v - 1 ≤ 11 := by
  unfold DateKey.isValid at hv
  simp only [Bool.and_eq_true, decide_eq_true_eq] at hv
  omega

end JSDate

namespace Calculations

open JSDate

/-- The check of `handleLicenseSubmit`: the local noon of the day a valid key
names is a weekend for `isWeekend` exactly when the key names a Saturday or a
Sunday, in every time zone. -/
theorem isWeekend_noon (tz : Int) (v : String) (hv : DateKey.isValid v = true) :
    isWeekend tz (DateOrString.date (parse tz (v ++ "T12:00:00"))) = DateKey.isWeekendKey v := by
  obtain ⟨h0, h1⟩ := month_of_isValid v hv
  rw [parse_noon tz v hv]
  have hD : Day (LocalTime tz (UTC tz (MakeDate
      (MakeDay (DateKey.year v) (DateKey.month v - 1) (DateKey.day v)) (MakeTime 12 0 0 0)))) =
      DayFromYear (DateKey.year v) + daysBeforeMonth (DateKey.year v) (DateKey.month v - 1)
        + DateKey.day v - 1 := by
    rw [← MakeDay_month _ _ _ h0 h1]
    unfold LocalTime UTC MakeDate MakeTime Day msPerDay msPerHour msPerMinute msPerSecond
    omega
  have hw := weekDay_eq _ _ _ _ h0 h1 hD
  unfold isWeekend DateKey.isWeekendKey DateKey.dayOfWeek
  simp only [getDay, hw]

end Calculations

/-! ## The licenses of a month -/

theorem cons_lt_cons_iff (a b : Char) (l r : List Char) :
    a :: l < b :: r ↔ a < b ∨ (a = b ∧ l < r) := by
  constructor
  · intro h
    cases h with
    | cons h => exact Or.inr ⟨rfl, h⟩
    | rel h => exact Or.inl h
  · rintro (h | ⟨rfl, h⟩)
    · exact List.Lex.rel h
    · exact List.Lex.cons h

theorem find_of_mem_nodup {α : Type} (k : String) (v : α) :
    ∀ l : List (String × α), (l.map Prod.fst).Nodup → (k, v) ∈ l →
      l.find? (fun e => e.1 = k) = some (k, v)
  | [], _, h => absurd h (List.not_mem_nil _)
  | (k0, v0) :: rest, hn, h => by
    rw [List.map_cons, List.nodup_cons] at hn
    rcases List.mem_cons.mp h with h1 | h1
    · cases h1
      simp
    · have hk : k0 ≠ k := by
        intro e
        apply hn.1
        rw [e]
        exact List.mem_map.mpr ⟨(k, v), h1, rfl⟩
      have ih := find_of_mem_nodup k v rest hn.2 h1
      simp [List.find?_cons, hk, ih]

theorem JSObject.get_of_mem {α : Type} (o : JSObject α) (k : String) (v : α)
    (h : (k, v) ∈ o.entries) : o.get k = some v := by
  unfold JSObject.get
  rw [find_of_mem_nodup k v o.entries o.nodup h]
  rfl

theorem digitChar_lt (a b : Nat) (ha : a < 10) (hb : b < 10) :
    Nat.digitChar a < Nat.digitChar b ↔ a < b := by
  interval_cases a <;> interval_cases b <;> decide

theorem dateNumber_of_data (key : String) (a1 a2 a3 a4 b1 b2 e1 e2 : Nat)
    (ha : a1 < 10 ∧ a2 < 10 ∧ a3 < 10 ∧ a4 < 10) (hb : b1 < 10 ∧ b2 < 10)
    (he : e1 < 10 ∧ e2 < 10)
    (hdata : key.data =
      [Nat.digitChar a1, Nat.digitChar a2, Nat.digitChar a3, Nat.digitChar a4, '-',
        Nat.digitChar b1, Nat.digitChar b2, '-', Nat.digitChar e1, Nat.digitChar e2]) :
    DateKey.dateNumber key =
      10000000 * (a1 : Int) + 1000000 * a2 + 100000 * a3 + 10000 * a4 + 1000 * b1 + 100 * b2
        + 10 * e1 + e2 := by
  unfold DateKey.dateNumber DateKey.year DateKey.month DateKey.day
  rw [hdata]
  simp only [digitValue_digitChar _ ha.1, digitValue_digitChar _ ha.2.1,
    digitValue_digitChar _ ha.2.2.1, digitValue_digitChar _ ha.2.2.2,
    digitValue_digitChar _ hb.1, digitValue_digitChar _ hb.2,
    digitValue_digitChar _ he.1, digitValue_digitChar _ he.2]
  ring

/-- On canonical keys the order of the texts is the order of the dates. -/
theorem dateKey_lt_iff (a b : String) (ha : DateKey.isCanonical a = true)
    (hb : DateKey.isCanonical b = true) :
    a < b ↔ DateKey.dateNumber a < DateKey.dateNumber b := by
  obtain ⟨a1, a2, a3, a4, a5, a6, a7, a8, hA, hA2, hA3, hda⟩ := isCanonical_data a ha
  obtain ⟨b1, b2, b3, b4, b5, b6, b7, b8, hB, hB2, hB3, hdb⟩ := isCanonical_data b hb
  rw [dateNumber_of_data a _ _ _ _ _ _ _ _ hA hA2 hA3 hda,
    dateNumber_of_data b _ _ _ _ _ _ _ _ hB hB2 hB3 hdb, String.lt_iff_toList_lt]
  have ea : a.toList = a.data := rfl
  have eb : b.toList = b.data := rfl
  rw [ea, eb, hda, hdb]
  have hnil : ¬ (([] : List Char) < []) := by
    intro h
    cases h
  have hdash : ¬ ('-' < '-') := by decide
  simp only [cons_lt_cons_iff, digitChar_lt _ _ hA.1 hB.1, digitChar_lt _ _ hA.2.1 hB.2.1,
    digitChar_lt _ _ hA.2.2.1 hB.2.2.1, digitChar_lt _ _ hA.2.2.2 hB.2.2.2,
    digitChar_lt _ _ hA2.1 hB2.1, digitChar_lt _ _ hA2.2 hB2.2,
    digitChar_lt _ _ hA3.1 hB3.1, digitChar_lt _ _ hA3.2 hB3.2,
    digitChar_inj _ _ hA.1 hB.1, digitChar_inj _ _ hA.2.1 hB.2.1,
    digitChar_inj _ _ hA.2.2.1 hB.2.2.1, digitChar_inj _ _ hA.2.2.2 hB.2.2.2,
    digitChar_inj _ _ hA2.1 hB2.1, digitChar_inj _ _ hA2.2 hB2.2,
    digitChar_inj _ _ hA3.1 hB3.1, digitChar_inj _ _ hA3.2 hB3.2, hnil, hdash,
    true_and, false_or, and_false, or_false]
  omega

namespace Storage

theorem localeCompare_le_iff (a b : String) :
    decide (JSString.localeCompare a b ≤ 0) = true ↔ a ≤ b := by
  unfold JSString.localeCompare
  rw [decide_eq_true_iff]
  split_ifs with h1 h2
  · simp [le_of_lt h1]
  · simp [le_of_eq h2]
  · have : ¬ a ≤ b := fun h => (lt_or_eq_of_le h).elim h1 h2
    simp [this]

/-- The result of `getMonthLicenses` is a rearrangement of the license
records of the month, ascending in the order of the key texts. -/
theorem getMonthLicenses_sorted (env : Env) (ls : LocalStorage) (year month : Int) :
    (getMonthLicenses env ls year month).Perm
      (((getMonthRecords env ls year month).entries.filter (fun e => e.2.type = "license")).map
        (fun e => ({ date := e.1, licenseType := licenseTypeOrOtro e.2 } : LicenseEntry))) ∧
    (getMonthLicenses env ls year month).Pairwise (fun a b => a.date < b.date) := by
  have hperm : (getMonthLicenses env ls year month).Perm
      (((getMonthRecords env ls year month).entries.filter (fun e => e.2.type = "license")).map
        (fun e => ({ date := e.1, licenseType := licenseTypeOrOtro e.2 } : LicenseEntry))) :=
    List.mergeSort_perm _ _
  refine ⟨hperm, ?_⟩
  have htrans : ∀ a b c : LicenseEntry,
      decide (JSString.localeCompare a.date b.date ≤ 0) = true →
      decide (JSString.localeCompare b.date c.date ≤ 0) = true →
      decide (JSString.localeCompare a.date c.date ≤ 0) = true :=
    fun a b c hab hbc => (localeCompare_le_iff _ _).mpr
      (le_trans ((localeCompare_le_iff _ _).mp hab) ((localeCompare_le_iff _ _).mp hbc))
  have htotal : ∀ a b : LicenseEntry,
      (decide (JSString.localeCompare a.date b.date ≤ 0) ||
        decide (JSString.localeCompare b.date a.date ≤ 0)) = true := by
    intro a b
    rw [Bool.or_eq_true, localeCompare_le_iff, localeCompare_le_iff]
    exact le_total _ _
  have hsorted : (getMonthLicenses env ls year month).Pairwise
      (fun a b => decide (JSString.localeCompare a.date b.date ≤ 0) = true) :=
    List.sorted_mergeSort htrans htotal _
  have hnodup : ((getMonthLicenses env ls year month).map (fun a => a.date)).Nodup := by
    rw [(hperm.map _).nodup_iff, List.map_map]
    have h2 : ((fun a : LicenseEntry => a.date) ∘
        (fun e : String × Record =>
          ({ date := e.1, licenseType := licenseTypeOrOtro e.2 } : LicenseEntry))) = Prod.fst := rfl
    rw [h2]
    exact ((getMonthRecords env ls year month).nodup.sublist
      (List.Sublist.map _ (List.filter_sublist _)))
  have hne : (getMonthLicenses env ls year month).Pairwise (fun a b => a.date ≠ b.date) := by
    rw [List.Nodup, List.pairwise_map] at hnodup
    exact hnodup
  exact (hsorted.and hne).imp
    (fun h => lt_of_le_of_ne ((localeCompare_le_iff _ _).mp h.1) h.2)

/-- C12, amended.  For every store whose record keys have the canonical shape
`YYYY-MM-DD`, every year that is negative or at least 1000 and every month
index 0 .. 11: `getMonthLicenses` returns, in some order, one entry
`{date, licenseType}` for each stored record whose key names that year and
month and whose type is license, and no other entry; the dates of the entries
are strictly ascending; the `licenseType` of an entry is the stored category,
or `Otro` when the record has none or an empty one. -/
theorem getMonthLicenses_spec (env : Env) (doc : Document) (year month : Int)
    (hk : ∀ e ∈ doc.records.entries, DateKey.isCanonical e.1 = true)
    (hy : year < 0 ∨ 1000 ≤ year) (h0 : 0 ≤ month) (h1 : month ≤ 11) :
    (getMonthLicenses env (LocalStorage.json doc) year month).Perm
      ((doc.records.entries.filter (fun e =>
          decide (DateKey.year e.1 = year ∧ DateKey.month e.1 = month + 1) &&
            decide (e.2.type = "license"))).map
        (fun e => ({ date := e.1,
                     licenseType :=
                       match e.2.licenseType with
                       | some l => if l = "" then "Otro" else l
                       | none => "Otro" } : LicenseEntry))) ∧
    (getMonthLicenses env (LocalStorage.json doc) year month).Pairwise
      (fun a b => DateKey.dateNumber a.date < DateKey.dateNumber b.date) ∧
    (∀ a ∈ getMonthLicenses env (LocalStorage.json doc) year month,
      DateKey.year a.date = year ∧ DateKey.month a.date = month + 1 ∧
      ∃ r : Record, getRecord env (LocalStorage.json doc) a.date = some r ∧
        r.type = "license") := by
  obtain ⟨hperm, hsorted⟩ := getMonthLicenses_sorted env (LocalStorage.json doc) year month
  have he := getMonthRecords_entries_of_canonical env doc year month hk hy h0 h1
  rw [he, List.filter_filter] at hperm
  have hperm2 : (getMonthLicenses env (LocalStorage.json doc) year month).Perm
      ((doc.records.entries.filter (fun e =>
          decide (DateKey.year e.1 = year ∧ DateKey.month e.1 = month + 1) &&
            decide (e.2.type = "license"))).map
        (fun e => ({ date := e.1,
                     licenseType :=
                       match e.2.licenseType with
                       | some l => if l = "" then "Otro" else l
                       | none => "Otro" } : LicenseEntry))) := by
    refine hperm.trans (List.Perm.of_eq ?_)
    congr 1
    apply List.filter_congr
    intro e _
    exact Bool.and_comm _ _
  have hmem : ∀ a ∈ getMonthLicenses env (LocalStorage.json doc) year month,
      ∃ e ∈ doc.records.entries, a.date = e.1 ∧ e.2.type = "license" ∧
        DateKey.year e.1 = year ∧ DateKey.month e.1 = month + 1 := by
    intro a ha
    obtain ⟨e, hef, rfl⟩ := List.mem_map.mp (hperm2.mem_iff.mp ha)
    obtain ⟨hin, hp⟩ := List.mem_filter.mp hef
    simp only [Bool.and_eq_true, decide_eq_true_eq] at hp
    exact ⟨e, hin, rfl, hp.2, hp.1.1, hp.1.2⟩
  refine ⟨hperm2, ?_, ?_⟩
  · have hall : (getMonthLicenses env (LocalStorage.json doc) year month).Pairwise
        (fun a b => DateKey.isCanonical a.date = true ∧ DateKey.isCanonical b.date = true) := by
      rw [List.pairwise_iff_forall_sublist]
      intro a b hab
      have ha := hab.subset (List.mem_cons_self _ _)
      have hb := hab.subset (List.mem_cons_of_mem _ (List.mem_cons_self _ _))
      obtain ⟨e, hin, hd, -⟩ := hmem a ha
      obtain ⟨e2, hin2, hd2, -⟩ := hmem b hb
      rw [hd, hd2]
      exact ⟨hk e hin, hk e2 hin2⟩
    exact (hsorted.and hall).imp (fun h => (dateKey_lt_iff _ _ h.2.1 h.2.2).mp h.1)
  · intro a ha
    obtain ⟨e, hin, hd, ht, hyr, hmo⟩ := hmem a ha
    rw [hd]
    refine ⟨hyr, hmo, e.2, ?_, ht⟩
    unfold getRecord
    simp only [getData]
    exact JSObject.get_of_mem _ _ _ (by simpa using hin)

end Storage

namespace Storage

/-- The amended C12 at a store with two licenses of February 2024 stored in
descending order, an office day of that month and a license of March. -/
theorem getMonthLicenses_spec_witness :
    (∀ e ∈ storeOfTwoLicenses.records.entries, DateKey.isCanonical e.1 = true) ∧
    (getMonthLicenses ⟨0, "abc"⟩ (LocalStorage.json storeOfTwoLicenses) 2024 1).Pairwise
      (fun a b => DateKey.dateNumber a.date < DateKey.dateNumber b.date) ∧
    getMonthLicenses ⟨0, "abc"⟩ (LocalStorage.json storeOfTwoLicenses) 2024 1 =
      [⟨"2024-02-05", "Otro"⟩, ⟨"2024-02-20", "Vacaciones"⟩] :=
  ⟨by decide!,
   (getMonthLicenses_spec ⟨0, "abc"⟩ storeOfTwoLicenses 2024 1 (by decide!) (by decide)
      (by decide) (by decide)).2.1,
   by decide!⟩

/-- C12 as stated fails for the years 0 to 999: the store holds one license
record of January of the year 999, under the canonical key `0999-01-15`, and
`getMonthLicenses(999, 0)` returns no entry. -/
theorem getMonthLicenses_year999 :
    (∀ e ∈ storeOfYear999.records.entries, DateKey.isCanonical e.1 = true) ∧
    (storeOfYear999.records.entries.filter (fun e =>
        decide (DateKey.year e.1 = 999 ∧ DateKey.month e.1 = 0 + 1) &&
          decide (e.2.type = "license"))).map Prod.fst = ["0999-01-15"] ∧
    getMonthLicenses ⟨0, "abc"⟩ (LocalStorage.json storeOfYear999) 999 0 = [] := by
  decide!

end Storage

/-! ## Weekend dates: the checks of the handlers and `isWeekend` -/

namespace Calculations

open JSDate

/-- C18, amended.  For every time zone offset within a day of Greenwich,
every year from -271820 to 275759 and every month index 0 .. 11:
`countWorkingDaysInMonth(year, month)` is the length of
`getWorkingDaysInMonth(year, month)`, every `Date` object of whose loop is
valid; for a year outside 0 .. 99 it is the number of days of that Gregorian
month that are neither Saturday nor Sunday, and for a year from 0 to 99 it is
that number for the month of the year 1900 + year; for February 2024, a month
of 29 days that starts on a Thursday, it is 21. -/
theorem countWorkingDaysInMonth_spec (tz year month : Int)
    (hy1 : -271820 ≤ year) (hy2 : year ≤ 275759)
    (htz1 : -msPerDay ≤ tz) (htz2 : tz ≤ msPerDay) (h0 : 0 ≤ month) (h1 : month ≤ 11) :
    TimeClipped.countWorkingDaysInMonth tz year month =
      (TimeClipped.getWorkingDaysInMonth tz year month).length ∧
    TimeClipped.countWorkingDaysInMonth tz year month = countWorkingDaysInMonth tz year month ∧
    countWorkingDaysInMonth tz year month = (getWorkingDaysInMonth tz year month).length ∧
    (year < 0 ∨ 99 < year →
      countWorkingDaysInMonth tz year month = (Gregorian.workingDays year month).length) ∧
    (0 ≤ year ∧ year ≤ 99 →
      countWorkingDaysInMonth tz year month =
        (Gregorian.workingDays (1900 + year) month).length) ∧
    (∀ y : Int, (Gregorian.workingDays y month).length =
      (((List.range (Gregorian.daysInMonth y month)).map (fun (i : Nat) => (i : Int) + 1)).filter
        (fun d => decide (Gregorian.dayOfWeek y month d ≠ 0 ∧
          Gregorian.dayOfWeek y month d ≠ 6))).length) ∧
    (countWorkingDaysInMonth tz 2024 1 = 21 ∧
      TimeClipped.countWorkingDaysInMonth tz 2024 1 = 21 ∧
      Gregorian.daysInMonth 2024 1 = 29 ∧ Gregorian.dayOfWeek 2024 1 1 = 4) := by
  have hvalid := TimeClipped.getWorkingDaysInMonth_valid tz year month hy1 hy2 htz1 htz2 h0 h1
  have h2024 : countWorkingDaysInMonth tz 2024 1 = 21 := by
    unfold countWorkingDaysInMonth
    rw [getWorkingDaysInMonth_eq tz 2024 2024 1 (by decide) (by decide) (by decide),
      List.length_map]
    decide
  refine ⟨rfl, ?_, rfl, ?_, ?_, ?_, h2024, ?_, by decide, by decide⟩
  · unfold TimeClipped.countWorkingDaysInMonth countWorkingDaysInMonth
    rw [hvalid, List.length_map]
  · intro hy
    have hyr : year = if 0 ≤ year ∧ year ≤ 99 then 1900 + year else year := by
      rw [if_neg]; omega
    unfold countWorkingDaysInMonth
    rw [getWorkingDaysInMonth_eq tz year year month hyr h0 h1, List.length_map]
  · intro hy
    have hyr : 1900 + year = if 0 ≤ year ∧ year ≤ 99 then 1900 + year else year := by
      rw [if_pos hy]
    unfold countWorkingDaysInMonth
    rw [getWorkingDaysInMonth_eq tz (1900 + year) year month hyr h0 h1, List.length_map]
  · intro y
    unfold Gregorian.workingDays
    congr 1
    apply List.filter_congr
    intro d _
    simp
  · unfold TimeClipped.countWorkingDaysInMonth
    rw [TimeClipped.getWorkingDaysInMonth_valid tz 2024 1 (by decide) (by decide) htz1 htz2
      (by decide) (by decide), List.length_map]
    exact h2024

/-- The amended C18 at April 2025 in a zone three hours west of Greenwich, 22
working days, and at January of the year 50, counted as January 1950. -/
theorem countWorkingDaysInMonth_spec_witness :
    ((2025 : Int) < 0 ∨ 99 < (2025 : Int)) ∧
    TimeClipped.countWorkingDaysInMonth (-10800000) 2025 3 =
      countWorkingDaysInMonth (-10800000) 2025 3 ∧
    countWorkingDaysInMonth (-10800000) 2025 3 = (Gregorian.workingDays 2025 3).length ∧
    (Gregorian.workingDays 2025 3).length = 22 ∧
    countWorkingDaysInMonth (-10800000) 50 0 = (Gregorian.workingDays (1900 + 50) 0).length :=
  ⟨by decide,
   (countWorkingDaysInMonth_spec (-10800000) 2025 3 (by decide) (by decide) (by decide)
      (by decide) (by decide) (by decide)).2.1,
   (countWorkingDaysInMonth_spec (-10800000) 2025 3 (by decide) (by decide) (by decide)
      (by decide) (by decide) (by decide)).2.2.2.1 (by decide),
   by decide,
   (countWorkingDaysInMonth_spec (-10800000) 50 0 (by decide) (by decide) (by decide)
      (by decide) (by decide) (by decide)).2.2.2.2.1 (by decide)⟩

/-- C18 as stated fails for the years 0 to 99.  For year 50 and January the
count is 22, the number of working days of January 1950, while January of the
year 50 has 21 days from Monday to Friday.  It also fails beyond the range of
`Date`: for January 275761 and September 275760 the count is 0, while each
month has 22 days from Monday to Friday. -/
theorem countWorkingDaysInMonth_year50 :
    (countWorkingDaysInMonth 0 50 0 = 22 ∧ TimeClipped.countWorkingDaysInMonth 0 50 0 = 22 ∧
      (Gregorian.workingDays 50 0).length = 21 ∧ (Gregorian.workingDays 1950 0).length = 22) ∧
    (TimeClipped.countWorkingDaysInMonth 0 275761 0 = 0 ∧
      (Gregorian.workingDays 275761 0).length = 22 ∧
      TimeClipped.countWorkingDaysInMonth 0 275760 8 = 0 ∧
      (Gregorian.workingDays 275760 8).length = 22) := by
  decide!

/-- C20.  `isWeekend` given the text `2024-02-17`, a Saturday, returns false
in a zone three hours west of Greenwich: the text is read as the UTC midnight
of that day, which is Friday evening there, while `getDay()` is the local day
of the week; in UTC the same call returns true.  For a `Date` object
`isWeekend` is true exactly when the Gregorian day of the week of its local
year, month and day is Sunday (0) or Saturday (6), and for the local noon of
a key, as `handleLicenseSubmit` builds it, exactly when the key names a
Saturday or a Sunday.  No date returned by `getWorkingDaysInMonth` satisfies
`isWeekend`, and every date `new Date(year, month, day)` of the loop that is
not returned does. -/
theorem isWeekend_dateText :
    (isWeekend (-10800000) (DateOrString.text "2024-02-17") = false ∧
     DateKey.isValid "2024-02-17" = true ∧ DateKey.dayOfWeek "2024-02-17" = 6 ∧
     parse (-10800000) "2024-02-17" = some 1708128000000 ∧
     (getFullYear (-10800000) 1708128000000, getMonth (-10800000) 1708128000000,
       getDate (-10800000) 1708128000000, getDay (-10800000) 1708128000000) = (2024, 1, 16, 5) ∧
     isWeekend 0 (DateOrString.text "2024-02-17") = true) ∧
    (∀ tz t : Int,
      isWeekend tz (DateOrString.date (some t)) = true ↔
        (Gregorian.dayOfWeek (getFullYear tz t) (getMonth tz t) (getDate tz t) = 0 ∨
         Gregorian.dayOfWeek (getFullYear tz t) (getMonth tz t) (getDate tz t) = 6)) ∧
    (∀ (tz : Int) (v : String), DateKey.isValid v = true →
      isWeekend tz (DateOrString.date (parse tz (v ++ "T12:00:00"))) = DateKey.isWeekendKey v) ∧
    (∀ tz year month d : Int, d ∈ getWorkingDaysInMonth tz year month →
      isWeekend tz (DateOrString.date (some d)) = false) ∧
    (∀ tz year month day : Int, 1 ≤ day →
      day ≤ getDate tz (newDate tz year (month + 1) 0) →
      newDate tz year month day ∉ getWorkingDaysInMonth tz year month →
      isWeekend tz (DateOrString.date (some (newDate tz year month day))) = true) := by
  refine ⟨by decide!, ?_, fun tz v hv => isWeekend_noon tz v hv, ?_, ?_⟩
  · intro tz t
    unfold isWeekend
    simp only [getDay, getFullYear, getMonth, getDate, WeekDay_gregorian, Bool.or_eq_true,
      decide_eq_true_eq]
  · intro tz year month d hd
    unfold getWorkingDaysInMonth at hd
    obtain ⟨-, hp⟩ := List.mem_filter.mp hd
    simp only [Bool.and_eq_true, decide_eq_true_eq, ne_eq] at hp
    unfold isWeekend
    simp [hp.1, hp.2]
  · intro tz year month day hd1 hd2 hnot
    unfold getWorkingDaysInMonth at hnot
    rw [List.mem_filter, not_and] at hnot
    have hin : newDate tz year month day ∈
        (List.range (getDate tz (newDate tz year (month + 1) 0)).toNat).map
          (fun (i : Nat) => newDate tz year month ((i : Int) + 1)) := by
      apply List.mem_map.mpr
      refine ⟨(day - 1).toNat, List.mem_range.mpr (by omega), ?_⟩
      have e : (((day - 1).toNat : Nat) : Int) + 1 = day := by omega
      rw [e]
    have hp := hnot hin
    simp only [Bool.and_eq_true, decide_eq_true_eq, ne_eq, not_and, not_not] at hp
    unfold isWeekend
    by_cases h0 : getDay tz (newDate tz year month day) = 0
    · simp [h0]
    · simp [hp h0]

end Calculations

namespace App

/-- C14.  In a zone three hours west of Greenwich, at 2024-02-17T01:00:00Z,
which is Friday the 16th at 22:00 there, `handleCheckin('office')` on the empty
store passes the `isWeekend` check and writes a record under the key
`2024-02-17`, a Saturday: the check reads the local day of the week, while
`formatDate` takes the key from the UTC date of `toISOString()`.  The sibling
`handleLicenseSubmit` checks the day the key names and writes nothing for a
key of a Saturday or Sunday, and `deleteLicense` adds no record. -/
theorem handleCheckin_weekend_key :
    (Calculations.isWeekend (-10800000)
        (Calculations.DateOrString.date (some 1708131600000)) = false ∧
     JSDate.toISOString 1708131600000 = "2024-02-17T01:00:00.000Z" ∧
     (JSDate.getFullYear (-10800000) 1708131600000, JSDate.getMonth (-10800000) 1708131600000,
       JSDate.getDate (-10800000) 1708131600000, JSDate.getDay (-10800000) 1708131600000,
       JSDate.HourFromTime (JSDate.LocalTime (-10800000) 1708131600000)) = (2024, 1, 16, 5, 22) ∧
     Calculations.formatDate 1708131600000 = "2024-02-17" ∧
     DateKey.isValid "2024-02-17" = true ∧ DateKey.dayOfWeek "2024-02-17" = 6 ∧
     (∀ k : String, Storage.getRecord ⟨1708131600000, "abc"⟩ LocalStorage.absent k = none) ∧
     Storage.getRecord ⟨1708131600000, "abc"⟩
        (handleCheckin (-10800000) ⟨1708131600000, "abc"⟩ LocalStorage.absent "office")
        "2024-02-17" =
       some { type := "office", timestamp := "2024-02-17T01:00:00.000Z", licenseType := none }) ∧
    (∀ (tz : Int) (env : Env) (ls : LocalStorage) (v category : String),
      DateKey.isValid v = true → DateKey.isWeekendKey v = true →
      handleLicenseSubmit tz env ls v category = ls) ∧
    (∀ (env env2 : Env) (ls : LocalStorage) (d k : String) (r : Record),
      Storage.getRecord env2 (deleteLicense env ls d) k = some r →
      Storage.getRecord env2 ls k = some r) := by
  refine ⟨⟨by decide!, by decide!, by decide!, by decide!, by decide!, by decide!,
    fun k => rfl, by decide!⟩, ?_, ?_⟩
  · intro tz env ls v category hv hw
    unfold handleLicenseSubmit
    simp only [Calculations.isWeekend_noon tz v hv, hw, if_true, ite_self]
  · intro env env2 ls d k r h
    unfold deleteLicense at h
    by_cases hk : k = d
    · subst hk
      rw [Storage.getRecord_deleteRecord_same] at h
      exact absurd h (by simp)
    · rw [Storage.getRecord_deleteRecord_other env env2 ls d k hk] at h
      rw [Storage.getRecord_env env2 env]
      exact h

end App

/-! ## The range of the projection -/

namespace Calculations

/-- C22.  For all non-negative integers `currentOffice`, `currentRemote` and
`remainingDays`, the last one at most `2 ^ 50`: `projectFinalPercentage`
returns a number, not the `NaN` of a division by zero, and it lies in the
interval from 0 to 1; it is 0.60 when `currentOffice + currentRemote = 0`, and
otherwise the office days the projection adds lie between 0 and
`remainingDays`, the denominator `currentOffice + currentRemote +
remainingDays` is positive and the value is the quotient of the projected
office days by it; when `remainingDays = 0` and `currentOffice + currentRemote
> 0` the value is `calculatePresencePercentage(currentOffice, currentOffice +
currentRemote)`. -/
theorem projectFinalPercentage_range (currentOffice currentRemote remainingDays : Int)
    (ho : 0 ≤ currentOffice) (hr : 0 ≤ currentRemote) (hd : 0 ≤ remainingDays)
    (hb : remainingDays ≤ 2 ^ 50) :
    (∃ v : ℚ, projectFinalPercentage currentOffice currentRemote remainingDays = some v ∧
      0 ≤ v ∧ v ≤ 1) ∧
    (currentOffice + currentRemote = 0 →
      projectFinalPercentage currentOffice currentRemote remainingDays = some (60 / 100)) ∧
    (currentOffice + currentRemote ≠ 0 →
      0 ≤ mathRound (Binary64.nearest ((remainingDays : ℚ) *
        Binary64.nearest ((currentOffice : ℚ) / ((currentOffice + currentRemote : Int) : ℚ)))) ∧
      mathRound (Binary64.nearest ((remainingDays : ℚ) *
        Binary64.nearest ((currentOffice : ℚ) / ((currentOffice + currentRemote : Int) : ℚ))))
        ≤ remainingDays ∧
      0 < currentOffice + currentRemote + remainingDays ∧
      projectFinalPercentage currentOffice currentRemote remainingDays =
        some (((currentOffice + mathRound (Binary64.nearest ((remainingDays : ℚ) *
          Binary64.nearest ((currentOffice : ℚ) / ((currentOffice + currentRemote : Int) : ℚ))))
            : Int) : ℚ) /
          ((currentOffice + currentRemote + remainingDays : Int) : ℚ))) ∧
    (remainingDays = 0 → 0 < currentOffice + currentRemote →
      projectFinalPercentage currentOffice currentRemote remainingDays =
        some (calculatePresencePercentage currentOffice (currentOffice + currentRemote))) := by
  have hzero : currentOffice + currentRemote = 0 →
      projectFinalPercentage currentOffice currentRemote remainingDays = some (60 / 100) := by
    intro h
    unfold projectFinalPercentage TARGET_PERCENTAGE
    simp only [h, if_true]
    norm_num
  have hval : currentOffice + currentRemote ≠ 0 →
      projectFinalPercentage currentOffice currentRemote remainingDays =
        some (((currentOffice + mathRound (Binary64.nearest ((remainingDays : ℚ) *
          Binary64.nearest ((currentOffice : ℚ) / ((currentOffice + currentRemote : Int) : ℚ))))
            : Int) : ℚ) /
          ((currentOffice + currentRemote + remainingDays : Int) : ℚ)) := by
    intro h
    have hden : currentOffice + currentRemote + remainingDays ≠ 0 := by omega
    unfold projectFinalPercentage
    simp only [h, if_false, hden]
  refine ⟨?_, hzero, ?_, ?_⟩
  · by_cases h : currentOffice + currentRemote = 0
    · exact ⟨60 / 100, hzero h, by norm_num, by norm_num⟩
    · obtain ⟨hk0, hk1, -⟩ :=
        projectedShare_bounds currentOffice currentRemote remainingDays ho hr hd h
      have hk2 := hk1 hb
      refine ⟨_, hval h, ?_, ?_⟩
      · have hden : (0 : ℚ) < ((currentOffice + currentRemote + remainingDays : Int) : ℚ) := by
          have : 0 < currentOffice + currentRemote + remainingDays := by omega
          exact_mod_cast this
        apply div_nonneg _ (le_of_lt hden)
        have : 0 ≤ currentOffice + mathRound (Binary64.nearest ((remainingDays : ℚ) *
          Binary64.nearest ((currentOffice : ℚ) / ((currentOffice + currentRemote : Int) : ℚ)))) := by
          omega
        exact_mod_cast this
      · have hden : (0 : ℚ) < ((currentOffice + currentRemote + remainingDays : Int) : ℚ) := by
          have : 0 < currentOffice + currentRemote + remainingDays := by omega
          exact_mod_cast this
        rw [div_le_one hden]
        have : currentOffice + mathRound (Binary64.nearest ((remainingDays : ℚ) *
          Binary64.nearest ((currentOffice : ℚ) / ((currentOffice + currentRemote : Int) : ℚ))))
            ≤ currentOffice + currentRemote + remainingDays := by omega
        exact_mod_cast this
  · intro h
    obtain ⟨hk0, hk1, -⟩ :=
      projectedShare_bounds currentOffice currentRemote remainingDays ho hr hd h
    exact ⟨hk0, hk1 hb, by omega, hval h⟩
  · intro h0 hpos
    have h : currentOffice + currentRemote ≠ 0 := by omega
    rw [hval h]
    obtain ⟨hk0, hk1, -⟩ :=
      projectedShare_bounds currentOffice currentRemote remainingDays ho hr hd h
    have hk2 := hk1 hb
    have hk : mathRound (Binary64.nearest ((remainingDays : ℚ) *
        Binary64.nearest ((currentOffice : ℚ) / ((currentOffice + currentRemote : Int) : ℚ)))) = 0 := by
      omega
    rw [hk, h0]
    unfold calculatePresencePercentage
    simp only [h, if_false, add_zero]

/-- C22 at 3 office days, 2 remote days and 4 remaining days: the binary64
product is near 12/5, it is rounded to 2 and the projection is 5/9; with no
remaining day the value is the presence percentage 3/5; with no decided day
it is 0.60. -/
theorem projectFinalPercentage_range_witness :
    (∃ v : ℚ, projectFinalPercentage 3 2 4 = some v ∧ 0 ≤ v ∧ v ≤ 1) ∧
    projectFinalPercentage 3 2 4 = some (5 / 9) ∧
    projectFinalPercentage 3 2 0 = some (calculatePresencePercentage 3 (3 + 2)) ∧
    calculatePresencePercentage 3 (3 + 2) = 3 / 5 ∧
    projectFinalPercentage 0 0 0 = some (60 / 100) :=
  ⟨(projectFinalPercentage_range 3 2 4 (by decide) (by decide) (by decide) (by decide)).1,
   by decide!,
   (projectFinalPercentage_range 3 2 0 (by decide) (by decide) (by decide)
      (by decide)).2.2.2 rfl (by decide),
   by decide!,
   (projectFinalPercentage_range 0 0 0 (by decide) (by decide) (by decide)
      (by decide)).2.1 rfl⟩

end Calculations

/-! ## The date key of a local midnight -/

theorem takeWhile_ne_append (c : Char) :
    ∀ l r : List Char, (∀ x ∈ l, x ≠ c) →
      (l ++ c :: r).takeWhile (fun x => decide (x ≠ c)) = l
  | [], r, _ => by simp
  | a :: l, r, h => by
    have ha : a ≠ c := h a (List.mem_cons_self _ _)
    have ih := takeWhile_ne_append c l r (fun x hx => h x (List.mem_cons_of_mem _ hx))
    rw [List.cons_append, List.takeWhile_cons, ih]
    simp [ha]

theorem isDigit_ne_T (c : Char) (h : c.isDigit = true) : c ≠ 'T' := by
  intro e
  rw [e] at h
  exact absurd h (by decide)

theorem padStart_data (s : String) (n : Nat) (c : Char) :
    (JSString.padStart s n c).data = List.replicate (n - s.data.length) c ++ s.data := rfl

/-- A padded text of a non-negative integer has no letter `T`. -/
theorem padStart_ofNumber_ne_T (x : Int) (hx : 0 ≤ x) (n : Nat) :
    ∀ c ∈ (JSString.padStart (JSString.ofNumber x) n '0').data, c ≠ 'T' := by
  obtain ⟨m, rfl⟩ := Int.eq_ofNat_of_zero_le hx
  intro c hc
  rw [padStart_data, ofNumber_data_nat, List.mem_append] at hc
  rcases hc with hc | hc
  · rw [List.eq_of_mem_replicate hc]
    decide
  · exact isDigit_ne_T c (toDigits_isDigit m c hc)

theorem padStart_two (n : Nat) (h : n < 100) :
    (JSString.padStart (JSString.ofNumber (n : Int)) 2 '0').data =
      [Nat.digitChar (n / 10), Nat.digitChar (n % 10)] := by
  rw [padStart_data, ofNumber_data_nat]
  by_cases h1 : n < 10
  · rw [toDigits_small n h1]
    have e1 : n / 10 = 0 := by omega
    have e2 : n % 10 = n := by omega
    rw [e1, e2]
    rfl
  · rw [toDigits_step n (by omega), toDigits_small (n / 10) (by omega)]
    rfl

theorem padStart_four (n : Nat) (h : n ≤ 9999) :
    (JSString.padStart (JSString.ofNumber (n : Int)) 4 '0').data =
      [Nat.digitChar (n / 1000), Nat.digitChar (n / 100 % 10), Nat.digitChar (n / 10 % 10),
        Nat.digitChar (n % 10)] := by
  rw [padStart_data, ofNumber_data_nat]
  by_cases h1 : n < 10
  · rw [toDigits_small n h1]
    have e1 : n / 1000 = 0 := by omega
    have e2 : n / 100 % 10 = 0 := by omega
    have e3 : n / 10 % 10 = 0 := by omega
    have e4 : n % 10 = n := by omega
    rw [e1, e2, e3, e4]
    rfl
  by_cases h2 : n < 100
  · rw [toDigits_step n (by omega), toDigits_small (n / 10) (by omega)]
    have e1 : n / 1000 = 0 := by omega
    have e2 : n / 100 % 10 = 0 := by omega
    have e3 : n / 10 % 10 = n / 10 := by omega
    rw [e1, e2, e3]
    rfl
  by_cases h3 : n < 1000
  · rw [toDigits_step n (by omega), toDigits_step (n / 10) (by omega),
      toDigits_small (n / 10 / 10) (by omega)]
    have e1 : n / 1000 = 0 := by omega
    have e2 : n / 10 / 10 = n / 100 % 10 := by omega
    rw [e1, e2]
    rfl
  · rw [toDigits_four n (by omega) h]
    rfl

namespace JSDate

/-- The date part of `toISOString()` has no letter `T`. -/
theorem isoDatePart_ne_T (t : Int) : ∀ c ∈ (isoDatePart t).data, c ≠ 'T' := by
  obtain ⟨hm0, -, hd1, -, -⟩ := civil_decompose t
  have hm := padStart_ofNumber_ne_T (MonthFromTime t + 1) (by omega) 2
  have hd := padStart_ofNumber_ne_T (DateFromTime t) (by omega) 2
  have hy4 : 0 ≤ YearFromTime t →
      ∀ c ∈ (JSString.padStart (JSString.ofNumber (YearFromTime t)) 4 '0').data, c ≠ 'T' :=
    fun h => padStart_ofNumber_ne_T (YearFromTime t) h 4
  have hy6 := padStart_ofNumber_ne_T ((YearFromTime t).natAbs : Int) (Int.natCast_nonneg _) 6
  intro c hc
  unfold isoDatePart at hc
  simp only [String.data_append, List.mem_append] at hc
  have hdash : ∀ x ∈ ("-" : String).data, x ≠ 'T' := by
    intro x hx
    have : x = '-' := by simpa using hx
    rw [this]
    decide
  have hplus : ∀ x ∈ ("+" : String).data, x ≠ 'T' := by
    intro x hx
    have : x = '+' := by simpa using hx
    rw [this]
    decide
  rcases hc with ((((hc | hc) | hc) | hc) | hc)
  · split_ifs at hc with h1 h2
    · exact hy4 h1.1 c hc
    · rw [String.data_append, List.mem_append] at hc
      rcases hc with hc | hc
      · exact hdash c hc
      · exact hy6 c hc
    · rw [String.data_append, List.mem_append] at hc
      rcases hc with hc | hc
      · exact hplus c hc
      · exact hy6 c hc
  · exact hdash c hc
  · exact hm c hc
  · exact hdash c hc
  · exact hd c hc

end JSDate

namespace Calculations

open JSDate

/-- The text `formatDate` returns is the date part of `toISOString()`. -/
theorem formatDate_eq (t : Int) : formatDate t = isoDatePart t := by
  unfold formatDate JSString.beforeFirst toISOString
  have h : (isoDatePart t ++ "T" ++ isoTimePart t).data =
      (isoDatePart t).data ++ 'T' :: (isoTimePart t).data := by
    simp [String.data_append]
  rw [h, takeWhile_ne_append 'T' _ _ (isoDatePart_ne_T t)]

/-- The date part of `toISOString()` depends on the UTC day number only. -/
theorem isoDatePart_congr (t u : Int) (h : Day t = Day u) : isoDatePart t = isoDatePart u := by
  unfold isoDatePart DateFromTime MonthFromTime InLeapYear DayWithinYear YearFromTime
  rw [h]

end Calculations

namespace JSDate

/-- For a year from 0 to 9999 the date part of `toISOString()` is the
canonical key of the UTC year, month and day of the time value. -/
theorem isoDatePart_fields (t : Int) (h0 : 0 ≤ YearFromTime t) (h1 : YearFromTime t ≤ 9999) :
    DateKey.isCanonical (isoDatePart t) = true ∧
    DateKey.year (isoDatePart t) = YearFromTime t ∧
    DateKey.month (isoDatePart t) = MonthFromTime t + 1 ∧
    DateKey.day (isoDatePart t) = DateFromTime t := by
  obtain ⟨hm0, hm1, hd1, hd2, -⟩ := civil_decompose t
  have hd3 : DateFromTime t ≤ 31 := by
    have : Gregorian.daysInMonth (YearFromTime t) (MonthFromTime t) ≤ 31 := by
      unfold Gregorian.daysInMonth
      split <;> first | decide | (split_ifs <;> decide)
    omega
  obtain ⟨y, hy⟩ := Int.eq_ofNat_of_zero_le h0
  obtain ⟨m, hm⟩ := Int.eq_ofNat_of_zero_le (show 0 ≤ MonthFromTime t + 1 by omega)
  obtain ⟨d, hd⟩ := Int.eq_ofNat_of_zero_le (show 0 ≤ DateFromTime t by omega)
  have hdata : (isoDatePart t).data =
      [Nat.digitChar (y / 1000), Nat.digitChar (y / 100 % 10), Nat.digitChar (y / 10 % 10),
        Nat.digitChar (y % 10), '-', Nat.digitChar (m / 10), Nat.digitChar (m % 10), '-',
        Nat.digitChar (d / 10), Nat.digitChar (d % 10)] := by
    unfold isoDatePart
    simp only [if_pos (And.intro h0 h1), String.data_append]
    rw [hy, hm, hd, padStart_four y (by omega), padStart_two m (by omega),
      padStart_two d (by omega)]
    rfl
  have b1 : y / 1000 < 10 := by omega
  have b2 : y / 100 % 10 < 10 := by omega
  have b3 : y / 10 % 10 < 10 := by omega
  have b4 : y % 10 < 10 := by omega
  have b5 : m / 10 < 10 := by omega
  have b6 : m % 10 < 10 := by omega
  have b7 : d / 10 < 10 := by omega
  have b8 : d % 10 < 10 := by omega
  refine ⟨?_, ?_, ?_, ?_⟩
  · unfold DateKey.isCanonical
    rw [hdata]
    simp [digitChar_isDigit _ b1, digitChar_isDigit _ b2, digitChar_isDigit _ b3,
      digitChar_isDigit _ b4, digitChar_isDigit _ b5, digitChar_isDigit _ b6,
      digitChar_isDigit _ b7, digitChar_isDigit _ b8]
  · unfold DateKey.year
    rw [hdata]
    simp only [digitValue_digitChar _ b1, digitValue_digitChar _ b2,
      digitValue_digitChar _ b3, digitValue_digitChar _ b4]
    omega
  · unfold DateKey.month
    rw [hdata]
    simp only [digitValue_digitChar _ b5, digitValue_digitChar _ b6]
    omega
  · unfold DateKey.day
    rw [hdata]
    simp only [digitValue_digitChar _ b7, digitValue_digitChar _ b8]
    omega

end JSDate

/-- The fields of a canonical key are numbers of four, two and two digits. -/
theorem canonical_bounds (a : String) (ha : DateKey.isCanonical a = true) :
    (0 ≤ DateKey.year a ∧ DateKey.year a ≤ 9999) ∧
    (0 ≤ DateKey.month a ∧ DateKey.month a ≤ 99) ∧
    (0 ≤ DateKey.day a ∧ DateKey.day a ≤ 99) := by
  obtain ⟨a1, a2, a3, a4, a5, a6, a7, a8, hA, hA2, hA3, hda⟩ := isCanonical_data a ha
  unfold DateKey.year DateKey.month DateKey.day
  rw [hda]
  simp only [digitValue_digitChar _ hA.1, digitValue_digitChar _ hA.2.1,
    digitValue_digitChar _ hA.2.2.1, digitValue_digitChar _ hA.2.2.2,
    digitValue_digitChar _ hA2.1, digitValue_digitChar _ hA2.2,
    digitValue_digitChar _ hA3.1, digitValue_digitChar _ hA3.2]
  omega

/-- Two canonical keys with the same year, month and day are the same text. -/
theorem canonical_eq_of_fields (a b : String) (ha : DateKey.isCanonical a = true)
    (hb : DateKey.isCanonical b = true) (hy : DateKey.year a = DateKey.year b)
    (hm : DateKey.month a = DateKey.month b) (hd : DateKey.day a = DateKey.day b) : a = b := by
  have hn : DateKey.dateNumber a = DateKey.dateNumber b := by
    unfold DateKey.dateNumber
    rw [hy, hm, hd]
  rcases lt_trichotomy a b with h | h | h
  · have := (dateKey_lt_iff a b ha hb).mp h
    omega
  · exact h
  · have := (dateKey_lt_iff b a hb ha).mp h
    omega

namespace JSDate

/-- The UTC day number of the local midnight `new Date(year, month, day)`: the
day itself in a zone at or west of Greenwich, the day before east of it. -/
theorem Day_newDate_utc (tz year month day : Int) (h1 : -msPerDay < tz) (h2 : tz ≤ msPerDay) :
    Day (newDate tz year month day) =
      MakeDay (if 0 ≤ year ∧ year ≤ 99 then 1900 + year else year) month day
        - (if 0 < tz then 1 else 0) := by
  unfold newDate UTC MakeDate MakeTime Day at *
  unfold msPerDay msPerHour msPerMinute msPerSecond at *
  simp only
  split_ifs <;> omega

end JSDate

namespace Calculations

open JSDate

/-- East of Greenwich the key of a local midnight is the key of the day
before it. -/
theorem formatDate_newDate_east (tz year month day : Int) (h1 : 0 < tz) (h2 : tz ≤ msPerDay) :
    formatDate (newDate tz year month day) = formatDate (newDate 0 year month (day - 1)) := by
  rw [formatDate_eq, formatDate_eq]
  apply isoDatePart_congr
  have hpos : (0 : Int) < msPerDay := by decide
  rw [Day_newDate_utc tz year month day (by omega) h2,
    Day_newDate_utc 0 year month (day - 1) (by omega) (by omega)]
  unfold MakeDay
  simp only [h1, if_true, lt_irrefl, if_false]
  omega

/-- At or west of Greenwich the key of the local midnight of the day a valid
key names is that key. -/
theorem formatDate_newDate_west (tz : Int) (v : String) (h1 : -msPerDay < tz) (h2 : tz ≤ 0)
    (hv : DateKey.isValid v = true) (hy : 100 ≤ DateKey.year v) :
    formatDate (newDate tz (DateKey.year v) (DateKey.month v - 1) (DateKey.day v)) = v := by
  have hv2 := hv
  unfold DateKey.isValid at hv2
  simp only [Bool.and_eq_true, decide_eq_true_eq] at hv2
  obtain ⟨hc, hm1, hm2, hd1, hd2⟩ := hv2
  obtain ⟨⟨-, hy2⟩, -, -⟩ := canonical_bounds v hc
  have hpos : (0 : Int) < msPerDay := by decide
  have hD := Day_newDate_utc tz (DateKey.year v) (DateKey.month v - 1) (DateKey.day v) h1
    (by omega)
  rw [if_neg (by omega), if_neg (by omega),
    MakeDay_month _ _ _ (by omega) (by omega)] at hD
  obtain ⟨e1, e2, e3⟩ := civil_of_day _ _ _ _ (by omega) (by omega) hd1 hd2
    (by rw [hD]; ring)
  obtain ⟨f0, f1, f2, f3⟩ := isoDatePart_fields
    (newDate tz (DateKey.year v) (DateKey.month v - 1) (DateKey.day v))
    (by rw [e1]; omega) (by rw [e1]; exact hy2)
  rw [formatDate_eq]
  apply canonical_eq_of_fields _ _ f0 hc
  · rw [f1, e1]
  · rw [f2, e2]; ring
  · rw [f3, e3]

/-- East of Greenwich the key of the local midnight of the day a valid key
names is not that key. -/
theorem formatDate_newDate_east_ne (tz : Int) (v : String) (h1 : 0 < tz) (h2 : tz ≤ msPerDay)
    (hv : DateKey.isValid v = true) (hy : 100 ≤ DateKey.year v) :
    formatDate (newDate tz (DateKey.year v) (DateKey.month v - 1) (DateKey.day v)) ≠ v := by
  have hv2 := hv
  unfold DateKey.isValid at hv2
  simp only [Bool.and_eq_true, decide_eq_true_eq] at hv2
  obtain ⟨hc, hm1, hm2, hd1, hd2⟩ := hv2
  obtain ⟨⟨-, hy2⟩, -, -⟩ := canonical_bounds v hc
  have hpos : (0 : Int) < msPerDay := by decide
  have hD := Day_newDate_utc tz (DateKey.year v) (DateKey.month v - 1) (DateKey.day v)
    (by omega) h2
  rw [if_neg (by omega), if_pos h1,
    MakeDay_month _ _ _ (by omega) (by omega)] at hD
  obtain ⟨w1, w2⟩ := dayWithinYear_bounds (DateKey.year v) (DateKey.month v - 1) (DateKey.day v)
    (by omega) (by omega) hd1 hd2
  generalize newDate tz (DateKey.year v) (DateKey.month v - 1) (DateKey.day v) = t at hD
  obtain ⟨s1, s2⟩ := yearFromDay_spec (Day t)
  have hY : yearFromDay (Day t) = YearFromTime t := rfl
  rw [hY] at s1 s2
  have hup : YearFromTime t ≤ DateKey.year v := by
    by_contra hcon
    have := DayFromYear_mono (show DateKey.year v + 1 ≤ YearFromTime t by omega)
    rw [DayFromYear_succ] at this
    omega
  have hlow : DateKey.year v - 1 ≤ YearFromTime t := by
    by_contra hcon
    have := DayFromYear_mono (show YearFromTime t + 1 + 1 ≤ DateKey.year v by omega)
    have := DayFromYear_lt_succ (YearFromTime t + 1)
    omega
  intro heq
  rw [formatDate_eq] at heq
  obtain ⟨-, f1, f2, f3⟩ := isoDatePart_fields t (by omega) (by omega)
  rw [heq] at f1 f2 f3
  obtain ⟨-, -, -, -, c5⟩ := civil_decompose t
  rw [← f1, ← f3] at c5
  have f4 : MonthFromTime t = DateKey.month v - 1 := by omega
  rw [f4] at c5
  omega

end Calculations

namespace App

/-- C21.  In a zone two hours east of Greenwich the local midnight of
14 February 2024, as `renderCalendar` builds it, is 2024-02-13T22:00:00Z and
`formatDate` returns the key `2024-02-13`, of the day before: a license that
`handleLicenseSubmit` stored under `2024-02-14` is not found for the cell of
the 14th and is shown in the cell of the 15th, while three hours west of
Greenwich it is shown on the 14th.  In every zone east of Greenwich the key
of a local midnight is the key of the day before and differs from the key of
the day; in every zone at or west of Greenwich it is the key of the day. -/
theorem renderCalendar_key_shift :
    (JSDate.newDate 7200000 2024 1 14 = 1707861600000 ∧
     JSDate.toISOString 1707861600000 = "2024-02-13T22:00:00.000Z" ∧
     (JSDate.getFullYear 7200000 1707861600000, JSDate.getMonth 7200000 1707861600000,
       JSDate.getDate 7200000 1707861600000,
       JSDate.HourFromTime (JSDate.LocalTime 7200000 1707861600000)) = (2024, 1, 14, 0) ∧
     Calculations.formatDate (JSDate.newDate 7200000 2024 1 14) = "2024-02-13" ∧
     DateKey.isValid "2024-02-14" = true ∧ DateKey.dayOfWeek "2024-02-14" = 3 ∧
     Storage.getRecord ⟨1707900000000, "abc"⟩
        (handleLicenseSubmit 7200000 ⟨1707900000000, "abc"⟩ LocalStorage.absent "2024-02-14"
          "Vacaciones") "2024-02-14" =
       some { type := "license", timestamp := "2024-02-14T08:40:00.000Z",
              licenseType := some "Vacaciones" } ∧
     renderCalendarDay 7200000 ⟨1707900000000, "abc"⟩
        (handleLicenseSubmit 7200000 ⟨1707900000000, "abc"⟩ LocalStorage.absent "2024-02-14"
          "Vacaciones") 2024 1 14 = none ∧
     renderCalendarDay 7200000 ⟨1707900000000, "abc"⟩
        (handleLicenseSubmit 7200000 ⟨1707900000000, "abc"⟩ LocalStorage.absent "2024-02-14"
          "Vacaciones") 2024 1 15 = some "calendar-mini__day--license" ∧
     renderCalendarDay (-10800000) ⟨1707900000000, "abc"⟩
        (handleLicenseSubmit (-10800000) ⟨1707900000000, "abc"⟩ LocalStorage.absent
          "2024-02-14" "Vacaciones") 2024 1 14 = some "calendar-mini__day--license") ∧
    (∀ tz year month day : Int, 0 < tz → tz ≤ JSDate.msPerDay →
      Calculations.formatDate (JSDate.newDate tz year month day) =
        Calculations.formatDate (JSDate.newDate 0 year month (day - 1))) ∧
    (∀ (tz : Int) (v : String), 0 < tz → tz ≤ JSDate.msPerDay →
      DateKey.isValid v = true → 100 ≤ DateKey.year v →
      Calculations.formatDate
        (JSDate.newDate tz (DateKey.year v) (DateKey.month v - 1) (DateKey.day v)) ≠ v) ∧
    (∀ (tz : Int) (v : String), -JSDate.msPerDay < tz → tz ≤ 0 →
      DateKey.isValid v = true → 100 ≤ DateKey.year v →
      Calculations.formatDate
        (JSDate.newDate tz (DateKey.year v) (DateKey.month v - 1) (DateKey.day v)) = v) :=
  ⟨⟨by decide!, by decide!, by decide!, by decide!, by decide!, by decide!, by decide!,
      by decide!, by decide!, by decide!⟩,
   fun tz year month day h1 h2 => Calculations.formatDate_newDate_east tz year month day h1 h2,
   fun tz v h1 h2 hv hy => Calculations.formatDate_newDate_east_ne tz v h1 h2 hv hy,
   fun tz v h1 h2 hv hy => Calculations.formatDate_newDate_west tz v h1 h2 hv hy⟩

end App
